import Mathlib

/-!
# Character state engine of the game server (src/game-server/character.cpp)

A shallow embedding of `Character` as a record, with each member function of
character.cpp translated to a function on that record.

Declarations that character.cpp only uses (the enum constants of defines.h, the
static constants and member types of character.hpp) are gathered in `Defines`
and taken as parameters.  The accessors inherited from `Being`, the messages
of `MessageOut` and the storage gateway `DALStorage`, of which the sources hold
the declarations only, are modelled from the specification (see their doc
comments).
-/

namespace Manaserv

/-! ## Declarations taken from headers -/

/-- Element type of the vector `mExperience`; its declaration is in character.hpp. -/
inductive ExpElem where
  | signedInt
  | unsignedInt
  deriving DecidableEq, Repr

/-- Width of the C++ type `long int` of the platform (ILP32/LLP64 against LP64). -/
inductive LongWidth where
  | w32
  | w64
  deriving DecidableEq, Repr

/-- Number of bits of `long int`. -/
def LongWidth.bits : LongWidth → Nat
  | .w32 => 32
  | .w64 => 64

/-- The constants and type choices that character.cpp reads from its headers.
Attribute indices are the enum constants of defines.h; the curve constants and
the level-up grants are the static constants of character.hpp.  The curve
constants are taken integral, for which the `double` computation of
`expForLevel` is exact on every value that fits an `int`; the precedence
factor is a rational number.  `f2iOut` is the
result of converting an out-of-range `double` to `int` (undefined in C++, a
fixed bit pattern or a wrapped value on real machines).  Theorems that need the
derived attributes to lie before the customizable ones assume
`BASE_ATTR_END <= CHAR_ATTR_BEGIN` explicitly. -/
structure Defines where
  BASE_ATTR_BEGIN : Nat
  BASE_ATTR_END : Nat
  BASE_ATTR_HP : Nat
  BASE_ATTR_HIT : Nat
  BASE_ATTR_EVADE : Nat
  BASE_ATTR_PHY_RES : Nat
  BASE_ATTR_PHY_ATK_MIN : Nat
  BASE_ATTR_PHY_ATK_DELTA : Nat
  BASE_ATTR_MAG_RES : Nat
  BASE_ATTR_MAG_ATK : Nat
  CHAR_ATTR_BEGIN : Nat
  CHAR_ATTR_END : Nat
  CHAR_ATTR_STRENGTH : Nat
  CHAR_ATTR_AGILITY : Nat
  CHAR_ATTR_DEXTERITY : Nat
  CHAR_ATTR_VITALITY : Nat
  CHAR_ATTR_WILLPOWER : Nat
  CHAR_SKILL_BEGIN : Nat
  CHAR_SKILL_END : Nat
  CHAR_SKILL_WEAPON_BEGIN : Nat
  EXPCURVE_EXPONENT : Nat
  EXPCURVE_FACTOR : Nat
  LEVEL_SKILL_PRECEDENCE_FACTOR : ℚ
  CHARPOINTS_PER_LEVELUP : Int
  CORRECTIONPOINTS_PER_LEVELUP : Int
  CORRECTIONPOINTS_MAX : Int
  expElem : ExpElem
  longWidth : LongWidth
  f2iOut : Int → Int

/-! ## Data model -/

/-- The two-field record `Attribute` (initialised as `{ 0, 0 }` by the constructor). -/
structure Attribute where
  base : Int
  mod : Int
  deriving DecidableEq, Repr

/-- Codes returned by the two point-spending operations. -/
inductive AttribmodResponseCode where
  | ATTRIBMOD_OK
  | ATTRIBMOD_INVALID_ATTRIBUTE
  | ATTRIBMOD_NO_POINTS_LEFT
  | ATTRIBMOD_DENIED
  deriving DecidableEq, Repr

/-- The private enum `TransactionType`. -/
inductive TransactionType where
  | TRANS_NONE
  | TRANS_TRADE
  | TRANS_BUYSELL
  deriving DecidableEq, Repr

/-- A call of a handler's cancel member: `Trade::cancel(this)` or
`BuySell::cancel()`, with the address of the handler it was called on. -/
inductive CancelCall where
  | trade (handler : Nat)
  | buySell (handler : Nat)
  deriving DecidableEq, Repr

/-- The members of `Character` that character.cpp reads and writes.  Vectors
are maps from index to element, `std::set<size_t>` is a finite set, a pointer is
its address (0 for NULL), and `cancelCalls` records, in order, the cancel calls
issued on transaction handlers. -/
structure Character where
  mAttributes : Nat → Attribute
  mExperience : Nat → Int
  mModifiedAttributes : Finset Nat
  mModifiedExperience : Finset Nat
  mLevel : Int
  mLevelProgress : Int
  mCharacterPoints : Int
  mCorrectionPoints : Int
  mUpdateLevelProgress : Bool
  mRecalculateLevel : Bool
  mTransaction : TransactionType
  mTransactionHandler : Nat
  cancelCalls : List CancelCall

/-! ## Accessors inherited from Being -/

/-- Modelled from the spec: `Being::getAttribute` (being.hpp is not among the
sources) reads the base value of an attribute from the base attribute map. -/
def getAttribute (c : Character) (n : Nat) : Int :=
  (c.mAttributes n).base

/-- Modelled from the spec: `Being::getModifiedAttribute` (being.hpp is not
among the sources) is the base value plus the modifiers. -/
def getModifiedAttribute (c : Character) (n : Nat) : Int :=
  (c.mAttributes n).base + (c.mAttributes n).mod

/-- Modelled from the spec: `Being::setAttribute` (being.hpp is not among the
sources) overwrites the base value of one attribute and nothing else. -/
def setAttribute (c : Character) (n : Nat) (value : Int) : Character :=
  { c with mAttributes := Function.update c.mAttributes n { c.mAttributes n with base := value } }

/-! ## Attribute recomputation -/

/-- Translation of `Character::flagAttribute`. -/
def flagAttribute (c : Character) (attr : Nat) : Character :=
  { c with mModifiedAttributes := insert attr c.mModifiedAttributes }

/-- The value `newValue` that one pass of the loop of `modifiedAttribute`
computes for index `i`: the if/else-if chain of the source, in its order. -/
def newValue (D : Defines) (c : Character) (i : Nat) : Int :=
  if i = D.BASE_ATTR_HP then
    (getModifiedAttribute c D.CHAR_ATTR_VITALITY + 10) * (c.mLevel + 10)
  else if i = D.BASE_ATTR_HIT then getModifiedAttribute c D.CHAR_ATTR_DEXTERITY
  else if i = D.BASE_ATTR_EVADE then getModifiedAttribute c D.CHAR_ATTR_AGILITY
  else if i = D.BASE_ATTR_PHY_RES then getModifiedAttribute c D.CHAR_ATTR_VITALITY
  else if i = D.BASE_ATTR_PHY_ATK_MIN then getModifiedAttribute c D.CHAR_ATTR_STRENGTH
  else if i = D.BASE_ATTR_PHY_ATK_DELTA then 0
  else if i = D.BASE_ATTR_MAG_RES then getModifiedAttribute c D.CHAR_ATTR_WILLPOWER
  else if i = D.BASE_ATTR_MAG_ATK then getModifiedAttribute c D.CHAR_ATTR_WILLPOWER
  else getAttribute c i

/-- One pass of the loop body of `modifiedAttribute`. -/
def recomputeStep (D : Defines) (c : Character) (i : Nat) : Character :=
  if newValue D c i ≠ getAttribute c i then
    flagAttribute (setAttribute c i (newValue D c i)) i
  else c

/-- The loop `for (i = BASE_ATTR_BEGIN; i < BASE_ATTR_END; ++i)` of `modifiedAttribute`. -/
def recomputeAll (D : Defines) (c : Character) : Character :=
  (List.range' D.BASE_ATTR_BEGIN (D.BASE_ATTR_END - D.BASE_ATTR_BEGIN)).foldl (recomputeStep D) c

/-- Translation of `Character::modifiedAttribute`. -/
def modifiedAttribute (D : Defines) (c : Character) (attr : Nat) : Character :=
  flagAttribute
    (if D.CHAR_ATTR_BEGIN ≤ attr ∧ attr < D.CHAR_ATTR_END then recomputeAll D c else c) attr

/-! ## Point spending -/

/-- Translation of `Character::useCharacterPoint`: the response code and the
state after the call. -/
def useCharacterPoint (D : Defines) (c : Character) (attr : Nat) :
    AttribmodResponseCode × Character :=
  if attr < D.CHAR_ATTR_BEGIN then (.ATTRIBMOD_INVALID_ATTRIBUTE, c)
  else if attr ≥ D.CHAR_ATTR_END then (.ATTRIBMOD_INVALID_ATTRIBUTE, c)
  else if c.mCharacterPoints = 0 then (.ATTRIBMOD_NO_POINTS_LEFT, c)
  else
    let c1 := { c with mCharacterPoints := c.mCharacterPoints - 1 }
    let c2 := setAttribute c1 attr (getAttribute c1 attr + 1)
    (.ATTRIBMOD_OK, modifiedAttribute D c2 attr)

/-- Translation of `Character::useCorrectionPoint`: the response code and the
state after the call. -/
def useCorrectionPoint (D : Defines) (c : Character) (attr : Nat) :
    AttribmodResponseCode × Character :=
  if attr < D.CHAR_ATTR_BEGIN then (.ATTRIBMOD_INVALID_ATTRIBUTE, c)
  else if attr ≥ D.CHAR_ATTR_END then (.ATTRIBMOD_INVALID_ATTRIBUTE, c)
  else if c.mCorrectionPoints = 0 then (.ATTRIBMOD_NO_POINTS_LEFT, c)
  else if getAttribute c attr ≤ 1 then (.ATTRIBMOD_DENIED, c)
  else
    let c1 := { c with mCorrectionPoints := c.mCorrectionPoints - 1 }
    let c2 := { c1 with mCharacterPoints := c1.mCharacterPoints + 1 }
    let c3 := setAttribute c2 attr (getAttribute c2 attr - 1)
    (.ATTRIBMOD_OK, modifiedAttribute D c3 attr)

/-! ## Transactions -/

/-- Translation of `Character::cancelTransaction`.  The bodies of
`Trade::cancel` and `BuySell::cancel` belong to other files; a call is recorded
in `cancelCalls` with the handler it is issued on. -/
def cancelTransaction (c : Character) : Character :=
  let t := c.mTransaction
  let c1 := { c with mTransaction := TransactionType.TRANS_NONE }
  match t with
  | .TRANS_TRADE =>
      { c1 with cancelCalls := c1.cancelCalls ++ [CancelCall.trade c1.mTransactionHandler] }
  | .TRANS_BUYSELL =>
      { c1 with cancelCalls := c1.cancelCalls ++ [CancelCall.buySell c1.mTransactionHandler] }
  | .TRANS_NONE => c1

/-- Translation of `Character::getTrading` (0 is NULL). -/
def getTrading (c : Character) : Nat :=
  if c.mTransaction = .TRANS_TRADE then c.mTransactionHandler else 0

/-- Translation of `Character::getBuySell` (0 is NULL). -/
def getBuySell (c : Character) : Nat :=
  if c.mTransaction = .TRANS_BUYSELL then c.mTransactionHandler else 0

/-- Translation of `Character::setTrading`; `none` is a failed `assert`. -/
def setTrading (c : Character) (t : Nat) : Option Character :=
  if t ≠ 0 then
    let c1 := cancelTransaction c
    some { c1 with mTransactionHandler := t, mTransaction := .TRANS_TRADE }
  else if c.mTransaction = .TRANS_NONE ∨ c.mTransaction = .TRANS_TRADE then
    some { c with mTransaction := .TRANS_NONE }
  else none

/-- Translation of `Character::setBuySell`; `none` is a failed `assert`. -/
def setBuySell (c : Character) (t : Nat) : Option Character :=
  if t ≠ 0 then
    let c1 := cancelTransaction c
    some { c1 with mTransactionHandler := t, mTransaction := .TRANS_BUYSELL }
  else if c.mTransaction = .TRANS_NONE ∨ c.mTransaction = .TRANS_BUYSELL then
    some { c with mTransaction := .TRANS_NONE }
  else none

/-! ## Machine integers -/

/-- The constant `INT_MAX` of a 32-bit `int`. -/
def INT_MAX : Int := 2147483647

/-- The constant `INT_MIN` of a 32-bit `int`. -/
def INT_MIN : Int := -2147483648

/-- Value of an integer once stored in an unsigned type of `bits` bits. -/
def wrapUnsigned (bits : Nat) (x : Int) : Int :=
  x % 2 ^ bits

/-- Value of an integer once stored in a signed type of `bits` bits
(two's complement). -/
def wrapSigned (bits : Nat) (x : Int) : Int :=
  (x + 2 ^ (bits - 1)) % 2 ^ bits - 2 ^ (bits - 1)

/-- Value of an integer once stored in an element of `mExperience`. -/
def toExpElem (D : Defines) (x : Int) : Int :=
  match D.expElem with
  | .signedInt => wrapSigned 32 x
  | .unsignedInt => wrapUnsigned 32 x

/-- Value of an integer once stored in a `long int`. -/
def toLong (D : Defines) (x : Int) : Int :=
  wrapSigned D.longWidth.bits x

/-- Conversion of a `double` holding the integer `v` to `int`: the value itself
when it fits, the out-of-range result of the platform otherwise. -/
def doubleToInt (D : Defines) (v : Int) : Int :=
  if INT_MIN ≤ v ∧ v ≤ INT_MAX then v else wrapSigned 32 (D.f2iOut v)

/-! ## Experience -/

/-- Translation of `Character::expForLevel`:
`int(pow(level, EXPCURVE_EXPONENT) * EXPCURVE_FACTOR)`. -/
def expForLevel (D : Defines) (level : Int) : Int :=
  doubleToInt D (level ^ D.EXPCURVE_EXPONENT * (D.EXPCURVE_FACTOR : Int))

/-- The initialiser of `newExp` in `receiveExperience`: the sum
`mExperience.at(..) + experience` is formed in the element type (an `int`
operand is converted to `unsigned int` when the element is one) and the result
is converted to `long int`. -/
def sumExperience (D : Defines) (stored experience : Int) : Int :=
  toLong D (toExpElem D (stored + experience))

/-- The statement `if (newExp > INT_MAX) newExp = INT_MAX;`. -/
def clampExperience (newExp : Int) : Int :=
  if newExp > INT_MAX then INT_MAX else newExp

/-- The loop `while (newExp >= expForLevel(getAttribute(skill) + 1))` of
`receiveExperience`, run for at most `fuel` passes of its body after which the
condition is tested once more; `none` when the condition still holds then.
The `int` returned by `expForLevel` is compared as a `long int`, a conversion
that keeps its value. -/
def skillLevelups (D : Defines) (newExp : Int) (skill : Nat) : Nat → Character → Option Character
  | 0, c =>
      if newExp ≥ expForLevel D (getAttribute c skill + 1) then none else some c
  | fuel + 1, c =>
      if newExp ≥ expForLevel D (getAttribute c skill + 1) then
        skillLevelups D newExp skill fuel
          (modifiedAttribute D (setAttribute c skill (getAttribute c skill + 1)) skill)
      else some c

/-- Translation of `Character::receiveExperience`, its loop bounded by `fuel`
(`none`: the loop has not ended within `fuel` passes). -/
def receiveExperience (D : Defines) (fuel : Nat) (c : Character) (skill : Nat)
    (experience : Int) : Option Character :=
  if D.CHAR_SKILL_BEGIN ≤ skill ∧ skill < D.CHAR_SKILL_END then
    let newExp := clampExperience
      (sumExperience D (c.mExperience (skill - D.CHAR_SKILL_BEGIN)) experience)
    let slot := skill - D.CHAR_SKILL_BEGIN
    let c1 := { c with mExperience := Function.update c.mExperience slot (toExpElem D newExp) }
    let c2 := { c1 with mModifiedExperience := insert slot c1.mModifiedExperience }
    (skillLevelups D newExp skill fuel c2).map
      (fun c3 => { c3 with mRecalculateLevel := true })
  else some c

/-- The state of the level-up loop of `receiveExperience` after at most `m`
passes of its body: the state at the exit when the loop has ended by then, the
state after the `m`-th pass when it is still running. -/
def skillLevelupPasses (D : Defines) (newExp : Int) (skill : Nat) : Nat → Character → Character
  | 0, c => c
  | m + 1, c =>
      if newExp ≥ expForLevel D (getAttribute c skill + 1) then
        skillLevelupPasses D newExp skill m
          (modifiedAttribute D (setAttribute c skill (getAttribute c skill + 1)) skill)
      else c

/-- The state of the character while `receiveExperience` runs: after the store
of the experience and at most `m` passes of the level-up loop. -/
def receiveExperiencePasses (D : Defines) (m : Nat) (c : Character) (skill : Nat)
    (experience : Int) : Character :=
  if D.CHAR_SKILL_BEGIN ≤ skill ∧ skill < D.CHAR_SKILL_END then
    let newExp := clampExperience
      (sumExperience D (c.mExperience (skill - D.CHAR_SKILL_BEGIN)) experience)
    let slot := skill - D.CHAR_SKILL_BEGIN
    let c1 := { c with mExperience := Function.update c.mExperience slot (toExpElem D newExp) }
    let c2 := { c1 with mModifiedExperience := insert slot c1.mModifiedExperience }
    skillLevelupPasses D newExp skill m c2
  else c

/-! ## Levels -/

/-- Translation of `Character::getExpNeeded`; the difference is formed in `int`. -/
def getExpNeeded (D : Defines) (c : Character) (skill : Nat) : Int :=
  let level := getAttribute c (skill + D.CHAR_SKILL_BEGIN)
  wrapSigned 32 (expForLevel D (level + 1) - expForLevel D level)

/-- Translation of `Character::getExpGot`; the difference, formed in the
element type of `mExperience`, is returned as an `int`. -/
def getExpGot (D : Defines) (c : Character) (skill : Nat) : Int :=
  let level := getAttribute c (skill + D.CHAR_SKILL_BEGIN)
  wrapSigned 32 (c.mExperience skill - expForLevel D level)

/-- Translation of `Character::levelup`.  The GPMSG_LEVELUP message, built from
the three new values and handed to the game handler, and the log line are
effects outside the character. -/
def levelup (D : Defines) (c : Character) : Character :=
  let c1 := { c with mLevel := c.mLevel + 1 }
  let c2 := { c1 with mCharacterPoints := c1.mCharacterPoints + D.CHARPOINTS_PER_LEVELUP }
  let c3 := { c2 with mCorrectionPoints := c2.mCorrectionPoints + D.CORRECTIONPOINTS_PER_LEVELUP }
  if c3.mCorrectionPoints > D.CORRECTIONPOINTS_MAX then
    { c3 with mCorrectionPoints := D.CORRECTIONPOINTS_MAX }
  else c3

/-- The first loop of `recalculateLevel` read in exact rational arithmetic: one
fractional level per skill, `getAttribute(a) + expGot / expNeed`, in the order
of the skills.  This is the reading without rounding, for a non-zero `expNeed`;
`skillLevelsWith` is the loop in the `float` arithmetic of a platform. -/
def skillLevels (D : Defines) (c : Character) : List ℚ :=
  (List.range' D.CHAR_SKILL_BEGIN (D.CHAR_SKILL_END - D.CHAR_SKILL_BEGIN)).map fun a =>
    (getAttribute c a : ℚ)
      + (getExpGot D c (a - D.CHAR_SKILL_BEGIN) : ℚ) / (getExpNeeded D c (a - D.CHAR_SKILL_BEGIN) : ℚ)

/-- The three `float` variables of the second loop of `recalculateLevel`. -/
structure Weighting where
  level : ℚ
  factor : ℚ
  factorSum : ℚ

/-- One pass of the second loop of `recalculateLevel` on the list element `x`. -/
def weightStep (f : ℚ) (w : Weighting) (x : ℚ) : Weighting :=
  { level := w.level + x * w.factor, factor := w.factor * f, factorSum := w.factorSum + w.factor }

/-- The value of the variable `level` of `recalculateLevel` when the level-up
loop is reached, read in exact rational arithmetic: the list is sorted
ascending, walked from its end to its beginning, the sum is divided by
`factorSum` and 1 is added.  `aggregateWith` is the same computation in the
`float` arithmetic of a platform, whose roundings move the value. -/
def aggregateLevel (D : Defines) (c : Character) : ℚ :=
  let levels := (skillLevels D c).insertionSort (· ≤ ·)
  let w := levels.reverse.foldl (weightStep D.LEVEL_SKILL_PRECEDENCE_FACTOR)
    { level := 0, factor := 1, factorSum := 0 }
  w.level / w.factorSum + 1

/-- The loop `while (mLevel < level) levelup();` of `recalculateLevel`. -/
def levelupWhile (D : Defines) (level : ℚ) (c : Character) : Character :=
  if (c.mLevel : ℚ) < level then levelupWhile D level (levelup D c) else c
termination_by (⌈level⌉ - c.mLevel).toNat
decreasing_by
  rename_i h
  have h1 : c.mLevel < ⌈level⌉ := Int.lt_ceil.mpr h
  have h2 : (levelup D c).mLevel = c.mLevel + 1 := by
    unfold levelup
    dsimp only
    split <;> rfl
  rw [h2]
  omega

/-- Conversion of a `float` to `int`: the fraction is dropped (rounding
towards zero), an out-of-range value is converted as `doubleToInt` says. -/
def floatToInt (D : Defines) (q : ℚ) : Int :=
  doubleToInt D (if 0 ≤ q then ⌊q⌋ else ⌈q⌉)

/-- Translation of `Character::recalculateLevel`, its `float` target read in
exact rational arithmetic (`recalculateLevelWith` takes the arithmetic of a
platform instead). -/
def recalculateLevel (D : Defines) (c : Character) : Character :=
  let level := aggregateLevel D c
  let c1 := levelupWhile D level c
  let levelProgress := floatToInt D ((level - (⌊level⌋ : ℚ)) * 100)
  if levelProgress ≠ c1.mLevelProgress then
    { c1 with mLevelProgress := levelProgress, mUpdateLevelProgress := true }
  else c1

/-- Translation of `Character::update`; `Being::update`, which it calls last,
belongs to another file. -/
def update (D : Defines) (c : Character) : Character :=
  if c.mRecalculateLevel then recalculateLevel D { c with mRecalculateLevel := false } else c

/-! ## Levels in float arithmetic -/

/-- A `float` arithmetic on finite values, given by its rounding: the
conversion of an `int` and the sum, product and quotient of two `float`s are
the exact results rounded, as in IEEE 754.  Infinite values and NaN, which come
from a division by zero, are not values of this arithmetic. -/
structure FloatArith where
  round : ℚ → ℚ

/-- Conversion of an `int` to `float`. -/
def FloatArith.ofInt (ar : FloatArith) (n : Int) : ℚ :=
  ar.round (n : ℚ)

/-- Sum of two `float`s. -/
def FloatArith.add (ar : FloatArith) (a b : ℚ) : ℚ :=
  ar.round (a + b)

/-- Product of two `float`s. -/
def FloatArith.mul (ar : FloatArith) (a b : ℚ) : ℚ :=
  ar.round (a * b)

/-- Quotient of two `float`s, the divisor not zero. -/
def FloatArith.div (ar : FloatArith) (a b : ℚ) : ℚ :=
  ar.round (a / b)

/-- What the theorems ask of a rounding: it keeps a value that is not negative
so, and it does not cross a power of two `2 ^ k` or the number -1, which are
`float`s themselves. -/
def FloatArith.Faithful (ar : FloatArith) : Prop :=
  (∀ q : ℚ, 0 ≤ q → 0 ≤ ar.round q) ∧
  (∀ (k : Nat) (q : ℚ), (2 : ℚ) ^ k ≤ q → (2 : ℚ) ^ k ≤ ar.round q) ∧
  (∀ q : ℚ, q ≤ -1 → ar.round q ≤ -1)

/-- Arithmetic without rounding. -/
def exactArith : FloatArith where
  round := fun q => q

/-- The integer nearest to `m`, the even one of the two when `m` lies half way. -/
def roundHalfEven (m : ℚ) : Int :=
  if m - (⌊m⌋ : ℚ) < 1 / 2 then ⌊m⌋
  else if 1 / 2 < m - (⌊m⌋ : ℚ) then ⌊m⌋ + 1
  else if ⌊m⌋ % 2 = 0 then ⌊m⌋ else ⌊m⌋ + 1

/-- The exponent of the power of two at or below `|q|`, not below the least
exponent -126 of a normal binary32 number. -/
def binade (q : ℚ) : Int :=
  max (Int.log 2 |q|) (-126)

/-- The binary32 number nearest to `q` (24 significant bits, ties to even), for
`|q|` below the largest binary32 number. -/
def roundBinary32 (q : ℚ) : ℚ :=
  (roundHalfEven (q / (2 : ℚ) ^ (binade q - 23)) : ℚ) * (2 : ℚ) ^ (binade q - 23)

/-- The arithmetic of IEEE 754 binary32 with rounding to nearest, each
operation rounded once. -/
def binary32 : FloatArith where
  round := roundBinary32

/-- The first loop of `recalculateLevel` (lines 305-310): `expGot` and
`expNeed` are converted to `float`, divided, and added to the level of the
skill converted to `float`. -/
def skillLevelsWith (ar : FloatArith) (D : Defines) (c : Character) : List ℚ :=
  (List.range' D.CHAR_SKILL_BEGIN (D.CHAR_SKILL_END - D.CHAR_SKILL_BEGIN)).map fun a =>
    ar.add (ar.ofInt (getAttribute c a))
      (ar.div (ar.ofInt (getExpGot D c (a - D.CHAR_SKILL_BEGIN)))
        (ar.ofInt (getExpNeeded D c (a - D.CHAR_SKILL_BEGIN))))

/-- One pass of the second loop of `recalculateLevel` (lines 319-322) on the
list element `x`; `f` is the value of LEVEL_SKILL_PRECEDENCE_FACTOR. -/
def weightStepWith (ar : FloatArith) (f : ℚ) (w : Weighting) (x : ℚ) : Weighting :=
  { level := ar.add w.level (ar.mul x w.factor),
    factor := ar.mul w.factor f,
    factorSum := ar.add w.factorSum w.factor }

/-- The three `float` variables after the second loop of `recalculateLevel`
(lines 311-323): the list is sorted ascending and walked from its end to its
beginning. -/
def weightingWith (ar : FloatArith) (D : Defines) (c : Character) : Weighting :=
  ((skillLevelsWith ar D c).insertionSort (· ≤ ·)).reverse.foldl
    (weightStepWith ar D.LEVEL_SKILL_PRECEDENCE_FACTOR) { level := 0, factor := 1, factorSum := 0 }

/-- The value of the variable `level` of `recalculateLevel` when the level-up
loop is reached (lines 324-325), in the arithmetic `ar`. -/
def aggregateWith (ar : FloatArith) (D : Defines) (c : Character) : ℚ :=
  ar.add (ar.div (weightingWith ar D c).level (weightingWith ar D c).factorSum) 1

/-- The loop `while (mLevel < level) levelup();` (lines 327-330): the `int`
level of the character is converted to `float` for the comparison.  The loop
is run for at most `fuel` passes of its body, after which the condition is
tested once more; `none` when the condition still holds then. -/
def levelupWhileWith (ar : FloatArith) (D : Defines) (level : ℚ) :
    Nat → Character → Option Character
  | 0, c => if ar.ofInt c.mLevel < level then none else some c
  | fuel + 1, c =>
      if ar.ofInt c.mLevel < level then levelupWhileWith ar D level fuel (levelup D c)
      else some c

/-- Lines 332-337 of `recalculateLevel`, from the value `level` of the `float`
variable.  character.cpp includes `<cmath>` and calls `floor` unqualified: this
is the function `double floor(double)` of the C library, so that the
difference and its product by 100 are formed in `double`, where the fraction of
a `float` of 24 significant bits and its product by 100 are exact. -/
def updateLevelProgress (D : Defines) (level : ℚ) (c : Character) : Character :=
  let levelProgress := floatToInt D ((level - (⌊level⌋ : ℚ)) * 100)
  if levelProgress ≠ c.mLevelProgress then
    { c with mLevelProgress := levelProgress, mUpdateLevelProgress := true }
  else c

/-- Translation of `Character::recalculateLevel` in the `float` arithmetic
`ar`, its level-up loop bounded by `fuel` (`none`: the loop has not ended
within `fuel` passes).  The result is `none` as well when a divisor is zero,
the experience needed by a skill or the sum of the weights (as it is without
any skill): the quotient is then infinite or NaN, which the finite arithmetic
does not cover. -/
def recalculateLevelWith (ar : FloatArith) (D : Defines) (fuel : Nat) (c : Character) :
    Option Character :=
  if (∀ s, s < D.CHAR_SKILL_END - D.CHAR_SKILL_BEGIN → ar.ofInt (getExpNeeded D c s) ≠ 0) ∧
      (weightingWith ar D c).factorSum ≠ 0 then
    (levelupWhileWith ar D (aggregateWith ar D c) fuel c).map
      (updateLevelProgress D (aggregateWith ar D c))
  else none

/-! ## Attack -/

/-- The members of `Damage` that `perform` computes from attributes. -/
structure Damage where
  base : Int
  delta : Int
  cth : Int
  usedSkill : Nat
  deriving DecidableEq, Repr

/-- The `Damage` that `Character::perform` builds for an attack with a weapon
of type `type` (0 is WPNTYPE_NONE); the type is read from the item in the
fighting slot through the item manager, outside this file. -/
def performDamage (D : Defines) (c : Character) (type : Nat) : Damage :=
  { base := getModifiedAttribute c D.BASE_ATTR_PHY_ATK_MIN,
    delta := getModifiedAttribute c D.BASE_ATTR_PHY_ATK_DELTA,
    cth := getModifiedAttribute c D.BASE_ATTR_HIT
      + getModifiedAttribute c (D.CHAR_SKILL_WEAPON_BEGIN + type),
    usedSkill := D.CHAR_SKILL_WEAPON_BEGIN + type }

/-! ## Status messages -/

/-- A value handed to `writeByte`, `writeShort` or `writeLong` of a message. -/
inductive Field where
  | byte (v : Int)
  | short (v : Int)
  | long (v : Int)
  deriving DecidableEq, Repr

/-- Number of bytes a written value takes in a message. -/
def Field.size : Field → Nat
  | .byte _ => 1
  | .short _ => 2
  | .long _ => 4

/-- The ids of the three messages that `sendStatus` builds. -/
inductive MessageId where
  | GPMSG_PLAYER_ATTRIBUTE_CHANGE
  | GPMSG_PLAYER_EXP_CHANGE
  | GPMSG_LEVEL_PROGRESS
  deriving DecidableEq, Repr

/-- Modelled from the spec: `MessageOut` (net/messageout.hpp is not among the
sources) is a message of the outbound notification contract, its id followed by
the values written to it, in the order of the calls. -/
structure MessageOut where
  id : MessageId
  fields : List Field
  deriving DecidableEq, Repr

/-- Modelled from the spec: `MessageOut::getLength` (net/messageout.hpp is not
among the sources); the id takes the first 2 bytes of a message, so that a
message is longer than 2 bytes when something has been written to it. -/
def MessageOut.getLength (m : MessageOut) : Nat :=
  2 + (m.fields.map Field.size).sum

/-- One call of `writeByte`, `writeShort` or `writeLong` on a message. -/
def MessageOut.write (m : MessageOut) (f : Field) : MessageOut :=
  { m with fields := m.fields ++ [f] }

/-- The body of the first loop of `sendStatus` for the index `attr`. -/
def writeAttribute (c : Character) (m : MessageOut) (attr : Nat) : MessageOut :=
  ((m.write (.byte attr)).write (.short (getAttribute c attr))).write
    (.short (getModifiedAttribute c attr))

/-- The body of the second loop of `sendStatus` for the index `skill`. -/
def writeExperience (D : Defines) (c : Character) (m : MessageOut) (skill : Nat) : MessageOut :=
  ((m.write (.byte skill)).write (.long (getExpGot D c skill))).write
    (.long (getExpNeeded D c skill))

/-- Translation of `Character::sendStatus`: the messages handed to the game
handler, in order, and the state after the call.  A `std::set` is walked in
ascending order; its indices are small enough to be kept by the conversion to
`int`. -/
def sendStatus (D : Defines) (c : Character) : List MessageOut × Character :=
  let attribMsg := (c.mModifiedAttributes.sort (· ≤ ·)).foldl (writeAttribute c)
    { id := .GPMSG_PLAYER_ATTRIBUTE_CHANGE, fields := [] }
  let sent1 := if attribMsg.getLength > 2 then [attribMsg] else []
  let c1 := { c with mModifiedAttributes := ∅ }
  let expMsg := (c1.mModifiedExperience.sort (· ≤ ·)).foldl (writeExperience D c1)
    { id := .GPMSG_PLAYER_EXP_CHANGE, fields := [] }
  let sent2 := if expMsg.getLength > 2 then sent1 ++ [expMsg] else sent1
  let c2 := { c1 with mModifiedExperience := ∅ }
  if c2.mUpdateLevelProgress then
    (sent2 ++ [{ id := .GPMSG_LEVEL_PROGRESS, fields := [.byte c2.mLevelProgress] }],
      { c2 with mUpdateLevelProgress := false })
  else (sent2, c2)

/-- The content of an attribute-change message that lists the indices `l`: each
index with the base and the modified value of the attribute. -/
def attributeEntries (c : Character) : List Nat → List Field
  | [] => []
  | i :: t =>
      .byte i :: .short (getAttribute c i) :: .short (getModifiedAttribute c i)
        :: attributeEntries c t

/-- The content of an experience-change message that lists the skills `l`: each
index with the experience got and the experience needed. -/
def experienceEntries (D : Defines) (c : Character) : List Nat → List Field
  | [] => []
  | i :: t =>
      .byte i :: .long (getExpGot D c i) :: .long (getExpNeeded D c i)
        :: experienceEntries D c t

/-! ## Storage gateway -/

/-- Modelled from the spec: the persisted fields of a character (section 3 of
the specification); the class that the account server stores is declared in a
header that is not among the sources. -/
structure CharacterData where
  databaseID : Int
  name : String
  accountID : Int
  gender : Nat
  hairStyle : Nat
  hairColor : Nat
  level : Int
  characterPoints : Int
  correctionPoints : Int
  baseAttributes : Nat → Int
  experience : Nat → Int

/-- Modelled from the spec: the state behind the storage gateway `DALStorage`
(its member functions are declared in dalstorage.hpp, their bodies are not
among the sources), as far as characters go: the rows of the table of
characters as the gateway sees them, by database id, and the rows of the last
committed unit of work. -/
structure DALStorage where
  characters : Int → Option CharacterData
  committed : Int → Option CharacterData

/-- Modelled from the spec: `DALStorage::updateCharacter` (declared in
dalstorage.hpp, its body is not among the sources).  It flushes the full state
of a character that has a row, without touching the name or the owning account
(as the comment of the declaration says), and reports success; it opens and
commits a unit of work of its own unless it is nested in one of the caller
(`startTransaction = false`).  When the backend fails to execute a query
(`backendOk = false`), or the character has no row, it reports failure and
leaves the state as it is: an operation fully applies or changes nothing. -/
def DALStorage.updateCharacter (db : DALStorage) (ptr : CharacterData)
    (startTransaction : Bool) (backendOk : Bool) : Bool × DALStorage :=
  if backendOk then
    match db.characters ptr.databaseID with
    | none => (false, db)
    | some row =>
        let stored := { ptr with name := row.name, accountID := row.accountID }
        let rows := Function.update db.characters ptr.databaseID (some stored)
        if startTransaction then (true, { characters := rows, committed := rows })
        else (true, { db with characters := rows })
  else (false, db)

/-- Modelled from the spec: `DALStorage::getCharacter(int id, Account *owner)`
(declared in dalstorage.hpp, its body is not among the sources): the character
with this database id, placed in the account `owner` when one is given, or
nothing when there is no such character (NotFound). -/
def DALStorage.getCharacter (db : DALStorage) (id : Int) (owner : Option Int) :
    Option CharacterData :=
  (db.characters id).map fun row =>
    match owner with
    | some account => { row with accountID := account }
    | none => row

/-! ## A concrete instance -/

/-- A sample choice of the declarations: derived attributes, customizable
attributes and skills in this order, a cubic experience curve of factor 10,
`unsigned int` experience, a 64-bit `long int` and the out-of-range conversion
of x86 (which yields `INT_MIN`). -/
def sampleDefines : Defines where
  BASE_ATTR_BEGIN := 0
  BASE_ATTR_PHY_ATK_MIN := 0
  BASE_ATTR_PHY_ATK_DELTA := 1
  BASE_ATTR_MAG_ATK := 2
  BASE_ATTR_PHY_RES := 3
  BASE_ATTR_MAG_RES := 4
  BASE_ATTR_EVADE := 5
  BASE_ATTR_HIT := 6
  BASE_ATTR_HP := 7
  BASE_ATTR_END := 9
  CHAR_ATTR_BEGIN := 16
  CHAR_ATTR_STRENGTH := 16
  CHAR_ATTR_AGILITY := 17
  CHAR_ATTR_DEXTERITY := 18
  CHAR_ATTR_VITALITY := 19
  CHAR_ATTR_WILLPOWER := 21
  CHAR_ATTR_END := 22
  CHAR_SKILL_BEGIN := 22
  CHAR_SKILL_END := 34
  CHAR_SKILL_WEAPON_BEGIN := 22
  EXPCURVE_EXPONENT := 3
  EXPCURVE_FACTOR := 10
  LEVEL_SKILL_PRECEDENCE_FACTOR := 3 / 4
  CHARPOINTS_PER_LEVELUP := 5
  CORRECTIONPOINTS_PER_LEVELUP := 2
  CORRECTIONPOINTS_MAX := 10
  expElem := .unsignedInt
  longWidth := .w64
  f2iOut := fun _ => INT_MIN

/-- The state the constructor sets up before any data is read: every attribute
`{ 0, 0 }`, no experience, level 1, no transaction; the two point pools are given. -/
def sampleCharacter (charPoints corrPoints : Int) : Character where
  mAttributes := fun _ => Attribute.mk 0 0
  mExperience := fun _ => 0
  mModifiedAttributes := ∅
  mModifiedExperience := ∅
  mLevel := 1
  mLevelProgress := 0
  mCharacterPoints := charPoints
  mCorrectionPoints := corrPoints
  mUpdateLevelProgress := false
  mRecalculateLevel := true
  mTransaction := .TRANS_NONE
  mTransactionHandler := 0
  cancelCalls := []


/-! ## Further sample states and a helper for statements -/

/-- The cancel calls that `cancelTransaction` issues in a state: one on the
active handler, of the kind of the active transaction, none without one. -/
def pendingCancel (c : Character) : List CancelCall :=
  match c.mTransaction with
  | .TRANS_TRADE => [CancelCall.trade c.mTransactionHandler]
  | .TRANS_BUYSELL => [CancelCall.buySell c.mTransactionHandler]
  | .TRANS_NONE => []

/-- A state in the middle of a shop exchange with the handler at address 7. -/
def sampleShopper : Character :=
  { sampleCharacter 0 0 with mTransaction := .TRANS_BUYSELL, mTransactionHandler := 7 }

/-- The sample declarations with `int` as the element type of `mExperience`. -/
def sampleDefinesSigned : Defines :=
  { sampleDefines with expElem := .signedInt }

/-- The sample state with 8 points of experience in every skill. -/
def sampleVeteran : Character :=
  { sampleCharacter 0 0 with mExperience := fun _ => 8 }

/-- The indices for which the chain of `modifiedAttribute` has a formula, in
the order of the chain. -/
def Defines.derivedIndices (D : Defines) : List Nat :=
  [D.BASE_ATTR_HP, D.BASE_ATTR_HIT, D.BASE_ATTR_EVADE, D.BASE_ATTR_PHY_RES,
   D.BASE_ATTR_PHY_ATK_MIN, D.BASE_ATTR_PHY_ATK_DELTA, D.BASE_ATTR_MAG_RES, D.BASE_ATTR_MAG_ATK]

/-- The customizable attributes that the formulas of `modifiedAttribute` read. -/
def Defines.statIndices (D : Defines) : List Nat :=
  [D.CHAR_ATTR_STRENGTH, D.CHAR_ATTR_AGILITY, D.CHAR_ATTR_DEXTERITY, D.CHAR_ATTR_VITALITY,
   D.CHAR_ATTR_WILLPOWER]

/-- What the names of the enum promise: the eight derived attributes with a
formula are distinct members of `[BASE_ATTR_BEGIN, BASE_ATTR_END)`, and the
attributes the formulas read lie at or after `BASE_ATTR_END`. -/
def Defines.DerivedLayout (D : Defines) : Prop :=
  (∀ i ∈ D.derivedIndices, D.BASE_ATTR_BEGIN ≤ i ∧ i < D.BASE_ATTR_END) ∧
  D.derivedIndices.Nodup ∧
  (∀ a ∈ D.statIndices, D.BASE_ATTR_END ≤ a)

instance (D : Defines) : Decidable D.DerivedLayout := by
  unfold Defines.DerivedLayout; infer_instance

/-- The loop of `modifiedAttribute` with the derived attributes visited in the
order of the list `l`. -/
def recomputeIn (D : Defines) (l : List Nat) (c : Character) : Character :=
  l.foldl (recomputeStep D) c

/-- The sample state with Dexterity (attribute 18) at 5 and the first weapon
skill (attribute 22) at 3. -/
def sampleFighter : Character :=
  setAttribute (setAttribute (sampleCharacter 0 0) 18 5) 22 3

/-- The sample state after `modifiedAttribute(16)`: level 1, Vitality 0 and a
health pool of 110. -/
def sampleRecomputed : Character :=
  modifiedAttribute sampleDefines (sampleCharacter 0 0) 16

/-- The sum of the levels `xs`, the first weighted by `f ^ i`, the next by
`f ^ (i + 1)`, and so on. -/
def precedenceWeightedSum (f : ℚ) : Nat → List ℚ → ℚ
  | _, [] => 0
  | i, x :: xs => x * f ^ i + precedenceWeightedSum f (i + 1) xs

/-- The sum of the weights `f ^ i`, `f ^ (i + 1)`, ..., one per level of `xs`. -/
def precedenceWeightSum (f : ℚ) : Nat → List ℚ → ℚ
  | _, [] => 0
  | i, _ :: xs => f ^ i + precedenceWeightSum f (i + 1) xs

/-- The precedence-weighted average in the words of the specification: the
fractional levels of the skills are taken in descending order and weighted by
1, f, f^2, ... with f the precedence factor; the weighted sum is divided by the
sum of the weights. -/
def precedenceAverage (D : Defines) (c : Character) : ℚ :=
  precedenceWeightedSum D.LEVEL_SKILL_PRECEDENCE_FACTOR 0
      ((skillLevels D c).insertionSort (· ≥ ·))
    / precedenceWeightSum D.LEVEL_SKILL_PRECEDENCE_FACTOR 0
      ((skillLevels D c).insertionSort (· ≥ ·))

/-- The sample declarations with a single skill. -/
def oneSkillDefines : Defines :=
  { sampleDefines with CHAR_SKILL_END := 23 }

/-- The sample state with 5 points of experience in every skill: level 0,
half the way to level 1. -/
def sampleNovice : Character :=
  { sampleCharacter 0 0 with mExperience := fun _ => 5 }

/-- The sample declarations with three skills and a precedence factor of 0.6. -/
def exampleDefines : Defines :=
  { sampleDefines with CHAR_SKILL_END := 25, LEVEL_SKILL_PRECEDENCE_FACTOR := 3 / 5 }

/-- A character of level 1 whose three skills have the levels 10, 8 and 5 and
the experience 10662, 6205 and 1250: on the cubic curve of factor 10 the
fractional levels are 10 + 662/3310 = 10.2, 8 + 1085/2170 = 8.5 and 5 + 0/910 = 5. -/
def exampleCharacter : Character :=
  { sampleCharacter 0 0 with
    mAttributes := fun i =>
      if i = 22 then Attribute.mk 10 0 else if i = 23 then Attribute.mk 8 0
      else if i = 24 then Attribute.mk 5 0 else Attribute.mk 0 0
    mExperience := fun i =>
      if i = 0 then 10662 else if i = 1 then 6205 else if i = 2 then 1250 else 0 }

/-- The sample state with `INT_MAX` points of experience in every skill. -/
def sampleSaturated : Character :=
  { sampleCharacter 0 0 with mExperience := fun _ => INT_MAX }

/-- The sample state with `INT_MAX - 1` points of experience in every skill. -/
def sampleAlmostSaturated : Character :=
  { sampleCharacter 0 0 with mExperience := fun _ => INT_MAX - 1 }

/-- The sample state with 2138471920 points of experience in every skill, the
threshold of level 598 on the cubic curve of factor 10. -/
def sampleHighExperience : Character :=
  { sampleCharacter 0 0 with mExperience := fun _ => 2138471920 }

/-- A character as stored: id 7, account 3, level 2, Strength-like attribute 16
at 12, 40 points of experience in skill 0. -/
def sampleStoredCharacter : CharacterData where
  databaseID := 7
  name := "stored"
  accountID := 3
  gender := 0
  hairStyle := 1
  hairColor := 2
  level := 2
  characterPoints := 4
  correctionPoints := 1
  baseAttributes := fun i => if i = 16 then 12 else 1
  experience := fun i => if i = 0 then 40 else 0

/-- The same character after a session: more attribute, experience and points,
and a name and an account that the store is not to take over. -/
def samplePlayedCharacter : CharacterData :=
  { sampleStoredCharacter with
    name := "played"
    accountID := 5
    level := 3
    characterPoints := 9
    correctionPoints := 3
    baseAttributes := fun i => if i = 16 then 13 else 1
    experience := fun i => if i = 0 then 95 else 0 }

/-- A store that holds the row of the character 7 only. -/
def sampleStorage : DALStorage where
  characters := fun id => if id = 7 then some sampleStoredCharacter else none
  committed := fun id => if id = 7 then some sampleStoredCharacter else none

/-- The sample state with 3 points of experience in every skill: level 0,
three tenths of the way to level 1. -/
def sampleBeginner : Character :=
  { sampleCharacter 0 0 with mExperience := fun _ => 3 }

/-- A character of level 1 whose skills all have level 11 and the experience
13310, the threshold of level 11 on the cubic curve of factor 10: every
fractional level is 11. -/
def sampleEleven : Character :=
  { sampleCharacter 0 0 with
    mAttributes := fun i => if 22 ≤ i then Attribute.mk 11 0 else Attribute.mk 0 0
    mExperience := fun _ => 13310 }

/-- A character of level 1 whose skills all have level 19 and the experience
68590, the threshold of level 19 on the cubic curve of factor 10: every
fractional level is 19. -/
def sampleNineteen : Character :=
  { sampleCharacter 0 0 with
    mAttributes := fun i => if 22 ≤ i then Attribute.mk 19 0 else Attribute.mk 0 0
    mExperience := fun _ => 68590 }

/-- A character of level 1 whose one skill has the level 599 and no experience. -/
def sampleChampion : Character :=
  { sampleCharacter 0 0 with
    mAttributes := fun i => if i = 22 then Attribute.mk 599 0 else Attribute.mk 0 0 }

/-! ## Frame lemmas for the attribute recomputation -/

theorem flagAttribute_mAttributes (c : Character) (a : Nat) :
    (flagAttribute c a).mAttributes = c.mAttributes := rfl

theorem recomputeStep_mAttributes_of_ne (D : Defines) (c : Character) (i a : Nat) (h : a ≠ i) :
    (recomputeStep D c i).mAttributes a = c.mAttributes a := by
  unfold recomputeStep
  split
  · simp [flagAttribute, setAttribute, Function.update, h]
  · rfl

theorem recomputeStep_points (D : Defines) (c : Character) (i : Nat) :
    (recomputeStep D c i).mCharacterPoints = c.mCharacterPoints ∧
    (recomputeStep D c i).mCorrectionPoints = c.mCorrectionPoints := by
  unfold recomputeStep
  split <;> simp [flagAttribute, setAttribute]

theorem foldl_recomputeStep_mAttributes (D : Defines) (l : List Nat) (c : Character) (a : Nat)
    (h : a ∉ l) : (l.foldl (recomputeStep D) c).mAttributes a = c.mAttributes a := by
  induction l generalizing c with
  | nil => rfl
  | cons i t ih =>
    simp only [List.mem_cons, not_or] at h
    rw [List.foldl_cons, ih _ h.2, recomputeStep_mAttributes_of_ne D c i a h.1]

theorem foldl_recomputeStep_points (D : Defines) (l : List Nat) (c : Character) :
    (l.foldl (recomputeStep D) c).mCharacterPoints = c.mCharacterPoints ∧
    (l.foldl (recomputeStep D) c).mCorrectionPoints = c.mCorrectionPoints := by
  induction l generalizing c with
  | nil => exact ⟨rfl, rfl⟩
  | cons i t ih =>
    rw [List.foldl_cons]
    exact ⟨(ih _).1.trans (recomputeStep_points D c i).1,
      (ih _).2.trans (recomputeStep_points D c i).2⟩

/-- The recomputation leaves every attribute at or above `BASE_ATTR_END` alone. -/
theorem recomputeAll_mAttributes (D : Defines) (c : Character) (a : Nat)
    (h : D.BASE_ATTR_END ≤ a) : (recomputeAll D c).mAttributes a = c.mAttributes a := by
  unfold recomputeAll
  apply foldl_recomputeStep_mAttributes
  intro hmem
  rw [List.mem_range'_1] at hmem
  omega

/-- With the derived attributes laid out before the customizable ones,
`modifiedAttribute(attr)` does not overwrite attribute `attr` itself. -/
theorem modifiedAttribute_mAttributes_self (D : Defines) (c : Character) (a : Nat)
    (hL : D.BASE_ATTR_END ≤ D.CHAR_ATTR_BEGIN) :
    (modifiedAttribute D c a).mAttributes a = c.mAttributes a := by
  unfold modifiedAttribute
  rw [flagAttribute_mAttributes]
  split
  · rename_i h
    exact recomputeAll_mAttributes D c a (le_trans hL h.1)
  · rfl

theorem modifiedAttribute_points (D : Defines) (c : Character) (a : Nat) :
    (modifiedAttribute D c a).mCharacterPoints = c.mCharacterPoints ∧
    (modifiedAttribute D c a).mCorrectionPoints = c.mCorrectionPoints := by
  unfold modifiedAttribute
  split
  · exact foldl_recomputeStep_points D _ c
  · exact ⟨rfl, rfl⟩

theorem getAttribute_setAttribute_self (c : Character) (a : Nat) (v : Int) :
    getAttribute (setAttribute c a v) a = v := by
  simp [getAttribute, setAttribute]

/-! ## Point spending: theorems -/

/-- C1: `useCharacterPoint(a)` returns ATTRIBMOD_INVALID_ATTRIBUTE when
`a < CHAR_ATTR_BEGIN` or `a >= CHAR_ATTR_END` (so also for `a = CHAR_ATTR_BEGIN - 1`,
whatever the point pool), and otherwise ATTRIBMOD_NO_POINTS_LEFT when the
character-point pool is 0; in both cases the state after the call is the state
before it. -/
theorem useCharacterPoint_failure (D : Defines) (c : Character) (a : Nat) :
    ((a < D.CHAR_ATTR_BEGIN ∨ D.CHAR_ATTR_END ≤ a) →
      useCharacterPoint D c a = (.ATTRIBMOD_INVALID_ATTRIBUTE, c)) ∧
    (1 ≤ D.CHAR_ATTR_BEGIN →
      useCharacterPoint D c (D.CHAR_ATTR_BEGIN - 1) = (.ATTRIBMOD_INVALID_ATTRIBUTE, c)) ∧
    (D.CHAR_ATTR_BEGIN ≤ a → a < D.CHAR_ATTR_END → c.mCharacterPoints = 0 →
      useCharacterPoint D c a = (.ATTRIBMOD_NO_POINTS_LEFT, c)) := by
  refine ⟨?_, ?_, ?_⟩
  · intro h
    unfold useCharacterPoint
    rcases h with h | h
    · rw [if_pos h]
    · by_cases h1 : a < D.CHAR_ATTR_BEGIN
      · rw [if_pos h1]
      · rw [if_neg h1, if_pos h]
  · intro h
    unfold useCharacterPoint
    rw [if_pos (by omega)]
  · intro h1 h2 h3
    unfold useCharacterPoint
    rw [if_neg (by omega), if_neg (by omega), if_pos h3]

/-- Witness of C1 on the sample layout: index 15 is one below the customizable
range and is refused although three points are available; index 16 is refused
for want of points when the pool is empty. -/
theorem useCharacterPoint_failure_witness :
    useCharacterPoint sampleDefines (sampleCharacter 3 0) 15
        = (.ATTRIBMOD_INVALID_ATTRIBUTE, sampleCharacter 3 0) ∧
    useCharacterPoint sampleDefines (sampleCharacter 3 0) (sampleDefines.CHAR_ATTR_BEGIN - 1)
        = (.ATTRIBMOD_INVALID_ATTRIBUTE, sampleCharacter 3 0) ∧
    useCharacterPoint sampleDefines (sampleCharacter 0 0) 16
        = (.ATTRIBMOD_NO_POINTS_LEFT, sampleCharacter 0 0) :=
  ⟨(useCharacterPoint_failure sampleDefines (sampleCharacter 3 0) 15).1 (Or.inl (by decide)),
   (useCharacterPoint_failure sampleDefines (sampleCharacter 3 0) 15).2.1 (by decide),
   (useCharacterPoint_failure sampleDefines (sampleCharacter 0 0) 16).2.2
     (by decide) (by decide) (by decide)⟩

/-- C2: with a character-point pool `p >= 1` and a customizable attribute `a`,
`useCharacterPoint(a)` returns ATTRIBMOD_OK, the pool becomes `p - 1`, the base
value of `a` rises by exactly 1 and the correction-point pool is unchanged; when
`p = 1` the pool is then 0 and a second call returns ATTRIBMOD_NO_POINTS_LEFT
and changes nothing. -/
theorem useCharacterPoint_ok (D : Defines) (c : Character) (a : Nat)
    (hL : D.BASE_ATTR_END ≤ D.CHAR_ATTR_BEGIN)
    (ha1 : D.CHAR_ATTR_BEGIN ≤ a) (ha2 : a < D.CHAR_ATTR_END)
    (hp : 1 ≤ c.mCharacterPoints) :
    (useCharacterPoint D c a).1 = .ATTRIBMOD_OK ∧
    (useCharacterPoint D c a).2.mCharacterPoints = c.mCharacterPoints - 1 ∧
    getAttribute (useCharacterPoint D c a).2 a = getAttribute c a + 1 ∧
    (useCharacterPoint D c a).2.mCorrectionPoints = c.mCorrectionPoints ∧
    (c.mCharacterPoints = 1 →
      (useCharacterPoint D c a).2.mCharacterPoints = 0 ∧
      useCharacterPoint D (useCharacterPoint D c a).2 a
        = (.ATTRIBMOD_NO_POINTS_LEFT, (useCharacterPoint D c a).2)) := by
  have hne : c.mCharacterPoints ≠ 0 := by omega
  have hrun : useCharacterPoint D c a = (.ATTRIBMOD_OK,
      modifiedAttribute D (setAttribute { c with mCharacterPoints := c.mCharacterPoints - 1 } a
        (getAttribute { c with mCharacterPoints := c.mCharacterPoints - 1 } a + 1)) a) := by
    unfold useCharacterPoint
    rw [if_neg (by omega), if_neg (by omega), if_neg hne]
  have hpts : (useCharacterPoint D c a).2.mCharacterPoints = c.mCharacterPoints - 1 := by
    rw [hrun]
    exact (modifiedAttribute_points D _ a).1
  refine ⟨by rw [hrun], hpts, ?_, ?_, ?_⟩
  · rw [hrun]
    show ((modifiedAttribute D _ a).mAttributes a).base = _
    rw [modifiedAttribute_mAttributes_self D _ a hL]
    exact getAttribute_setAttribute_self _ a _
  · rw [hrun]
    exact (modifiedAttribute_points D _ a).2
  · intro h1
    have h0 : (useCharacterPoint D c a).2.mCharacterPoints = 0 := by rw [hpts, h1]; rfl
    refine ⟨h0, ?_⟩
    generalize (useCharacterPoint D c a).2 = c1 at h0
    unfold useCharacterPoint
    rw [if_neg (by omega), if_neg (by omega), if_pos h0]

/-- Witness of C2: on the sample layout, one point spent on attribute 16. -/
theorem useCharacterPoint_ok_witness :
    (useCharacterPoint sampleDefines (sampleCharacter 1 0) 16).1 = .ATTRIBMOD_OK ∧
    (useCharacterPoint sampleDefines (sampleCharacter 1 0) 16).2.mCharacterPoints = 1 - 1 ∧
    getAttribute (useCharacterPoint sampleDefines (sampleCharacter 1 0) 16).2 16 = 0 + 1 :=
  have h := useCharacterPoint_ok sampleDefines (sampleCharacter 1 0) 16
    (by decide) (by decide) (by decide) (by decide)
  ⟨h.1, h.2.1, h.2.2.1⟩


/-- C3, as stated, fails: on the sample layout attribute 16 has base value 1
(its floor) and the correction-point pool is empty; `useCorrectionPoint(16)`
returns ATTRIBMOD_NO_POINTS_LEFT, not ATTRIBMOD_DENIED, because the pool is
tested before the floor. -/
theorem useCorrectionPoint_floor_counterexample :
    getAttribute (setAttribute (sampleCharacter 0 0) 16 1) 16 = 1 ∧
    (useCorrectionPoint sampleDefines (setAttribute (sampleCharacter 0 0) 16 1) 16).1
      = .ATTRIBMOD_NO_POINTS_LEFT ∧
    (useCorrectionPoint sampleDefines (setAttribute (sampleCharacter 0 0) 16 1) 16).1
      ≠ .ATTRIBMOD_DENIED := by
  refine ⟨by decide, ?_, ?_⟩
  · simp [useCorrectionPoint, sampleDefines, sampleCharacter, setAttribute]
  · simp [useCorrectionPoint, sampleDefines, sampleCharacter, setAttribute]

/-- C3 (amended): for a customizable attribute `a` whose base value is at its
floor (1, or below), `useCorrectionPoint(a)` leaves the state as it is (both
pools and the attribute value included); it returns ATTRIBMOD_DENIED when the
correction-point pool is not empty and ATTRIBMOD_NO_POINTS_LEFT when it is. -/
theorem useCorrectionPoint_denied (D : Defines) (c : Character) (a : Nat)
    (ha1 : D.CHAR_ATTR_BEGIN ≤ a) (ha2 : a < D.CHAR_ATTR_END)
    (hv : getAttribute c a ≤ 1) :
    (useCorrectionPoint D c a).2 = c ∧
    (c.mCorrectionPoints ≠ 0 → (useCorrectionPoint D c a).1 = .ATTRIBMOD_DENIED) ∧
    (c.mCorrectionPoints = 0 → (useCorrectionPoint D c a).1 = .ATTRIBMOD_NO_POINTS_LEFT) := by
  unfold useCorrectionPoint
  rw [if_neg (by omega), if_neg (by omega)]
  by_cases hc : c.mCorrectionPoints = 0
  · rw [if_pos hc]
    exact ⟨rfl, fun h => absurd hc h, fun _ => rfl⟩
  · rw [if_neg hc, if_pos hv]
    exact ⟨rfl, fun _ => rfl, fun h => absurd h hc⟩

/-- Witness of C3 (amended): attribute 16 at value 1, two correction points. -/
theorem useCorrectionPoint_denied_witness :
    getAttribute (setAttribute (sampleCharacter 0 2) 16 1) 16 = 1 ∧
    (useCorrectionPoint sampleDefines (setAttribute (sampleCharacter 0 2) 16 1) 16).2
      = setAttribute (sampleCharacter 0 2) 16 1 ∧
    (useCorrectionPoint sampleDefines (setAttribute (sampleCharacter 0 2) 16 1) 16).1
      = .ATTRIBMOD_DENIED :=
  have h := useCorrectionPoint_denied sampleDefines (setAttribute (sampleCharacter 0 2) 16 1) 16
    (by decide) (by decide) (by decide)
  ⟨by decide, h.1, h.2.1 (by decide)⟩

/-- C4: with a correction-point pool `c >= 1` and a customizable attribute `a`
of base value `v > 1`, `useCorrectionPoint(a)` returns ATTRIBMOD_OK, the
correction-point pool becomes `c - 1`, the character-point pool rises by 1 (the
sum of the two pools is unchanged) and the base value of `a` becomes `v - 1`,
which is still at least 1. -/
theorem useCorrectionPoint_ok (D : Defines) (c : Character) (a : Nat)
    (hL : D.BASE_ATTR_END ≤ D.CHAR_ATTR_BEGIN)
    (ha1 : D.CHAR_ATTR_BEGIN ≤ a) (ha2 : a < D.CHAR_ATTR_END)
    (hc : 1 ≤ c.mCorrectionPoints) (hv : 1 < getAttribute c a) :
    (useCorrectionPoint D c a).1 = .ATTRIBMOD_OK ∧
    (useCorrectionPoint D c a).2.mCorrectionPoints = c.mCorrectionPoints - 1 ∧
    (useCorrectionPoint D c a).2.mCharacterPoints = c.mCharacterPoints + 1 ∧
    (useCorrectionPoint D c a).2.mCharacterPoints + (useCorrectionPoint D c a).2.mCorrectionPoints
      = c.mCharacterPoints + c.mCorrectionPoints ∧
    getAttribute (useCorrectionPoint D c a).2 a = getAttribute c a - 1 ∧
    1 ≤ getAttribute (useCorrectionPoint D c a).2 a := by
  have hne : c.mCorrectionPoints ≠ 0 := by omega
  have hrun : useCorrectionPoint D c a = (.ATTRIBMOD_OK,
      modifiedAttribute D (setAttribute
        { c with mCorrectionPoints := c.mCorrectionPoints - 1,
                 mCharacterPoints := c.mCharacterPoints + 1 } a
        (getAttribute c a - 1)) a) := by
    unfold useCorrectionPoint
    rw [if_neg (by omega), if_neg (by omega), if_neg hne, if_neg (by omega)]
    rfl
  have h1 : (useCorrectionPoint D c a).2.mCorrectionPoints = c.mCorrectionPoints - 1 := by
    rw [hrun]
    exact (modifiedAttribute_points D _ a).2
  have h2 : (useCorrectionPoint D c a).2.mCharacterPoints = c.mCharacterPoints + 1 := by
    rw [hrun]
    exact (modifiedAttribute_points D _ a).1
  have h3 : getAttribute (useCorrectionPoint D c a).2 a = getAttribute c a - 1 := by
    rw [hrun]
    show ((modifiedAttribute D _ a).mAttributes a).base = _
    rw [modifiedAttribute_mAttributes_self D _ a hL]
    exact getAttribute_setAttribute_self _ a _
  refine ⟨by rw [hrun], h1, h2, ?_, h3, ?_⟩
  · rw [h1, h2]; ring
  · rw [h3]; omega

/-- Witness of C4: attribute 16 at value 3, one correction point. -/
theorem useCorrectionPoint_ok_witness :
    (useCorrectionPoint sampleDefines (setAttribute (sampleCharacter 0 1) 16 3) 16).1
      = .ATTRIBMOD_OK ∧
    (useCorrectionPoint sampleDefines (setAttribute (sampleCharacter 0 1) 16 3) 16).2.mCorrectionPoints
      = 1 - 1 ∧
    (useCorrectionPoint sampleDefines (setAttribute (sampleCharacter 0 1) 16 3) 16).2.mCharacterPoints
      = 0 + 1 :=
  have h := useCorrectionPoint_ok sampleDefines (setAttribute (sampleCharacter 0 1) 16 3) 16
    (by decide) (by decide) (by decide) (by decide) (by decide)
  ⟨h.1, h.2.1, h.2.2.1⟩


/-! ## Transactions: theorems -/

theorem cancelTransaction_of_none (c : Character) (h : c.mTransaction = .TRANS_NONE) :
    cancelTransaction c = c := by
  cases c
  simp only at h
  subst h
  rfl

theorem cancelTransaction_tag (c : Character) :
    (cancelTransaction c).mTransaction = .TRANS_NONE := by
  unfold cancelTransaction
  cases c.mTransaction <;> rfl

theorem cancelTransaction_calls (c : Character) :
    (cancelTransaction c).cancelCalls = c.cancelCalls ++ pendingCancel c := by
  unfold cancelTransaction pendingCancel
  cases c.mTransaction <;> simp

/-- C5: when a shop exchange with handler `b` is active and `t` is a non-null
trade handler, `setTrading(t)` issues exactly one cancel call, on `b`, and then
the tag is TRANS_TRADE, `getTrading()` is `t` and `getBuySell()` is NULL; a
`cancelTransaction()` right after issues exactly one more cancel call, on `t`,
and leaves the tag TRANS_NONE. -/
theorem setTrading_replaces_shop (c : Character) (b t : Nat)
    (hs : c.mTransaction = .TRANS_BUYSELL) (hb : c.mTransactionHandler = b) (ht : t ≠ 0) :
    ∃ c1, setTrading c t = some c1 ∧
      c1.cancelCalls = c.cancelCalls ++ [CancelCall.buySell b] ∧
      c1.mTransaction = .TRANS_TRADE ∧ getTrading c1 = t ∧ getBuySell c1 = 0 ∧
      (cancelTransaction c1).cancelCalls = c1.cancelCalls ++ [CancelCall.trade t] ∧
      (cancelTransaction c1).cancelCalls
        = c.cancelCalls ++ [CancelCall.buySell b, CancelCall.trade t] ∧
      (cancelTransaction c1).mTransaction = .TRANS_NONE := by
  refine ⟨{ cancelTransaction c with mTransactionHandler := t, mTransaction := .TRANS_TRADE },
    ?_, ?_, rfl, ?_, ?_, ?_, ?_, ?_⟩
  · unfold setTrading
    rw [if_pos ht]
  · show (cancelTransaction c).cancelCalls = _
    rw [cancelTransaction_calls]
    simp [pendingCancel, hs, hb]
  · simp [getTrading]
  · simp [getBuySell]
  · rw [cancelTransaction_calls]
    simp [pendingCancel]
  · rw [cancelTransaction_calls]
    show (cancelTransaction c).cancelCalls ++ _ = _
    rw [cancelTransaction_calls]
    simp [pendingCancel, hs, hb]
  · exact cancelTransaction_tag _

/-- Witness of C5: shop handler 7 replaced by trade handler 9. -/
theorem setTrading_replaces_shop_witness :
    ∃ c1, setTrading sampleShopper 9 = some c1 ∧
      c1.cancelCalls = [CancelCall.buySell 7] ∧
      (cancelTransaction c1).cancelCalls = [CancelCall.buySell 7, CancelCall.trade 9] :=
  match setTrading_replaces_shop sampleShopper 7 9 rfl rfl (by decide) with
  | ⟨c1, h1, h2, _, _, _, _, h7, _⟩ => ⟨c1, h1, h2, h7⟩

/-- C6: `cancelTransaction()` called while the tag is TRANS_NONE changes nothing
(and so issues no cancel call); for every state a second call right after a
first changes nothing more, so two calls issue the cancel calls of one: one call
on the active handler if a trade or a shop exchange was active, none otherwise;
the tag ends as TRANS_NONE. -/
theorem cancelTransaction_idempotent (c : Character) :
    (c.mTransaction = .TRANS_NONE → cancelTransaction c = c) ∧
    cancelTransaction (cancelTransaction c) = cancelTransaction c ∧
    (c.mTransaction = .TRANS_TRADE → (cancelTransaction (cancelTransaction c)).cancelCalls
      = c.cancelCalls ++ [CancelCall.trade c.mTransactionHandler]) ∧
    (c.mTransaction = .TRANS_BUYSELL → (cancelTransaction (cancelTransaction c)).cancelCalls
      = c.cancelCalls ++ [CancelCall.buySell c.mTransactionHandler]) ∧
    (c.mTransaction = .TRANS_NONE → (cancelTransaction (cancelTransaction c)).cancelCalls
      = c.cancelCalls) ∧
    (cancelTransaction (cancelTransaction c)).mTransaction = .TRANS_NONE := by
  have h2 : cancelTransaction (cancelTransaction c) = cancelTransaction c :=
    cancelTransaction_of_none _ (cancelTransaction_tag c)
  rw [h2, cancelTransaction_calls]
  refine ⟨cancelTransaction_of_none c, rfl, ?_, ?_, ?_, cancelTransaction_tag c⟩
  · intro h; simp [pendingCancel, h]
  · intro h; simp [pendingCancel, h]
  · intro h; simp [pendingCancel, h]

/-- Witness of C6: without a transaction the sample state is left as it is. -/
theorem cancelTransaction_idempotent_witness :
    cancelTransaction (sampleCharacter 0 0) = sampleCharacter 0 0 :=
  (cancelTransaction_idempotent (sampleCharacter 0 0)).1 rfl

/-- C7: with the tag TRANS_NONE or TRANS_TRADE, `setTrading(NULL)` passes its
assertion, sets the tag to TRANS_NONE and issues no cancel call (nothing but
the tag changes); with the tag TRANS_NONE or TRANS_BUYSELL, `setBuySell(NULL)`
does the same. -/
theorem endTransaction_no_cancel (c : Character) :
    ((c.mTransaction = .TRANS_NONE ∨ c.mTransaction = .TRANS_TRADE) →
      setTrading c 0 = some { c with mTransaction := .TRANS_NONE } ∧
      ({ c with mTransaction := TransactionType.TRANS_NONE } : Character).cancelCalls
        = c.cancelCalls) ∧
    ((c.mTransaction = .TRANS_NONE ∨ c.mTransaction = .TRANS_BUYSELL) →
      setBuySell c 0 = some { c with mTransaction := .TRANS_NONE } ∧
      ({ c with mTransaction := TransactionType.TRANS_NONE } : Character).cancelCalls
        = c.cancelCalls) := by
  constructor
  · intro h
    refine ⟨?_, rfl⟩
    unfold setTrading
    rw [if_neg (by simp), if_pos h]
  · intro h
    refine ⟨?_, rfl⟩
    unfold setBuySell
    rw [if_neg (by simp), if_pos h]

/-- Witness of C7: the shop exchange of the sample state is ended by
`setBuySell(NULL)` with no cancel call. -/
theorem endTransaction_no_cancel_witness :
    setBuySell sampleShopper 0 = some { sampleShopper with mTransaction := .TRANS_NONE } ∧
    ({ sampleShopper with mTransaction := TransactionType.TRANS_NONE } : Character).cancelCalls
      = sampleShopper.cancelCalls :=
  (endTransaction_no_cancel sampleShopper).2 (Or.inr rfl)


/-! ## Machine integers: lemmas -/

theorem wrapSigned32_of_range (x : Int) (h1 : INT_MIN ≤ x) (h2 : x ≤ INT_MAX) :
    wrapSigned 32 x = x := by
  unfold wrapSigned
  unfold INT_MIN at h1
  unfold INT_MAX at h2
  norm_num
  omega

theorem wrapSigned64_of_range (x : Int) (h1 : -4294967296 ≤ x) (h2 : x ≤ 4294967296) :
    wrapSigned 64 x = x := by
  unfold wrapSigned
  norm_num
  omega

theorem wrapUnsigned32_of_range (x : Int) (h1 : 0 ≤ x) (h2 : x < 4294967296) :
    wrapUnsigned 32 x = x := by
  unfold wrapUnsigned
  norm_num
  omega

theorem wrapSigned32_range (x : Int) : INT_MIN ≤ wrapSigned 32 x ∧ wrapSigned 32 x ≤ INT_MAX := by
  unfold wrapSigned INT_MIN INT_MAX
  norm_num
  omega

theorem toExpElem_of_range (D : Defines) (x : Int) (h1 : 0 ≤ x) (h2 : x ≤ INT_MAX) :
    toExpElem D x = x := by
  unfold toExpElem
  unfold INT_MAX at h2
  cases D.expElem
  · exact wrapSigned32_of_range x (by unfold INT_MIN; omega) h2
  · exact wrapUnsigned32_of_range x h1 (by omega)

theorem toLong_of_range (D : Defines) (x : Int) (h1 : INT_MIN ≤ x) (h2 : x ≤ INT_MAX) :
    toLong D x = x := by
  unfold toLong
  cases D.longWidth
  · exact wrapSigned32_of_range x h1 h2
  · unfold INT_MIN at h1
    unfold INT_MAX at h2
    exact wrapSigned64_of_range x (by omega) (by omega)

/-- Whatever the platform does on an out-of-range conversion, the result of
`expForLevel` is an `int`. -/
theorem expForLevel_range (D : Defines) (level : Int) :
    INT_MIN ≤ expForLevel D level ∧ expForLevel D level ≤ INT_MAX := by
  unfold expForLevel doubleToInt
  split
  · assumption
  · exact wrapSigned32_range _

/-- A sum that neither falls below 0 nor exceeds `INT_MAX` is what `newExp`
holds, whatever the element type and the width of `long int`. -/
theorem clamp_sum_of_range (D : Defines) (e n : Int) (h1 : 0 ≤ e + n) (h2 : e + n ≤ INT_MAX) :
    clampExperience (sumExperience D e n) = e + n := by
  unfold sumExperience
  rw [toExpElem_of_range D _ h1 h2, toLong_of_range D _ (by unfold INT_MIN; omega) h2]
  unfold clampExperience
  rw [if_neg (by omega)]


/-! ## Experience: lemmas on the level-up loop -/

theorem recomputeStep_mExperience (D : Defines) (c : Character) (i : Nat) :
    (recomputeStep D c i).mExperience = c.mExperience := by
  unfold recomputeStep
  split <;> rfl

theorem modifiedAttribute_mExperience (D : Defines) (c : Character) (a : Nat) :
    (modifiedAttribute D c a).mExperience = c.mExperience := by
  unfold modifiedAttribute
  split
  · show (recomputeAll D c).mExperience = _
    unfold recomputeAll
    generalize List.range' D.BASE_ATTR_BEGIN (D.BASE_ATTR_END - D.BASE_ATTR_BEGIN) = l
    induction l generalizing c with
    | nil => rfl
    | cons i t ih => rw [List.foldl_cons, ih, recomputeStep_mExperience]
  · rfl

/-- One pass of the loop body raises the level of the skill by exactly 1. -/
theorem levelup_pass_getAttribute (D : Defines) (c : Character) (skill : Nat)
    (hL : D.BASE_ATTR_END ≤ D.CHAR_ATTR_BEGIN) :
    getAttribute (modifiedAttribute D (setAttribute c skill (getAttribute c skill + 1)) skill) skill
      = getAttribute c skill + 1 := by
  show ((modifiedAttribute D _ skill).mAttributes skill).base = _
  rw [modifiedAttribute_mAttributes_self D _ skill hL]
  exact getAttribute_setAttribute_self _ skill _

/-- The loop writes attributes only: the experience it ends with is the one it
started with. -/
theorem skillLevelups_mExperience (D : Defines) (x : Int) (skill : Nat) :
    ∀ (fuel : Nat) (c c' : Character),
      skillLevelups D x skill fuel c = some c' → c'.mExperience = c.mExperience := by
  intro fuel
  induction fuel with
  | zero =>
    intro c c' h
    unfold skillLevelups at h
    split at h
    · exact absurd h (by simp)
    · rw [← Option.some.inj h]
  | succ f ih =>
    intro c c' h
    unfold skillLevelups at h
    split at h
    · rw [ih _ _ h, modifiedAttribute_mExperience]
      rfl
    · rw [← Option.some.inj h]

/-- With `newExp` at `INT_MAX` the loop condition holds in every state, so no
number of passes ends the loop. -/
theorem skillLevelups_saturated (D : Defines) (skill : Nat) :
    ∀ (fuel : Nat) (c : Character), skillLevelups D INT_MAX skill fuel c = none := by
  intro fuel
  induction fuel with
  | zero =>
    intro c
    unfold skillLevelups
    rw [if_pos (expForLevel_range D _).2]
  | succ f ih =>
    intro c
    unfold skillLevelups
    rw [if_pos (expForLevel_range D _).2]
    exact ih _

/-- If the threshold of some level `k` steps above the current one exceeds
`newExp`, the loop ends within `k` passes. -/
theorem skillLevelups_terminates (D : Defines) (x : Int) (skill : Nat)
    (hL : D.BASE_ATTR_END ≤ D.CHAR_ATTR_BEGIN) :
    ∀ (fuel k : Nat) (c : Character), k ≤ fuel →
      x < expForLevel D (getAttribute c skill + (k : Int) + 1) →
      ∃ c', skillLevelups D x skill fuel c = some c' := by
  intro fuel
  induction fuel with
  | zero =>
    intro k c hk hx
    have hk0 : k = 0 := by omega
    subst hk0
    unfold skillLevelups
    rw [if_neg (by simp only [Nat.cast_zero, add_zero] at hx; omega)]
    exact ⟨c, rfl⟩
  | succ f ih =>
    intro k c hk hx
    unfold skillLevelups
    by_cases hcond : x ≥ expForLevel D (getAttribute c skill + 1)
    · rw [if_pos hcond]
      cases k with
      | zero =>
        simp only [Nat.cast_zero, add_zero] at hx
        omega
      | succ k1 =>
        apply ih k1 _ (by omega)
        rw [levelup_pass_getAttribute D c skill hL]
        have : getAttribute c skill + 1 + (k1 : Int) + 1
            = getAttribute c skill + ((k1 + 1 : Nat) : Int) + 1 := by
          push_cast; ring
        rw [this]
        exact hx
    · rw [if_neg hcond]
      exact ⟨c, rfl⟩


/-! ## Experience: theorems -/

/-- Stored `INT_MAX` plus an amount of 1: either `newExp` is clamped to
`INT_MAX` (unsigned elements, 64-bit `long int`), or the sum has wrapped before
the comparison and the value stored is not `INT_MAX`. -/
theorem sum_at_INT_MAX (D : Defines) :
    clampExperience (sumExperience D INT_MAX 1) = INT_MAX ∨
    toExpElem D (clampExperience (sumExperience D INT_MAX 1)) ≠ INT_MAX := by
  unfold sumExperience toExpElem toLong
  rcases he : D.expElem with _ | _ <;> rcases hw : D.longWidth with _ | _
  · right
    simp [LongWidth.bits, wrapSigned, clampExperience, INT_MAX]
  · right
    simp [LongWidth.bits, wrapSigned, clampExperience, INT_MAX]
  · right
    simp [LongWidth.bits, wrapSigned, wrapUnsigned, clampExperience, INT_MAX]
  · left
    simp [LongWidth.bits, wrapSigned, wrapUnsigned, clampExperience, INT_MAX]

/-- C8 fails at stored experience `INT_MAX` and amount 1: whatever the
declarations of the headers, no run of `receiveExperience` ends with
`min(INT_MAX + 1, INT_MAX)` stored.  Either the sum wraps before it is compared
with `INT_MAX`, or `INT_MAX` is stored and the level-up loop that follows never
ends, its condition `INT_MAX >= expForLevel(..)` being true for every `int`. -/
theorem receiveExperience_saturation_never_completes :
    ¬ ∃ (D : Defines) (c : Character) (skill fuel : Nat) (c' : Character),
      D.CHAR_SKILL_BEGIN ≤ skill ∧ skill < D.CHAR_SKILL_END ∧
      c.mExperience (skill - D.CHAR_SKILL_BEGIN) = INT_MAX ∧
      receiveExperience D fuel c skill 1 = some c' ∧
      c'.mExperience (skill - D.CHAR_SKILL_BEGIN) = min (INT_MAX + 1) INT_MAX := by
  rintro ⟨D, c, skill, fuel, c', h1, h2, he, hrun, hst⟩
  unfold receiveExperience at hrun
  rw [if_pos ⟨h1, h2⟩, he] at hrun
  simp only [Option.map_eq_some'] at hrun
  obtain ⟨c3, hloop, hc3⟩ := hrun
  rcases sum_at_INT_MAX D with hsat | hne
  · rw [hsat, skillLevelups_saturated] at hloop
    exact absurd hloop (by simp)
  · have hexp := skillLevelups_mExperience _ _ _ _ _ _ hloop
    apply hne
    have hmin : min (INT_MAX + 1) INT_MAX = INT_MAX := min_eq_right (by unfold INT_MAX; omega)
    rw [hmin, ← hc3] at hst
    have : c3.mExperience (skill - D.CHAR_SKILL_BEGIN) = INT_MAX := hst
    rw [hexp] at this
    simpa using this


/-- C9, as stated, fails at stored experience 0 and amount -1 for the first
skill of the sample layout.  With `int` elements the call returns with -1
stored; with `unsigned int` elements and a 64-bit `long int` the sum wraps to
4294967295, is clamped to `INT_MAX`, and the level-up loop never ends. -/
theorem receiveExperience_negative_counterexample :
    (sampleCharacter 0 0).mExperience (22 - sampleDefines.CHAR_SKILL_BEGIN) = 0 ∧
    (receiveExperience sampleDefinesSigned 0 (sampleCharacter 0 0) 22 (-1)).map
      (fun c => c.mExperience 0) = some (-1) ∧
    (∀ fuel, receiveExperience sampleDefines fuel (sampleCharacter 0 0) 22 (-1) = none) := by
  refine ⟨rfl, by decide, ?_⟩
  intro fuel
  have hx : clampExperience (sumExperience sampleDefines
      ((sampleCharacter 0 0).mExperience (22 - sampleDefines.CHAR_SKILL_BEGIN)) (-1)) = INT_MAX := by
    decide
  unfold receiveExperience
  rw [if_pos (by decide), hx]
  simp only [skillLevelups_saturated, Option.map_none']

/-- C9 (amended): for a skill in `[CHAR_SKILL_BEGIN, CHAR_SKILL_END)` with stored
experience `e` and an amount `n`, negative or not, such that `0 <= e + n <=
INT_MAX`, and when the threshold `expForLevel` of some level `k` steps above the
skill's level exceeds `e + n` (so that the level-up loop ends), the call
returns within `k` passes of the loop with `e + n` stored, which is not
negative. -/
theorem receiveExperience_nonneg (D : Defines) (c : Character) (skill : Nat) (n : Int)
    (k fuel : Nat)
    (hL : D.BASE_ATTR_END ≤ D.CHAR_ATTR_BEGIN)
    (hs1 : D.CHAR_SKILL_BEGIN ≤ skill) (hs2 : skill < D.CHAR_SKILL_END)
    (h0 : 0 ≤ c.mExperience (skill - D.CHAR_SKILL_BEGIN) + n)
    (h1 : c.mExperience (skill - D.CHAR_SKILL_BEGIN) + n ≤ INT_MAX)
    (hk : c.mExperience (skill - D.CHAR_SKILL_BEGIN) + n
      < expForLevel D (getAttribute c skill + (k : Int) + 1))
    (hf : k ≤ fuel) :
    ∃ c', receiveExperience D fuel c skill n = some c' ∧
      c'.mExperience (skill - D.CHAR_SKILL_BEGIN)
        = c.mExperience (skill - D.CHAR_SKILL_BEGIN) + n ∧
      0 ≤ c'.mExperience (skill - D.CHAR_SKILL_BEGIN) := by
  unfold receiveExperience
  rw [if_pos ⟨hs1, hs2⟩]
  dsimp only
  rw [clamp_sum_of_range D _ _ h0 h1, toExpElem_of_range D _ h0 h1]
  obtain ⟨c3, hc3⟩ := skillLevelups_terminates D
    (c.mExperience (skill - D.CHAR_SKILL_BEGIN) + n) skill hL fuel k
    { c with
      mExperience := Function.update c.mExperience (skill - D.CHAR_SKILL_BEGIN)
        (c.mExperience (skill - D.CHAR_SKILL_BEGIN) + n),
      mModifiedExperience := insert (skill - D.CHAR_SKILL_BEGIN) c.mModifiedExperience }
    hf hk
  have hexp := skillLevelups_mExperience _ _ _ _ _ _ hc3
  have hst : c3.mExperience (skill - D.CHAR_SKILL_BEGIN)
      = c.mExperience (skill - D.CHAR_SKILL_BEGIN) + n := by
    rw [hexp]
    simp
  refine ⟨{ c3 with mRecalculateLevel := true }, ?_, hst, ?_⟩
  · simp only [hc3, Option.map_some']
  · show 0 ≤ c3.mExperience (skill - D.CHAR_SKILL_BEGIN)
    rw [hst]
    exact h0

/-- Witness of C9 (amended): 8 points stored, an amount of -3 received, on the
sample declarations and on their variant with `int` elements. -/
theorem receiveExperience_nonneg_witness :
    (∃ c', receiveExperience sampleDefines 0 sampleVeteran 22 (-3) = some c' ∧
      c'.mExperience (22 - sampleDefines.CHAR_SKILL_BEGIN)
        = sampleVeteran.mExperience (22 - sampleDefines.CHAR_SKILL_BEGIN) + (-3) ∧
      0 ≤ c'.mExperience (22 - sampleDefines.CHAR_SKILL_BEGIN)) ∧
    (∃ c', receiveExperience sampleDefinesSigned 0 sampleVeteran 22 (-3) = some c' ∧
      c'.mExperience (22 - sampleDefinesSigned.CHAR_SKILL_BEGIN)
        = sampleVeteran.mExperience (22 - sampleDefinesSigned.CHAR_SKILL_BEGIN) + (-3) ∧
      0 ≤ c'.mExperience (22 - sampleDefinesSigned.CHAR_SKILL_BEGIN)) :=
  ⟨receiveExperience_nonneg sampleDefines sampleVeteran 22 (-3) 0 0
     (by decide) (by decide) (by decide) (by decide) (by decide) (by decide) (by decide),
   receiveExperience_nonneg sampleDefinesSigned sampleVeteran 22 (-3) 0 0
     (by decide) (by decide) (by decide) (by decide) (by decide) (by decide) (by decide)⟩


/-- A function that is strictly increasing from level 1 on gains at least 1
per level. -/
theorem expForLevel_growth (D : Defines)
    (h : ∀ L : Int, 1 ≤ L → expForLevel D L < expForLevel D (L + 1)) :
    ∀ n : Nat, expForLevel D 1 + (n : Int) ≤ expForLevel D (1 + (n : Int)) := by
  intro n
  induction n with
  | zero => simp
  | succ m ih =>
    have hstep := h (1 + (m : Int)) (by omega)
    have : (1 : Int) + ((m + 1 : Nat) : Int) = 1 + (m : Int) + 1 := by push_cast; ring
    rw [this]
    push_cast
    omega

/-- C10, as stated, fails: on the sample declarations the threshold of level
598 is 2138471920 and that of level 599, whose exact value 2149217990 does not
fit an `int`, is not above it; and no declarations at all make `expForLevel`
strictly increasing on every level from 1 on, its values being `int`s. -/
theorem expForLevel_not_increasing :
    expForLevel sampleDefines 598 = 2138471920 ∧
    ¬ (expForLevel sampleDefines 598 < expForLevel sampleDefines (598 + 1)) ∧
    ¬ ∃ D : Defines, ∀ L : Int, 1 ≤ L → expForLevel D L < expForLevel D (L + 1) := by
  refine ⟨by decide, by decide, ?_⟩
  rintro ⟨D, h⟩
  have hgrow := expForLevel_growth D h 4294967296
  have hlo := (expForLevel_range D 1).1
  have hhi := (expForLevel_range D (1 + ((4294967296 : Nat) : Int))).2
  unfold INT_MIN at hlo
  unfold INT_MAX at hhi
  norm_num at hgrow hhi
  omega

/-- C10 (amended): for curve constants that are at least 1 and every level
`L >= 1` whose next threshold `(L + 1)^EXPCURVE_EXPONENT * EXPCURVE_FACTOR` fits
an `int`, `expForLevel(L) < expForLevel(L + 1)`. -/
theorem expForLevel_increasing_in_range (D : Defines) (L : Int)
    (hE : 1 ≤ D.EXPCURVE_EXPONENT) (hF : 1 ≤ D.EXPCURVE_FACTOR) (hL : 1 ≤ L)
    (hR : (L + 1) ^ D.EXPCURVE_EXPONENT * (D.EXPCURVE_FACTOR : Int) ≤ INT_MAX) :
    expForLevel D L < expForLevel D (L + 1) := by
  have hF0 : (0 : Int) < (D.EXPCURVE_FACTOR : Int) := by exact_mod_cast hF
  have hpow : L ^ D.EXPCURVE_EXPONENT < (L + 1) ^ D.EXPCURVE_EXPONENT :=
    pow_lt_pow_left₀ (by omega) (by omega) (by omega)
  have hlt : L ^ D.EXPCURVE_EXPONENT * (D.EXPCURVE_FACTOR : Int)
      < (L + 1) ^ D.EXPCURVE_EXPONENT * (D.EXPCURVE_FACTOR : Int) :=
    mul_lt_mul_of_pos_right hpow hF0
  have h0 : 0 ≤ L ^ D.EXPCURVE_EXPONENT * (D.EXPCURVE_FACTOR : Int) :=
    mul_nonneg (pow_nonneg (by omega) _) (le_of_lt hF0)
  have hmin : INT_MIN ≤ 0 := by decide
  unfold expForLevel doubleToInt
  rw [if_pos ⟨by omega, by omega⟩, if_pos ⟨by omega, hR⟩]
  exact hlt

/-- Witness of C10 (amended): on the sample declarations, levels 597 and 598
(thresholds 2127761730 and 2138471920). -/
theorem expForLevel_increasing_in_range_witness :
    expForLevel sampleDefines 597 < expForLevel sampleDefines (597 + 1) :=
  expForLevel_increasing_in_range sampleDefines 597
    (by decide) (by decide) (by decide) (by decide)


/-! ## Attribute recomputation: what the loop computes -/

theorem recomputeStep_mLevel (D : Defines) (c : Character) (i : Nat) :
    (recomputeStep D c i).mLevel = c.mLevel := by
  unfold recomputeStep
  split <;> rfl

theorem recomputeIn_mLevel (D : Defines) (l : List Nat) (c : Character) :
    (recomputeIn D l c).mLevel = c.mLevel := by
  unfold recomputeIn
  induction l generalizing c with
  | nil => rfl
  | cons i t ih => rw [List.foldl_cons, ih, recomputeStep_mLevel]

/-- A pass leaves index `i` with its base value at `newValue`, written or not. -/
theorem recomputeStep_mAttributes_self (D : Defines) (c : Character) (i : Nat) :
    (recomputeStep D c i).mAttributes i = { c.mAttributes i with base := newValue D c i } := by
  unfold recomputeStep
  split
  · simp [flagAttribute, setAttribute]
  · rename_i h
    have h1 : newValue D c i = (c.mAttributes i).base := not_not.mp h
    rw [h1]

/-- A pass flags index `i` exactly when it has changed the value. -/
theorem recomputeStep_mModifiedAttributes (D : Defines) (c : Character) (i : Nat) :
    (recomputeStep D c i).mModifiedAttributes =
      if getAttribute (recomputeStep D c i) i ≠ getAttribute c i
      then insert i c.mModifiedAttributes else c.mModifiedAttributes := by
  have hself := recomputeStep_mAttributes_self D c i
  have hval : getAttribute (recomputeStep D c i) i = newValue D c i := by
    unfold getAttribute
    rw [hself]
  rw [hval]
  unfold recomputeStep
  split
  · rfl
  · rfl

/-- `newValue` reads the level, the five attributes of `statIndices` and, where
the chain has no formula, the attribute itself. -/
theorem newValue_congr (D : Defines) (c c1 : Character) (j : Nat)
    (hl : c1.mLevel = c.mLevel)
    (hs : ∀ a ∈ D.statIndices, c1.mAttributes a = c.mAttributes a)
    (hj : c1.mAttributes j = c.mAttributes j) :
    newValue D c1 j = newValue D c j := by
  simp only [Defines.statIndices, List.mem_cons, List.mem_singleton, List.not_mem_nil,
    or_false, forall_eq_or_imp, forall_eq] at hs
  obtain ⟨h1, h2, h3, h4, h5⟩ := hs
  unfold newValue getModifiedAttribute getAttribute
  rw [hl, h1, h2, h3, h4, h5, hj]

theorem recomputeIn_mAttributes_of_not_mem (D : Defines) (l : List Nat) (c : Character) (a : Nat)
    (h : a ∉ l) : (recomputeIn D l c).mAttributes a = c.mAttributes a :=
  foldl_recomputeStep_mAttributes D l c a h

/-- After the loop every visited index holds its `newValue`, computed in the
state before the loop, provided the loop visits none of the attributes the
formulas read and visits no index twice. -/
theorem recomputeIn_mAttributes_of_mem (D : Defines) (l : List Nat)
    (hs : ∀ a ∈ D.statIndices, a ∉ l) (hn : l.Nodup) :
    ∀ (c : Character) (a : Nat), a ∈ l →
      (recomputeIn D l c).mAttributes a = { c.mAttributes a with base := newValue D c a } := by
  induction l with
  | nil => intro c a h; exact absurd h (List.not_mem_nil a)
  | cons i t ih =>
    intro c a ha
    have hnt : t.Nodup := (List.nodup_cons.mp hn).2
    have hit : i ∉ t := (List.nodup_cons.mp hn).1
    have hst : ∀ a ∈ D.statIndices, a ∉ t := fun x hx hxt => hs x hx (List.mem_cons_of_mem i hxt)
    have hsi : ∀ a ∈ D.statIndices, a ≠ i := fun x hx hxi => hs x hx (hxi ▸ List.mem_cons_self i t)
    show (recomputeIn D t (recomputeStep D c i)).mAttributes a = _
    by_cases hai : a = i
    · subst hai
      rw [recomputeIn_mAttributes_of_not_mem D t _ a hit, recomputeStep_mAttributes_self]
    · have hat : a ∈ t := (List.mem_cons.mp ha).resolve_left hai
      rw [ih hst hnt _ a hat, recomputeStep_mAttributes_of_ne D c i a hai]
      rw [newValue_congr D c (recomputeStep D c i) a (recomputeStep_mLevel D c i)
        (fun x hx => recomputeStep_mAttributes_of_ne D c i x (hsi x hx))
        (recomputeStep_mAttributes_of_ne D c i a hai)]

/-- After the loop the set of flagged indices has grown by exactly the visited
indices whose value has changed. -/
theorem recomputeIn_mModifiedAttributes (D : Defines) (l : List Nat) (hn : l.Nodup) :
    ∀ (c : Character) (x : Nat), x ∈ (recomputeIn D l c).mModifiedAttributes ↔
      x ∈ c.mModifiedAttributes ∨
        (x ∈ l ∧ getAttribute (recomputeIn D l c) x ≠ getAttribute c x) := by
  induction l with
  | nil => intro c x; simp [recomputeIn]
  | cons i t ih =>
    intro c x
    have hnt : t.Nodup := (List.nodup_cons.mp hn).2
    have hit : i ∉ t := (List.nodup_cons.mp hn).1
    show x ∈ (recomputeIn D t (recomputeStep D c i)).mModifiedAttributes ↔
      x ∈ c.mModifiedAttributes ∨
        (x ∈ i :: t ∧ getAttribute (recomputeIn D t (recomputeStep D c i)) x ≠ getAttribute c x)
    rw [ih hnt, recomputeStep_mModifiedAttributes]
    have hi : getAttribute (recomputeIn D t (recomputeStep D c i)) i
        = getAttribute (recomputeStep D c i) i := by
      unfold getAttribute
      rw [recomputeIn_mAttributes_of_not_mem D t _ i hit]
    by_cases hxi : x = i
    · subst hxi
      rw [hi]
      by_cases hch : getAttribute (recomputeStep D c x) x ≠ getAttribute c x
      · simp [hch, hit]
      · simp [hch, hit]
    · have hx1 : getAttribute (recomputeStep D c i) x = getAttribute c x := by
        unfold getAttribute
        rw [recomputeStep_mAttributes_of_ne D c i x hxi]
      rw [hx1]
      by_cases hch : getAttribute (recomputeStep D c i) i ≠ getAttribute c i
      · simp [hch, hxi]
      · simp [hch, hxi]

/-- The loop writes the attributes and the set of flagged indices only. -/
theorem recomputeIn_eq (D : Defines) (l : List Nat) (c : Character) :
    recomputeIn D l c = { c with
      mAttributes := (recomputeIn D l c).mAttributes,
      mModifiedAttributes := (recomputeIn D l c).mModifiedAttributes } := by
  unfold recomputeIn
  induction l generalizing c with
  | nil => rfl
  | cons i t ih =>
    rw [List.foldl_cons]
    have hstep : recomputeStep D c i = { c with
        mAttributes := (recomputeStep D c i).mAttributes,
        mModifiedAttributes := (recomputeStep D c i).mModifiedAttributes } := by
      unfold recomputeStep
      split <;> rfl
    rw [ih (recomputeStep D c i)]
    generalize List.foldl (recomputeStep D) (recomputeStep D c i) t = r
    rw [hstep]

theorem recomputeAll_eq_recomputeIn (D : Defines) (c : Character) :
    recomputeAll D c
      = recomputeIn D (List.range' D.BASE_ATTR_BEGIN (D.BASE_ATTR_END - D.BASE_ATTR_BEGIN)) c := rfl

theorem mem_derivedRange (D : Defines) (x : Nat) :
    x ∈ List.range' D.BASE_ATTR_BEGIN (D.BASE_ATTR_END - D.BASE_ATTR_BEGIN)
      ↔ D.BASE_ATTR_BEGIN ≤ x ∧ x < D.BASE_ATTR_END := by
  rw [List.mem_range'_1]
  omega


/-! ## Attribute recomputation: theorems -/

/-- After `modifiedAttribute(a)` on a customizable attribute, every index of
the derived range holds its `newValue`, and no other attribute, nor the level,
has changed. -/
theorem modifiedAttribute_derived (D : Defines) (c : Character) (a : Nat)
    (hD : D.DerivedLayout) (ha : D.CHAR_ATTR_BEGIN ≤ a ∧ a < D.CHAR_ATTR_END) :
    (∀ i, D.BASE_ATTR_BEGIN ≤ i → i < D.BASE_ATTR_END →
      getAttribute (modifiedAttribute D c a) i = newValue D c i) ∧
    (∀ x, D.BASE_ATTR_END ≤ x →
      (modifiedAttribute D c a).mAttributes x = c.mAttributes x) ∧
    (modifiedAttribute D c a).mLevel = c.mLevel := by
  have hrun : modifiedAttribute D c a = flagAttribute (recomputeAll D c) a := by
    unfold modifiedAttribute
    rw [if_pos ha]
  rw [hrun]
  refine ⟨?_, ?_, ?_⟩
  · intro i h1 h2
    have hmem := (mem_derivedRange D i).mpr ⟨h1, h2⟩
    have hs : ∀ x ∈ D.statIndices,
        x ∉ List.range' D.BASE_ATTR_BEGIN (D.BASE_ATTR_END - D.BASE_ATTR_BEGIN) := by
      intro x hx hxm
      have := hD.2.2 x hx
      have := ((mem_derivedRange D x).mp hxm).2
      omega
    show ((recomputeAll D c).mAttributes i).base = _
    rw [recomputeAll_eq_recomputeIn,
      recomputeIn_mAttributes_of_mem D _ hs (List.nodup_range' _ _) c i hmem]
  · intro x hx
    exact recomputeAll_mAttributes D c x hx
  · exact recomputeIn_mLevel D _ c

/-- C17: after `modifiedAttribute(a)` on a customizable attribute `a`, health
pool = (Vitality + 10) * (level + 10), evasion = Agility, physical resistance =
Vitality, physical attack base = Strength, physical attack delta = 0, magic
resistance = Willpower and magic attack = Willpower, each named stat being the
modified value (base plus modifiers); visiting the derived attributes in any
other order gives the same state. -/
theorem modifiedAttribute_formulas (D : Defines) (c : Character) (a : Nat)
    (hD : D.DerivedLayout) (ha : D.CHAR_ATTR_BEGIN ≤ a ∧ a < D.CHAR_ATTR_END) :
    getAttribute (modifiedAttribute D c a) D.BASE_ATTR_HP
      = (getModifiedAttribute (modifiedAttribute D c a) D.CHAR_ATTR_VITALITY + 10)
        * ((modifiedAttribute D c a).mLevel + 10) ∧
    getAttribute (modifiedAttribute D c a) D.BASE_ATTR_EVADE
      = getModifiedAttribute (modifiedAttribute D c a) D.CHAR_ATTR_AGILITY ∧
    getAttribute (modifiedAttribute D c a) D.BASE_ATTR_PHY_RES
      = getModifiedAttribute (modifiedAttribute D c a) D.CHAR_ATTR_VITALITY ∧
    getAttribute (modifiedAttribute D c a) D.BASE_ATTR_PHY_ATK_MIN
      = getModifiedAttribute (modifiedAttribute D c a) D.CHAR_ATTR_STRENGTH ∧
    getAttribute (modifiedAttribute D c a) D.BASE_ATTR_PHY_ATK_DELTA = 0 ∧
    getAttribute (modifiedAttribute D c a) D.BASE_ATTR_MAG_RES
      = getModifiedAttribute (modifiedAttribute D c a) D.CHAR_ATTR_WILLPOWER ∧
    getAttribute (modifiedAttribute D c a) D.BASE_ATTR_MAG_ATK
      = getModifiedAttribute (modifiedAttribute D c a) D.CHAR_ATTR_WILLPOWER ∧
    (∀ l : List Nat,
      l.Perm (List.range' D.BASE_ATTR_BEGIN (D.BASE_ATTR_END - D.BASE_ATTR_BEGIN)) →
      flagAttribute (recomputeIn D l c) a = modifiedAttribute D c a) := by
  obtain ⟨hval, hfix, hlev⟩ := modifiedAttribute_derived D c a hD ha
  have hstat0 := hD.2.2
  obtain ⟨hrange, hnodup, hstat⟩ := hD
  simp only [Defines.derivedIndices, List.mem_cons, List.mem_singleton, List.not_mem_nil,
    or_false, forall_eq_or_imp, forall_eq] at hrange
  simp only [Defines.statIndices, List.mem_cons, List.mem_singleton, List.not_mem_nil,
    or_false, forall_eq_or_imp, forall_eq] at hstat
  simp only [Defines.derivedIndices, List.nodup_cons, List.mem_cons, List.mem_singleton,
    List.not_mem_nil, or_false, not_or, List.nodup_nil, and_true] at hnodup
  obtain ⟨r1, r2, r3, r4, r5, r6, r7, r8⟩ := hrange
  obtain ⟨s1, s2, s3, s4, s5⟩ := hstat
  have gm : ∀ x, D.BASE_ATTR_END ≤ x →
      getModifiedAttribute (modifiedAttribute D c a) x = getModifiedAttribute c x := by
    intro x hx
    unfold getModifiedAttribute
    rw [hfix x hx]
  rw [hval _ r1.1 r1.2, hval _ r3.1 r3.2, hval _ r4.1 r4.2, hval _ r5.1 r5.2, hval _ r6.1 r6.2,
    hval _ r7.1 r7.2, hval _ r8.1 r8.2, hlev, gm _ s1, gm _ s2, gm _ s4, gm _ s5]
  refine ⟨?_, ?_, ?_, ?_, ?_, ?_, ?_, ?_⟩
  · simp [newValue]
  · simp [newValue, hnodup, Ne.symm]
  · simp [newValue, hnodup, Ne.symm]
  · simp [newValue, hnodup, Ne.symm]
  · simp [newValue, hnodup, Ne.symm]
  · simp [newValue, hnodup, Ne.symm]
  · simp [newValue, hnodup, Ne.symm]
  · intro l hl
    have hrun : modifiedAttribute D c a = flagAttribute (recomputeAll D c) a := by
      unfold modifiedAttribute
      rw [if_pos ha]
    rw [hrun]
    congr 1
    have hln : l.Nodup := hl.nodup_iff.mpr (List.nodup_range' _ _)
    have hsl : ∀ x ∈ D.statIndices, x ∉ l := by
      intro x hx hxl
      have h1 := hstat0 x hx
      have h2 := ((mem_derivedRange D x).mp (hl.mem_iff.mp hxl)).2
      omega
    have hsr : ∀ x ∈ D.statIndices,
        x ∉ List.range' D.BASE_ATTR_BEGIN (D.BASE_ATTR_END - D.BASE_ATTR_BEGIN) := by
      intro x hx hxl
      exact hsl x hx (hl.mem_iff.mpr hxl)
    have hattr : (recomputeIn D l c).mAttributes = (recomputeAll D c).mAttributes := by
      funext x
      rw [recomputeAll_eq_recomputeIn]
      by_cases hx : x ∈ l
      · rw [recomputeIn_mAttributes_of_mem D l hsl hln c x hx,
          recomputeIn_mAttributes_of_mem D _ hsr (List.nodup_range' _ _) c x (hl.mem_iff.mp hx)]
      · rw [recomputeIn_mAttributes_of_not_mem D l c x hx,
          recomputeIn_mAttributes_of_not_mem D _ c x (fun h => hx (hl.mem_iff.mpr h))]
    have hflag : (recomputeIn D l c).mModifiedAttributes
        = (recomputeAll D c).mModifiedAttributes := by
      ext x
      rw [recomputeAll_eq_recomputeIn, recomputeIn_mModifiedAttributes D l hln,
        recomputeIn_mModifiedAttributes D _ (List.nodup_range' _ _)]
      rw [← recomputeAll_eq_recomputeIn]
      unfold getAttribute
      rw [hattr, hl.mem_iff]
    rw [recomputeIn_eq D l c, recomputeAll_eq_recomputeIn, recomputeIn_eq D (List.range' _ _) c]
    rw [← recomputeAll_eq_recomputeIn, hattr, hflag]


/-- Witness of C17: the sample state after `modifiedAttribute(16)`. -/
theorem modifiedAttribute_formulas_witness :
    getAttribute (modifiedAttribute sampleDefines (sampleCharacter 0 0) 16)
        sampleDefines.BASE_ATTR_HP
      = (getModifiedAttribute (modifiedAttribute sampleDefines (sampleCharacter 0 0) 16)
          sampleDefines.CHAR_ATTR_VITALITY + 10)
        * ((modifiedAttribute sampleDefines (sampleCharacter 0 0) 16).mLevel + 10) :=
  (modifiedAttribute_formulas sampleDefines (sampleCharacter 0 0) 16 (by decide) (by decide)).1

/-- C18, as stated, fails: with Dexterity 5 and a weapon skill of 3 for the
weapon type 0, `modifiedAttribute(16)` leaves BASE_ATTR_HIT (index 6) at 5, the
Dexterity alone, while Dexterity plus the weapon skill is 8. -/
theorem modifiedAttribute_hit_counterexample :
    getAttribute (modifiedAttribute sampleDefines sampleFighter 16) sampleDefines.BASE_ATTR_HIT = 5 ∧
    getModifiedAttribute (modifiedAttribute sampleDefines sampleFighter 16)
        sampleDefines.CHAR_ATTR_DEXTERITY
      + getModifiedAttribute (modifiedAttribute sampleDefines sampleFighter 16)
        (sampleDefines.CHAR_SKILL_WEAPON_BEGIN + 0) = 8 := by
  decide

/-- C18 (amended): after `modifiedAttribute(a)` on a customizable attribute the
derived hit-chance attribute BASE_ATTR_HIT equals Dexterity (modified value)
alone; the weapon skill for the equipped weapon type is added by `perform`,
whose chance to hit is the modified BASE_ATTR_HIT plus the modified weapon
skill. -/
theorem modifiedAttribute_hit (D : Defines) (c : Character) (a : Nat)
    (hD : D.DerivedLayout) (ha : D.CHAR_ATTR_BEGIN ≤ a ∧ a < D.CHAR_ATTR_END) :
    getAttribute (modifiedAttribute D c a) D.BASE_ATTR_HIT
      = getModifiedAttribute (modifiedAttribute D c a) D.CHAR_ATTR_DEXTERITY ∧
    (∀ type : Nat, (performDamage D (modifiedAttribute D c a) type).cth
      = getModifiedAttribute (modifiedAttribute D c a) D.CHAR_ATTR_DEXTERITY
        + ((modifiedAttribute D c a).mAttributes D.BASE_ATTR_HIT).mod
        + getModifiedAttribute (modifiedAttribute D c a) (D.CHAR_SKILL_WEAPON_BEGIN + type)) := by
  obtain ⟨hval, hfix, _⟩ := modifiedAttribute_derived D c a hD ha
  obtain ⟨hrange, hnodup, hstat⟩ := hD
  have hhit : getAttribute (modifiedAttribute D c a) D.BASE_ATTR_HIT
      = getModifiedAttribute (modifiedAttribute D c a) D.CHAR_ATTR_DEXTERITY := by
    have r := hrange D.BASE_ATTR_HIT (by simp [Defines.derivedIndices])
    have sd := hstat D.CHAR_ATTR_DEXTERITY (by simp [Defines.statIndices])
    have hne : D.BASE_ATTR_HIT ≠ D.BASE_ATTR_HP := by
      simp only [Defines.derivedIndices, List.nodup_cons, List.mem_cons, not_or] at hnodup
      exact Ne.symm hnodup.1.1
    rw [hval _ r.1 r.2]
    unfold getModifiedAttribute
    rw [hfix _ sd]
    simp [newValue, hne, getModifiedAttribute]
  refine ⟨hhit, ?_⟩
  intro type
  show getModifiedAttribute _ D.BASE_ATTR_HIT + _ = _
  have : getModifiedAttribute (modifiedAttribute D c a) D.BASE_ATTR_HIT
      = getAttribute (modifiedAttribute D c a) D.BASE_ATTR_HIT
        + ((modifiedAttribute D c a).mAttributes D.BASE_ATTR_HIT).mod := rfl
  rw [this, hhit]

/-- Witness of C18 (amended): the sample fighter after `modifiedAttribute(16)`. -/
theorem modifiedAttribute_hit_witness :
    getAttribute (modifiedAttribute sampleDefines sampleFighter 16) sampleDefines.BASE_ATTR_HIT
      = getModifiedAttribute (modifiedAttribute sampleDefines sampleFighter 16)
          sampleDefines.CHAR_ATTR_DEXTERITY :=
  (modifiedAttribute_hit sampleDefines sampleFighter 16 (by decide) (by decide)).1

/-- The two point-spending operations leave the health pool equal to
(Vitality + 10) * (level + 10) when it was so before: they recompute it when
they change an attribute and change nothing otherwise. -/
theorem pointSpending_keeps_health (D : Defines) (c : Character) (a : Nat)
    (hD : D.DerivedLayout)
    (h : getAttribute c D.BASE_ATTR_HP
      = (getModifiedAttribute c D.CHAR_ATTR_VITALITY + 10) * (c.mLevel + 10)) :
    getAttribute (useCharacterPoint D c a).2 D.BASE_ATTR_HP
      = (getModifiedAttribute (useCharacterPoint D c a).2 D.CHAR_ATTR_VITALITY + 10)
        * ((useCharacterPoint D c a).2.mLevel + 10) ∧
    getAttribute (useCorrectionPoint D c a).2 D.BASE_ATTR_HP
      = (getModifiedAttribute (useCorrectionPoint D c a).2 D.CHAR_ATTR_VITALITY + 10)
        * ((useCorrectionPoint D c a).2.mLevel + 10) := by
  have key : ∀ c0 : Character, D.CHAR_ATTR_BEGIN ≤ a ∧ a < D.CHAR_ATTR_END →
      getAttribute (modifiedAttribute D c0 a) D.BASE_ATTR_HP
        = (getModifiedAttribute (modifiedAttribute D c0 a) D.CHAR_ATTR_VITALITY + 10)
          * ((modifiedAttribute D c0 a).mLevel + 10) := by
    intro c0 ha
    obtain ⟨hval, hfix, hlev⟩ := modifiedAttribute_derived D c0 a hD ha
    have r := hD.1 D.BASE_ATTR_HP (by simp [Defines.derivedIndices])
    have sv := hD.2.2 D.CHAR_ATTR_VITALITY (by simp [Defines.statIndices])
    rw [hval _ r.1 r.2, hlev]
    unfold getModifiedAttribute
    rw [hfix _ sv]
    simp [newValue, getModifiedAttribute]
  constructor
  · unfold useCharacterPoint
    split
    · exact h
    · split
      · exact h
      · split
        · exact h
        · exact key _ ⟨by omega, by omega⟩
  · unfold useCorrectionPoint
    split
    · exact h
    · split
      · exact h
      · split
        · exact h
        · split
          · exact h
          · exact key _ ⟨by omega, by omega⟩

/-- C20: `modifiedAttribute(a)` on a customizable attribute leaves flagged what
was flagged and flags, besides `a`, exactly the indices of
`[BASE_ATTR_BEGIN, BASE_ATTR_END)` whose value after the call differs from the
value before; for an index outside the customizable range it only flags that
index and changes no attribute. -/
theorem modifiedAttribute_flags (D : Defines) (c : Character) (a : Nat) :
    ((D.CHAR_ATTR_BEGIN ≤ a ∧ a < D.CHAR_ATTR_END) →
      ∀ x, x ∈ (modifiedAttribute D c a).mModifiedAttributes ↔
        x = a ∨ x ∈ c.mModifiedAttributes ∨
          (D.BASE_ATTR_BEGIN ≤ x ∧ x < D.BASE_ATTR_END ∧
            getAttribute (modifiedAttribute D c a) x ≠ getAttribute c x)) ∧
    (¬ (D.CHAR_ATTR_BEGIN ≤ a ∧ a < D.CHAR_ATTR_END) →
      modifiedAttribute D c a = flagAttribute c a ∧
      (modifiedAttribute D c a).mAttributes = c.mAttributes ∧
      (modifiedAttribute D c a).mModifiedAttributes = insert a c.mModifiedAttributes) := by
  constructor
  · intro ha x
    have hrun : modifiedAttribute D c a = flagAttribute (recomputeAll D c) a := by
      unfold modifiedAttribute
      rw [if_pos ha]
    rw [hrun]
    show x ∈ insert a (recomputeAll D c).mModifiedAttributes ↔ _
    rw [Finset.mem_insert, recomputeAll_eq_recomputeIn,
      recomputeIn_mModifiedAttributes D _ (List.nodup_range' _ _), mem_derivedRange]
    have hg : getAttribute (flagAttribute (recomputeIn D
        (List.range' D.BASE_ATTR_BEGIN (D.BASE_ATTR_END - D.BASE_ATTR_BEGIN)) c) a) x
        = getAttribute (recomputeIn D
        (List.range' D.BASE_ATTR_BEGIN (D.BASE_ATTR_END - D.BASE_ATTR_BEGIN)) c) x := rfl
    rw [hg]
    tauto
  · intro ha
    have hrun : modifiedAttribute D c a = flagAttribute c a := by
      unfold modifiedAttribute
      rw [if_neg ha]
    rw [hrun]
    exact ⟨rfl, rfl, rfl⟩

/-- Witness of C20: in the sample state `modifiedAttribute(16)` changes the
health pool (index 7) from 0 to 110 and flags it, and it flags 16. -/
theorem modifiedAttribute_flags_witness :
    7 ∈ (modifiedAttribute sampleDefines (sampleCharacter 0 0) 16).mModifiedAttributes ∧
    16 ∈ (modifiedAttribute sampleDefines (sampleCharacter 0 0) 16).mModifiedAttributes :=
  have h := (modifiedAttribute_flags sampleDefines (sampleCharacter 0 0) 16).1 (by decide)
  ⟨(h 7).mpr (Or.inr (Or.inr (by decide))), (h 16).mpr (Or.inl rfl)⟩


/-! ## Skill levels under experience gain -/

theorem modifiedAttribute_mAttributes_of_ge (D : Defines) (c : Character) (a x : Nat)
    (hx : D.BASE_ATTR_END ≤ x) : (modifiedAttribute D c a).mAttributes x = c.mAttributes x := by
  unfold modifiedAttribute
  rw [flagAttribute_mAttributes]
  split
  · exact recomputeAll_mAttributes D c x hx
  · rfl

/-- One pass of the level-up loop raises the level of the named skill by 1 and
leaves every other attribute from `BASE_ATTR_END` on as it is. -/
theorem levelup_pass_attributes (D : Defines) (c : Character) (skill : Nat)
    (hs : D.BASE_ATTR_END ≤ skill) (s : Nat) (h : D.BASE_ATTR_END ≤ s) :
    getAttribute (modifiedAttribute D (setAttribute c skill (getAttribute c skill + 1)) skill) s
      = if s = skill then getAttribute c s + 1 else getAttribute c s := by
  show ((modifiedAttribute D _ skill).mAttributes s).base = _
  rw [modifiedAttribute_mAttributes_of_ge D _ skill s h]
  by_cases hss : s = skill
  · subst hss
    rw [if_pos rfl]
    exact getAttribute_setAttribute_self _ s _
  · rw [if_neg hss]
    simp [setAttribute, getAttribute, Function.update, hss]

theorem skillLevelupPasses_attributes (D : Defines) (x : Int) (skill : Nat)
    (hs : D.BASE_ATTR_END ≤ skill) :
    ∀ (m : Nat) (c : Character) (s : Nat), D.BASE_ATTR_END ≤ s →
      getAttribute c s ≤ getAttribute (skillLevelupPasses D x skill m c) s ∧
      (s ≠ skill → getAttribute (skillLevelupPasses D x skill m c) s = getAttribute c s) := by
  intro m
  induction m with
  | zero => intro c s _; exact ⟨le_refl _, fun _ => rfl⟩
  | succ k ih =>
    intro c s h
    unfold skillLevelupPasses
    split
    · have hp := levelup_pass_attributes D c skill hs s h
      obtain ⟨i1, i2⟩ := ih (modifiedAttribute D
        (setAttribute c skill (getAttribute c skill + 1)) skill) s h
      constructor
      · refine le_trans ?_ i1
        rw [hp]
        split <;> omega
      · intro hne
        rw [i2 hne, hp, if_neg hne]
    · exact ⟨le_refl _, fun _ => rfl⟩

theorem skillLevelups_eq_passes (D : Defines) (x : Int) (skill : Nat) :
    ∀ (fuel : Nat) (c c' : Character),
      skillLevelups D x skill fuel c = some c' → c' = skillLevelupPasses D x skill fuel c := by
  intro fuel
  induction fuel with
  | zero =>
    intro c c' h
    unfold skillLevelups at h
    split at h
    · exact absurd h (by simp)
    · exact (Option.some.inj h).symm
  | succ f ih =>
    intro c c' h
    unfold skillLevelups at h
    unfold skillLevelupPasses
    split at h
    · rename_i hc
      rw [if_pos hc]
      exact ih _ _ h
    · rename_i hc
      rw [if_neg hc]
      exact (Option.some.inj h).symm

/-- C11: with the skills laid out after the derived attributes, at every moment
of a run of `receiveExperience(skill, amount)` (after any number of passes of
its loop), and in the state a run returns, the level of every skill is at least
its level before the call, and the level of every skill but the named one is
its level before the call. -/
theorem receiveExperience_levels (D : Defines) (c : Character) (skill : Nat) (n : Int)
    (hL : D.BASE_ATTR_END ≤ D.CHAR_SKILL_BEGIN) :
    (∀ (m s : Nat), D.CHAR_SKILL_BEGIN ≤ s →
      getAttribute c s ≤ getAttribute (receiveExperiencePasses D m c skill n) s ∧
      (s ≠ skill → getAttribute (receiveExperiencePasses D m c skill n) s = getAttribute c s)) ∧
    (∀ (fuel : Nat) (c' : Character), receiveExperience D fuel c skill n = some c' →
      ∀ s : Nat, D.CHAR_SKILL_BEGIN ≤ s →
        getAttribute c s ≤ getAttribute c' s ∧
        (s ≠ skill → getAttribute c' s = getAttribute c s)) := by
  have hpass : ∀ (m s : Nat), D.CHAR_SKILL_BEGIN ≤ s →
      getAttribute c s ≤ getAttribute (receiveExperiencePasses D m c skill n) s ∧
      (s ≠ skill → getAttribute (receiveExperiencePasses D m c skill n) s = getAttribute c s) := by
    intro m s hs
    unfold receiveExperiencePasses
    split
    · rename_i hr
      dsimp only
      exact skillLevelupPasses_attributes D _ skill (le_trans hL hr.1) m _ s (le_trans hL hs)
    · exact ⟨le_refl _, fun _ => rfl⟩
  refine ⟨hpass, ?_⟩
  intro fuel c' hrun s hs
  have hc' : getAttribute c' s = getAttribute (receiveExperiencePasses D fuel c skill n) s := by
    unfold receiveExperience at hrun
    unfold receiveExperiencePasses
    split at hrun
    · rename_i hr
      rw [if_pos hr]
      dsimp only at hrun ⊢
      simp only [Option.map_eq_some'] at hrun
      obtain ⟨c3, hloop, hc3⟩ := hrun
      rw [← skillLevelups_eq_passes D _ skill fuel _ c3 hloop, ← hc3]
      rfl
    · rename_i hr
      rw [if_neg hr, ← Option.some.inj hrun]
  rw [hc']
  exact hpass fuel s hs

/-- Witness of C11: 10 points of experience raise the first skill of the
sample state from level 0 to level 1 and leave the second skill at level 0. -/
theorem receiveExperience_levels_witness :
    (getAttribute (sampleCharacter 0 0) 22
        ≤ getAttribute (receiveExperiencePasses sampleDefines 1 (sampleCharacter 0 0) 22 10) 22) ∧
    getAttribute (receiveExperiencePasses sampleDefines 1 (sampleCharacter 0 0) 22 10) 23
      = getAttribute (sampleCharacter 0 0) 23 ∧
    getAttribute (receiveExperiencePasses sampleDefines 1 (sampleCharacter 0 0) 22 10) 22 = 1 :=
  have h := (receiveExperience_levels sampleDefines (sampleCharacter 0 0) 22 10 (by decide)).1
  ⟨(h 1 22 (by decide)).1, (h 1 23 (by decide)).2 (by decide), by decide⟩


/-! ## Levels: lemmas -/

/-- What `levelup` does, field by field. -/
theorem levelup_eq (D : Defines) (c : Character) :
    levelup D c = { c with
      mLevel := c.mLevel + 1,
      mCharacterPoints := c.mCharacterPoints + D.CHARPOINTS_PER_LEVELUP,
      mCorrectionPoints :=
        min (c.mCorrectionPoints + D.CORRECTIONPOINTS_PER_LEVELUP) D.CORRECTIONPOINTS_MAX } := by
  unfold levelup
  dsimp only
  split
  · rename_i h
    rw [min_eq_right (le_of_lt h)]
  · rename_i h
    rw [min_eq_left (not_lt.mp h)]

/-- After `n` level-ups in a row. -/
theorem levelup_iterate (D : Defines) (n : Nat) (c : Character) :
    ((levelup D)^[n] c).mLevel = c.mLevel + n ∧
    ((levelup D)^[n] c).mCharacterPoints = c.mCharacterPoints + D.CHARPOINTS_PER_LEVELUP * n ∧
    ((levelup D)^[n] c).mAttributes = c.mAttributes ∧
    ((levelup D)^[n] c).mExperience = c.mExperience ∧
    ((levelup D)^[n] c).mLevelProgress = c.mLevelProgress ∧
    ((levelup D)^[n] c).mUpdateLevelProgress = c.mUpdateLevelProgress ∧
    ((levelup D)^[n] c).mRecalculateLevel = c.mRecalculateLevel := by
  induction n generalizing c with
  | zero => simp
  | succ k ih =>
    rw [Function.iterate_succ_apply]
    obtain ⟨h1, h2, h3, h4, h5, h6, h7⟩ := ih (levelup D c)
    rw [h1, h2, h3, h4, h5, h6, h7, levelup_eq]
    refine ⟨?_, ?_, rfl, rfl, rfl, rfl, rfl⟩
    · push_cast; ring
    · push_cast; ring

/-- The loop `while (mLevel < level) levelup();` performs exactly
`max(0, ceil(level) - mLevel)` level-ups. -/
theorem levelupWhile_eq_iterate (D : Defines) (T : ℚ) :
    ∀ (n : Nat) (c : Character), (⌈T⌉ - c.mLevel).toNat = n →
      levelupWhile D T c = (levelup D)^[n] c := by
  intro n
  induction n with
  | zero =>
    intro c h
    have h1 : ⌈T⌉ ≤ c.mLevel := by omega
    have h2 : ¬ ((c.mLevel : ℚ) < T) := by
      rw [← Int.lt_ceil]
      omega
    rw [levelupWhile, if_neg h2]
    rfl
  | succ k ih =>
    intro c h
    have h1 : c.mLevel < ⌈T⌉ := by omega
    have h2 : (c.mLevel : ℚ) < T := Int.lt_ceil.mp h1
    have h3 : (levelup D c).mLevel = c.mLevel + 1 := by rw [levelup_eq]
    rw [levelupWhile, if_pos h2, Function.iterate_succ_apply]
    apply ih
    rw [h3]
    omega

/-- The value stored as level-progress: the fraction of `level` in percent. -/
theorem floatToInt_progress (D : Defines) (T : ℚ) :
    floatToInt D ((T - (⌊T⌋ : ℚ)) * 100) = ⌊(T - (⌊T⌋ : ℚ)) * 100⌋ ∧
    0 ≤ ⌊(T - (⌊T⌋ : ℚ)) * 100⌋ ∧ ⌊(T - (⌊T⌋ : ℚ)) * 100⌋ ≤ 99 := by
  have h0 : (0 : ℚ) ≤ T - (⌊T⌋ : ℚ) := sub_nonneg.mpr (Int.floor_le T)
  have h1 : T - (⌊T⌋ : ℚ) < 1 := by
    have := Int.lt_floor_add_one T
    linarith
  have hq0 : (0 : ℚ) ≤ (T - (⌊T⌋ : ℚ)) * 100 := by positivity
  have hlo : 0 ≤ ⌊(T - (⌊T⌋ : ℚ)) * 100⌋ := Int.floor_nonneg.mpr hq0
  have hhi : ⌊(T - (⌊T⌋ : ℚ)) * 100⌋ ≤ 99 := by
    have : ⌊(T - (⌊T⌋ : ℚ)) * 100⌋ < 100 := by
      rw [Int.floor_lt]
      push_cast
      linarith
    omega
  refine ⟨?_, hlo, hhi⟩
  unfold floatToInt doubleToInt
  rw [if_pos hq0, if_pos ⟨by unfold INT_MIN; omega, by unfold INT_MAX; omega⟩]

/-- The state `recalculateLevel` returns, in terms of the number of level-ups
and the new level-progress. -/
theorem recalculateLevel_eq (D : Defines) (c : Character) :
    recalculateLevel D c =
      { (levelup D)^[(⌈aggregateLevel D c⌉ - c.mLevel).toNat] c with
        mLevelProgress := ⌊(aggregateLevel D c - (⌊aggregateLevel D c⌋ : ℚ)) * 100⌋,
        mUpdateLevelProgress := c.mUpdateLevelProgress ||
          decide (⌊(aggregateLevel D c - (⌊aggregateLevel D c⌋ : ℚ)) * 100⌋ ≠ c.mLevelProgress) } := by
  unfold recalculateLevel
  dsimp only
  rw [levelupWhile_eq_iterate D _ _ c rfl, (floatToInt_progress D _).1]
  obtain ⟨_, _, _, _, h5, h6, _⟩ :=
    levelup_iterate D (⌈aggregateLevel D c⌉ - c.mLevel).toNat c
  rw [h5]
  split
  · rename_i h
    rw [decide_eq_true h, Bool.or_true]
  · rename_i h
    have h' : ⌊(aggregateLevel D c - (⌊aggregateLevel D c⌋ : ℚ)) * 100⌋ = c.mLevelProgress :=
      not_not.mp h
    rw [decide_eq_false h, Bool.or_false, ← h6, h', ← h5]


/-- Fields of the state `recalculateLevel` returns. -/
theorem recalculateLevel_fields (D : Defines) (c : Character) :
    (recalculateLevel D c).mLevel = c.mLevel + ((⌈aggregateLevel D c⌉ - c.mLevel).toNat : Int) ∧
    (recalculateLevel D c).mCharacterPoints = c.mCharacterPoints
      + D.CHARPOINTS_PER_LEVELUP * ((⌈aggregateLevel D c⌉ - c.mLevel).toNat : Int) ∧
    (recalculateLevel D c).mAttributes = c.mAttributes ∧
    (recalculateLevel D c).mExperience = c.mExperience ∧
    (recalculateLevel D c).mLevelProgress
      = ⌊(aggregateLevel D c - (⌊aggregateLevel D c⌋ : ℚ)) * 100⌋ ∧
    (recalculateLevel D c).mRecalculateLevel = c.mRecalculateLevel := by
  obtain ⟨h1, h2, h3, h4, _, _, h7⟩ :=
    levelup_iterate D (⌈aggregateLevel D c⌉ - c.mLevel).toNat c
  rw [recalculateLevel_eq]
  exact ⟨h1, h2, h3, h4, rfl, h7⟩

/-! ## Levels: theorems -/

/-- The second loop of `recalculateLevel`, started with the weight `f ^ i`. -/
theorem foldl_weightStep (f : ℚ) (xs : List ℚ) :
    ∀ (i : Nat) (L S : ℚ),
      xs.foldl (weightStep f) { level := L, factor := f ^ i, factorSum := S }
        = { level := L + precedenceWeightedSum f i xs, factor := f ^ (i + xs.length),
            factorSum := S + precedenceWeightSum f i xs } := by
  induction xs with
  | nil => intro i L S; simp [precedenceWeightedSum, precedenceWeightSum]
  | cons x t ih =>
    intro i L S
    rw [List.foldl_cons]
    have hstep : weightStep f { level := L, factor := f ^ i, factorSum := S } x
        = { level := L + x * f ^ i, factor := f ^ (i + 1), factorSum := S + f ^ i } := by
      unfold weightStep
      rw [pow_succ]
    rw [hstep, ih (i + 1)]
    simp only [precedenceWeightedSum, precedenceWeightSum, List.length_cons]
    congr 1
    · ring
    · ring_nf
    · ring

/-- Sorting ascending and walking backwards is sorting descending. -/
theorem reverse_insertionSort (l : List ℚ) :
    (l.insertionSort (· ≤ ·)).reverse = l.insertionSort (· ≥ ·) := by
  apply List.eq_of_perm_of_sorted (r := (· ≥ ·))
  · exact (List.reverse_perm _).trans
      ((List.perm_insertionSort _ l).trans (List.perm_insertionSort _ l).symm)
  · have h := List.sorted_insertionSort (· ≤ ·) l
    exact List.pairwise_reverse.mpr h
  · exact List.sorted_insertionSort (· ≥ ·) l

/-- The variable `level` of `recalculateLevel` is the precedence-weighted
average of the specification plus 1. -/
theorem aggregateLevel_eq_average (D : Defines) (c : Character) :
    aggregateLevel D c = precedenceAverage D c + 1 := by
  unfold aggregateLevel precedenceAverage
  dsimp only
  rw [reverse_insertionSort]
  have h := foldl_weightStep D.LEVEL_SKILL_PRECEDENCE_FACTOR
    ((skillLevels D c).insertionSort (· ≥ ·)) 0 0 0
  rw [pow_zero] at h
  rw [h]
  simp


/-! ## Levels: the aggregate level -/

/-- The single fractional level of the novice: 0 + 5/10. -/
theorem skillLevels_sampleNovice : skillLevels oneSkillDefines sampleNovice = [1 / 2] := by
  have a0 : getAttribute sampleNovice 22 = 0 := by decide
  have g0 : getExpGot oneSkillDefines sampleNovice 0 = 5 := by decide
  have n0 : getExpNeeded oneSkillDefines sampleNovice 0 = 10 := by decide
  have hb : oneSkillDefines.CHAR_SKILL_BEGIN = 22 := rfl
  have he : oneSkillDefines.CHAR_SKILL_END = 23 := rfl
  unfold skillLevels
  rw [hb, he]
  simp only [List.range', List.map, Nat.reduceSub, a0, g0, n0]
  norm_num

theorem precedenceAverage_sampleNovice : precedenceAverage oneSkillDefines sampleNovice = 1 / 2 := by
  unfold precedenceAverage
  rw [skillLevels_sampleNovice]
  simp [List.insertionSort, precedenceWeightedSum, precedenceWeightSum]

/-! ## Levels: the worked example -/

/-- The three fractional levels of the example character. -/
theorem skillLevels_exampleCharacter :
    skillLevels exampleDefines exampleCharacter = [51 / 5, 17 / 2, 5] := by
  have a0 : getAttribute exampleCharacter 22 = 10 := by decide
  have a1 : getAttribute exampleCharacter 23 = 8 := by decide
  have a2 : getAttribute exampleCharacter 24 = 5 := by decide
  have g0 : getExpGot exampleDefines exampleCharacter 0 = 662 := by decide
  have g1 : getExpGot exampleDefines exampleCharacter 1 = 1085 := by decide
  have g2 : getExpGot exampleDefines exampleCharacter 2 = 0 := by decide
  have n0 : getExpNeeded exampleDefines exampleCharacter 0 = 3310 := by decide
  have n1 : getExpNeeded exampleDefines exampleCharacter 1 = 2170 := by decide
  have n2 : getExpNeeded exampleDefines exampleCharacter 2 = 910 := by decide
  have hb : exampleDefines.CHAR_SKILL_BEGIN = 22 := rfl
  have he : exampleDefines.CHAR_SKILL_END = 25 := rfl
  unfold skillLevels
  rw [hb, he]
  simp only [List.range', List.map, Nat.reduceSub, Nat.reduceAdd, a0, a1, a2, g0, g1, g2,
    n0, n1, n2]
  norm_num

/-- The fractional levels 10.2, 8.5 and 5.0, in whatever order the skills have
them, are walked as 10.2, 8.5, 5.0. -/
theorem insertionSort_example (l : List ℚ) (h : l.Perm [51 / 5, 17 / 2, 5]) :
    l.insertionSort (· ≤ ·) = [5, 17 / 2, 51 / 5] := by
  have hr : List.Perm [(51 : ℚ) / 5, 17 / 2, 5] [5, 17 / 2, (51 : ℚ) / 5] :=
    List.reverse_perm [5, 17 / 2, 51 / 5]
  apply List.eq_of_perm_of_sorted ((List.perm_insertionSort _ l).trans (h.trans hr))
    (List.sorted_insertionSort _ l)
  simp [List.Sorted]
  norm_num

/-- The variable `level` of `recalculateLevel` for the fractional levels 10.2,
8.5 and 5.0 and the precedence factor 0.6: 953/98, about 9.72. -/
theorem aggregateLevel_example (D : Defines) (c : Character)
    (hs : (skillLevels D c).Perm [51 / 5, 17 / 2, 5])
    (hf : D.LEVEL_SKILL_PRECEDENCE_FACTOR = 3 / 5) :
    aggregateLevel D c = 953 / 98 := by
  unfold aggregateLevel
  rw [insertionSort_example _ hs, hf]
  simp only [List.reverse_cons, List.reverse_nil, List.nil_append, List.cons_append, List.foldl,
    weightStep]
  norm_num

theorem ceil_example : ⌈(953 : ℚ) / 98⌉ = 10 := by
  rw [Int.ceil_eq_iff]
  norm_num

theorem progress_example : ⌊((953 : ℚ) / 98 - (⌊(953 : ℚ) / 98⌋ : ℚ)) * 100⌋ = 72 := by
  have h : ⌊(953 : ℚ) / 98⌋ = 9 := by
    rw [Int.floor_eq_iff]
    norm_num
  rw [h, Int.floor_eq_iff]
  norm_num

/-- C14, as stated, fails: for the example character (fractional levels 10.2,
8.5 and 5.0, precedence factor 0.6, level 1) the aggregate level is
1 + 17.1/1.96 = 953/98, about 9.72 and not 10.04, and `recalculateLevel()`
leaves a level-progress of 72, not 4; the level is 10. -/
theorem recalculateLevel_example_counterexample :
    skillLevels exampleDefines exampleCharacter = [51 / 5, 17 / 2, 5] ∧
    exampleDefines.LEVEL_SKILL_PRECEDENCE_FACTOR = 3 / 5 ∧
    exampleCharacter.mLevel = 1 ∧
    aggregateLevel exampleDefines exampleCharacter = 953 / 98 ∧
    (recalculateLevel exampleDefines exampleCharacter).mLevelProgress = 72 ∧
    (recalculateLevel exampleDefines exampleCharacter).mLevelProgress ≠ 4 := by
  have hs := skillLevels_exampleCharacter
  have hT := aggregateLevel_example exampleDefines exampleCharacter (by rw [hs]) rfl
  have hp : (recalculateLevel exampleDefines exampleCharacter).mLevelProgress = 72 := by
    rw [(recalculateLevel_fields exampleDefines exampleCharacter).2.2.2.2.1, hT]
    exact progress_example
  refine ⟨hs, rfl, rfl, hT, hp, ?_⟩
  rw [hp]
  decide

/-- C14 (amended): for a character with exactly three skills whose fractional
levels are 10.2, 8.5 and 5.0, a precedence factor of 0.6 and a level of 1 before
the call, `recalculateLevel()` in exact rational arithmetic yields the
aggregate level 1 + (10.2*1 + 8.5*0.6 + 5.0*0.36)/(1 + 0.6 + 0.36) = 953/98
(about 9.72), a character level of 10 and a level-progress of 72. -/
theorem recalculateLevel_example (D : Defines) (c : Character)
    (hs : (skillLevels D c).Perm [51 / 5, 17 / 2, 5])
    (hf : D.LEVEL_SKILL_PRECEDENCE_FACTOR = 3 / 5) (hl : c.mLevel = 1) :
    aggregateLevel D c
      = 1 + (51 / 5 * 1 + 17 / 2 * (3 / 5) + 5 * (9 / 25)) / (1 + 3 / 5 + 9 / 25) ∧
    aggregateLevel D c = 953 / 98 ∧
    (recalculateLevel D c).mLevel = 10 ∧
    (recalculateLevel D c).mLevelProgress = 72 := by
  have hT := aggregateLevel_example D c hs hf
  obtain ⟨h1, _, _, _, h5, _⟩ := recalculateLevel_fields D c
  refine ⟨?_, hT, ?_, ?_⟩
  · rw [hT]
    norm_num
  · rw [h1, hT, ceil_example, hl]
    decide
  · rw [h5, hT]
    exact progress_example

/-- Witness of C14 (amended): the example character. -/
theorem recalculateLevel_example_witness :
    (recalculateLevel exampleDefines exampleCharacter).mLevel = 10 ∧
    (recalculateLevel exampleDefines exampleCharacter).mLevelProgress = 72 :=
  have h := recalculateLevel_example exampleDefines exampleCharacter
    (by rw [skillLevels_exampleCharacter]) rfl rfl
  ⟨h.2.2.1, h.2.2.2⟩


/-! ## Health pool under level-ups -/

/-- C19 fails after `levelup()`: in the sample state recomputed at level 1 the
health pool is 110 = (0 + 10) * (1 + 10); `levelup()` raises the level to 2 and
leaves the health pool at 110, while (Vitality + 10) * (level + 10) is now 120.
In general `levelup()` breaks the equation in every state in which it holds,
unless Vitality + 10 is 0. -/
theorem levelup_leaves_health_stale :
    (getAttribute sampleRecomputed sampleDefines.BASE_ATTR_HP
      = (getModifiedAttribute sampleRecomputed sampleDefines.CHAR_ATTR_VITALITY + 10)
        * (sampleRecomputed.mLevel + 10) ∧
    getAttribute (levelup sampleDefines sampleRecomputed) sampleDefines.BASE_ATTR_HP = 110 ∧
    (getModifiedAttribute (levelup sampleDefines sampleRecomputed)
        sampleDefines.CHAR_ATTR_VITALITY + 10)
      * ((levelup sampleDefines sampleRecomputed).mLevel + 10) = 120) ∧
    (∀ (D : Defines) (c : Character),
      getAttribute c D.BASE_ATTR_HP
        = (getModifiedAttribute c D.CHAR_ATTR_VITALITY + 10) * (c.mLevel + 10) →
      getModifiedAttribute c D.CHAR_ATTR_VITALITY + 10 ≠ 0 →
      getAttribute (levelup D c) D.BASE_ATTR_HP
        ≠ (getModifiedAttribute (levelup D c) D.CHAR_ATTR_VITALITY + 10)
          * ((levelup D c).mLevel + 10)) := by
  refine ⟨by decide, ?_⟩
  intro D c h hv
  rw [levelup_eq]
  show getAttribute c D.BASE_ATTR_HP
    ≠ (getModifiedAttribute c D.CHAR_ATTR_VITALITY + 10) * (c.mLevel + 1 + 10)
  rw [h]
  intro heq
  apply hv
  linarith

/-! ## Status messages: theorems -/

theorem foldl_writeAttribute (c : Character) (l : List Nat) :
    ∀ m : MessageOut, l.foldl (writeAttribute c) m
      = { id := m.id, fields := m.fields ++ attributeEntries c l } := by
  induction l with
  | nil => intro m; simp [attributeEntries]
  | cons i t ih =>
    intro m
    rw [List.foldl_cons, ih]
    simp [writeAttribute, MessageOut.write, attributeEntries]

theorem foldl_writeExperience (D : Defines) (c : Character) (l : List Nat) :
    ∀ m : MessageOut, l.foldl (writeExperience D c) m
      = { id := m.id, fields := m.fields ++ experienceEntries D c l } := by
  induction l with
  | nil => intro m; simp [experienceEntries]
  | cons i t ih =>
    intro m
    rw [List.foldl_cons, ih]
    simp [writeExperience, MessageOut.write, experienceEntries]

theorem attributeEntries_length (c : Character) (l : List Nat) :
    ((attributeEntries c l).map Field.size).sum = 5 * l.length := by
  induction l with
  | nil => rfl
  | cons i t ih =>
    simp only [attributeEntries, List.map_cons, List.sum_cons, ih, Field.size, List.length_cons]
    omega

theorem experienceEntries_length (D : Defines) (c : Character) (l : List Nat) :
    ((experienceEntries D c l).map Field.size).sum = 9 * l.length := by
  induction l with
  | nil => rfl
  | cons i t ih =>
    simp only [experienceEntries, List.map_cons, List.sum_cons, ih, Field.size, List.length_cons]
    omega

theorem sort_eq_nil_iff (s : Finset Nat) : Finset.sort (· ≤ ·) s = [] ↔ s = ∅ := by
  constructor
  · intro h
    ext x
    rw [← Finset.mem_sort (· ≤ ·), h]
    simp
  · intro h
    rw [h, Finset.sort_empty]

/-- The messages `sendStatus` sends and the state it leaves. -/
theorem sendStatus_eq (D : Defines) (c : Character) :
    sendStatus D c =
      ((if c.mModifiedAttributes = ∅ then [] else
          [{ id := .GPMSG_PLAYER_ATTRIBUTE_CHANGE,
             fields := attributeEntries c (c.mModifiedAttributes.sort (· ≤ ·)) }])
        ++ (if c.mModifiedExperience = ∅ then [] else
          [{ id := .GPMSG_PLAYER_EXP_CHANGE,
             fields := experienceEntries D c (c.mModifiedExperience.sort (· ≤ ·)) }])
        ++ (if c.mUpdateLevelProgress then
          [{ id := .GPMSG_LEVEL_PROGRESS, fields := [.byte c.mLevelProgress] }] else []),
       { c with mModifiedAttributes := ∅, mModifiedExperience := ∅,
                mUpdateLevelProgress := false }) := by
  have hA : ((c.mModifiedAttributes.sort (· ≤ ·)).foldl (writeAttribute c)
      { id := .GPMSG_PLAYER_ATTRIBUTE_CHANGE, fields := [] }).getLength > 2
      ↔ ¬ c.mModifiedAttributes = ∅ := by
    rw [foldl_writeAttribute, ← sort_eq_nil_iff]
    unfold MessageOut.getLength
    simp only [List.nil_append, attributeEntries_length]
    cases Finset.sort (· ≤ ·) c.mModifiedAttributes with
    | nil => simp
    | cons a t => simp
  have hE : ((c.mModifiedExperience.sort (· ≤ ·)).foldl
      (writeExperience D { c with mModifiedAttributes := ∅ })
      { id := .GPMSG_PLAYER_EXP_CHANGE, fields := [] }).getLength > 2
      ↔ ¬ c.mModifiedExperience = ∅ := by
    rw [foldl_writeExperience, ← sort_eq_nil_iff]
    unfold MessageOut.getLength
    simp only [List.nil_append, experienceEntries_length]
    cases Finset.sort (· ≤ ·) c.mModifiedExperience with
    | nil => simp
    | cons a t => simp
  have hentries : ∀ l, experienceEntries D { c with mModifiedAttributes := ∅ } l
      = experienceEntries D c l := by
    intro l
    induction l with
    | nil => rfl
    | cons i t ih => simp only [experienceEntries, ih]; rfl
  unfold sendStatus
  dsimp only
  rw [foldl_writeAttribute, foldl_writeExperience, hentries]
  rw [foldl_writeAttribute] at hA
  rw [foldl_writeExperience, hentries] at hE
  clear hentries
  by_cases h1 : c.mModifiedAttributes = ∅ <;> by_cases h2 : c.mModifiedExperience = ∅ <;>
    by_cases h3 : c.mUpdateLevelProgress = true
  all_goals
    first
      | rw [if_pos (hE.mpr h2)]
      | rw [if_neg (fun hc => hE.mp hc h2)]
  all_goals
    first
      | rw [if_pos (hA.mpr h1)]
      | rw [if_neg (fun hc => hA.mp hc h1)]
  all_goals
    first
      | rw [if_pos h3, if_pos h3, if_pos h1, if_pos h2]
      | rw [if_pos h3, if_pos h3, if_pos h1, if_neg h2]
      | rw [if_pos h3, if_pos h3, if_neg h1, if_pos h2]
      | rw [if_pos h3, if_pos h3, if_neg h1, if_neg h2]
      | rw [if_neg h3, if_neg h3, if_pos h1, if_pos h2]
      | rw [if_neg h3, if_neg h3, if_pos h1, if_neg h2]
      | rw [if_neg h3, if_neg h3, if_neg h1, if_pos h2]
      | rw [if_neg h3, if_neg h3, if_neg h1, if_neg h2]
  all_goals
    first
      | rfl
      | (have hf : c.mUpdateLevelProgress = false := by simpa using h3
         clear hA hE h1 h2 h3
         cases c
         simp only at hf
         subst hf
         rfl)

/-- C21: `sendStatus()` sends, in this order, an attribute-change message when
the modified-attribute set is not empty, an experience-change message when the
modified-experience set is not empty, and a level-progress message when the
progress flag is up.  The attribute-change message lists the indices of the
set in ascending order, each exactly once, with the base and the modified value
of the attribute; the experience-change message lists the indices of its set
likewise with the experience got and needed.  Afterwards both sets are empty
and the flag is down, so that a second `sendStatus()` right after sends no
message and changes nothing. -/
theorem sendStatus_drains (D : Defines) (c : Character) :
    (sendStatus D c).1 =
      (if c.mModifiedAttributes = ∅ then [] else
          [{ id := .GPMSG_PLAYER_ATTRIBUTE_CHANGE,
             fields := attributeEntries c (c.mModifiedAttributes.sort (· ≤ ·)) }])
        ++ (if c.mModifiedExperience = ∅ then [] else
          [{ id := .GPMSG_PLAYER_EXP_CHANGE,
             fields := experienceEntries D c (c.mModifiedExperience.sort (· ≤ ·)) }])
        ++ (if c.mUpdateLevelProgress then
          [{ id := .GPMSG_LEVEL_PROGRESS, fields := [.byte c.mLevelProgress] }] else []) ∧
    (c.mModifiedAttributes.sort (· ≤ ·)).Nodup ∧
    (∀ i, i ∈ c.mModifiedAttributes.sort (· ≤ ·) ↔ i ∈ c.mModifiedAttributes) ∧
    (c.mModifiedExperience.sort (· ≤ ·)).Nodup ∧
    (∀ i, i ∈ c.mModifiedExperience.sort (· ≤ ·) ↔ i ∈ c.mModifiedExperience) ∧
    (sendStatus D c).2.mModifiedAttributes = ∅ ∧
    (sendStatus D c).2.mModifiedExperience = ∅ ∧
    (sendStatus D c).2.mUpdateLevelProgress = false ∧
    sendStatus D (sendStatus D c).2 = ([], (sendStatus D c).2) := by
  have h := sendStatus_eq D c
  refine ⟨by rw [h], Finset.sort_nodup _ _, fun i => Finset.mem_sort _,
    Finset.sort_nodup _ _, fun i => Finset.mem_sort _, by rw [h], by rw [h], by rw [h], ?_⟩
  rw [h]
  rw [sendStatus_eq]
  simp


/-! ## Storage gateway: round trip -/

/-- C22: a character stored with `updateCharacter`, when the store reports
success, and loaded again with `getCharacter` by its id, with or without an
owner, comes back with the base attributes, the experience per skill, the
character points and the correction points it was stored with; a store that
reports failure leaves the state of the gateway as it was, and the store
succeeds exactly when the backend executes the queries and the character has a
row. -/
theorem updateCharacter_getCharacter (db : DALStorage) (c : CharacterData)
    (startTransaction backendOk : Bool) (owner : Option Int) :
    ((db.updateCharacter c startTransaction backendOk).1 = true →
      ∃ c', (db.updateCharacter c startTransaction backendOk).2.getCharacter c.databaseID owner
          = some c' ∧
        c'.baseAttributes = c.baseAttributes ∧ c'.experience = c.experience ∧
        c'.characterPoints = c.characterPoints ∧ c'.correctionPoints = c.correctionPoints) ∧
    ((db.updateCharacter c startTransaction backendOk).1 = false →
      (db.updateCharacter c startTransaction backendOk).2 = db) ∧
    ((db.updateCharacter c startTransaction backendOk).1 = true ↔
      backendOk = true ∧ (db.characters c.databaseID).isSome = true) := by
  unfold DALStorage.updateCharacter
  cases backendOk with
  | false => simp
  | true =>
    rw [if_pos rfl]
    cases hrow : db.characters c.databaseID with
    | none => simp
    | some row =>
      cases startTransaction with
      | false =>
        simp only [Bool.false_eq_true, if_false, true_and, Option.isSome_some, forall_const,
          iff_true, and_true, false_implies, and_self]
        cases owner <;> simp [DALStorage.getCharacter]
      | true =>
        simp only [if_true, true_and, Option.isSome_some, forall_const,
          iff_true, and_true, Bool.true_eq_false, false_implies, and_self]
        cases owner <;> simp [DALStorage.getCharacter]

/-- Witness of C22: the played character 7 is stored over its row and loaded
again into account 3. -/
theorem updateCharacter_getCharacter_witness :
    ∃ c', (sampleStorage.updateCharacter samplePlayedCharacter true true).2.getCharacter
          samplePlayedCharacter.databaseID (some 3) = some c' ∧
      c'.baseAttributes = samplePlayedCharacter.baseAttributes ∧
      c'.experience = samplePlayedCharacter.experience ∧
      c'.characterPoints = samplePlayedCharacter.characterPoints ∧
      c'.correctionPoints = samplePlayedCharacter.correctionPoints :=
  (updateCharacter_getCharacter sampleStorage samplePlayedCharacter true true (some 3)).1
    (by decide)


/-! ## The level-up loop at high experience -/

theorem skillLevelupPasses_mExperience (D : Defines) (x : Int) (skill : Nat) :
    ∀ (m : Nat) (c : Character),
      (skillLevelupPasses D x skill m c).mExperience = c.mExperience := by
  intro m
  induction m with
  | zero => intro c; rfl
  | succ k ih =>
    intro c
    unfold skillLevelupPasses
    split
    · rw [ih, modifiedAttribute_mExperience]
      rfl
    · rfl

/-- When no threshold exceeds `newExp`, every pass of the loop is taken: after
`m` passes the level of the skill has risen by `m`. -/
theorem skillLevelupPasses_unbounded (D : Defines) (x : Int) (skill : Nat)
    (hs : D.BASE_ATTR_END ≤ skill) (hx : ∀ level : Int, expForLevel D level ≤ x) :
    ∀ (m : Nat) (c : Character),
      getAttribute (skillLevelupPasses D x skill m c) skill = getAttribute c skill + (m : Int) := by
  intro m
  induction m with
  | zero => intro c; simp [skillLevelupPasses]
  | succ k ih =>
    intro c
    unfold skillLevelupPasses
    rw [if_pos (hx _), ih, levelup_pass_attributes D c skill hs skill hs, if_pos rfl]
    push_cast
    ring

/-- When no threshold exceeds `newExp`, the loop does not end. -/
theorem skillLevelups_unbounded (D : Defines) (x : Int) (skill : Nat)
    (hx : ∀ level : Int, expForLevel D level ≤ x) :
    ∀ (fuel : Nat) (c : Character), skillLevelups D x skill fuel c = none := by
  intro fuel
  induction fuel with
  | zero =>
    intro c
    unfold skillLevelups
    rw [if_pos (hx _)]
  | succ f ih =>
    intro c
    unfold skillLevelups
    rw [if_pos (hx _)]
    exact ih _

/-- A call whose `newExp` no threshold exceeds never returns. -/
theorem receiveExperience_of_unbounded (D : Defines) (c : Character) (skill : Nat) (n : Int)
    (hs : D.CHAR_SKILL_BEGIN ≤ skill ∧ skill < D.CHAR_SKILL_END)
    (hx : ∀ level : Int, expForLevel D level
      ≤ clampExperience (sumExperience D (c.mExperience (skill - D.CHAR_SKILL_BEGIN)) n)) :
    ∀ fuel, receiveExperience D fuel c skill n = none := by
  intro fuel
  unfold receiveExperience
  rw [if_pos hs]
  dsimp only
  rw [skillLevelups_unbounded D _ skill hx]
  rfl

/-- On the cubic curve of factor 10, with the out-of-range conversion of x86,
no threshold exceeds 2138471920, the threshold of level 598. -/
theorem expForLevel_sample_le (level : Int) : expForLevel sampleDefines level ≤ 2138471920 := by
  unfold expForLevel doubleToInt
  have hE : sampleDefines.EXPCURVE_EXPONENT = 3 := rfl
  have hF : ((sampleDefines.EXPCURVE_FACTOR : Nat) : Int) = 10 := rfl
  rw [hE, hF]
  split
  · rename_i h
    unfold INT_MAX at h
    by_contra hgt
    have h599 : 599 ≤ level := by
      by_contra hlt
      have hle : level ≤ 598 := by omega
      rcases le_total level 0 with hneg | hpos
      · have : level ^ 3 ≤ 0 := Odd.pow_nonpos (by decide) hneg
        omega
      · have : level ^ 3 ≤ 598 ^ 3 := pow_le_pow_left₀ hpos hle 3
        norm_num at this
        omega
    have : (599 : Int) ^ 3 ≤ level ^ 3 := pow_le_pow_left₀ (by norm_num) h599 3
    norm_num at this
    omega
  · have hout : sampleDefines.f2iOut (level ^ 3 * 10) = INT_MIN := rfl
    have hwrap : wrapSigned 32 INT_MIN = INT_MIN := by decide
    rw [hout, hwrap]
    decide

/-- C23 fails: with `INT_MAX` stored for the first skill of the sample state and
an amount of 0, `newExp` is `INT_MAX`, the condition `newExp >= expForLevel(..)`
holds for every `int`, no number of passes ends the loop and after `m` passes
the level of the skill is `m`; this is so for all declarations.  On the sample
curve, where the conversion of a threshold beyond `INT_MAX` yields `INT_MIN`,
the loop does not end from 2138471920 points on either. -/
theorem skillLevelups_never_end :
    (∀ fuel, receiveExperience sampleDefines fuel sampleSaturated 22 0 = none) ∧
    (∀ m : Nat, getAttribute (receiveExperiencePasses sampleDefines m sampleSaturated 22 0) 22
      = (m : Int)) ∧
    (∀ (D : Defines) (c : Character) (skill : Nat),
      D.CHAR_SKILL_BEGIN ≤ skill ∧ skill < D.CHAR_SKILL_END →
      c.mExperience (skill - D.CHAR_SKILL_BEGIN) = INT_MAX →
      ∀ fuel, receiveExperience D fuel c skill 0 = none) ∧
    (∀ fuel, receiveExperience sampleDefines fuel sampleHighExperience 22 0 = none) := by
  have hgen : ∀ (D : Defines) (c : Character) (skill : Nat),
      D.CHAR_SKILL_BEGIN ≤ skill ∧ skill < D.CHAR_SKILL_END →
      c.mExperience (skill - D.CHAR_SKILL_BEGIN) = INT_MAX →
      ∀ fuel, receiveExperience D fuel c skill 0 = none := by
    intro D c skill hs he
    apply receiveExperience_of_unbounded D c skill 0 hs
    intro level
    rw [he, clamp_sum_of_range D INT_MAX 0 (by decide) (by decide)]
    exact (expForLevel_range D level).2
  refine ⟨hgen sampleDefines sampleSaturated 22 (by decide) rfl, ?_, hgen, ?_⟩
  · intro m
    have hx : clampExperience (sumExperience sampleDefines
        (sampleSaturated.mExperience (22 - sampleDefines.CHAR_SKILL_BEGIN)) 0) = INT_MAX := by
      decide
    unfold receiveExperiencePasses
    rw [if_pos (by decide)]
    dsimp only
    rw [hx, skillLevelupPasses_unbounded sampleDefines INT_MAX 22 (by decide)
      (fun level => (expForLevel_range sampleDefines level).2)]
    show getAttribute (sampleCharacter 0 0) 22 + (m : Int) = m
    have : getAttribute (sampleCharacter 0 0) 22 = 0 := rfl
    rw [this, zero_add]
  · apply receiveExperience_of_unbounded sampleDefines sampleHighExperience 22 0 (by decide)
    intro level
    have hx : clampExperience (sumExperience sampleDefines
        (sampleHighExperience.mExperience (22 - sampleDefines.CHAR_SKILL_BEGIN)) 0)
        = 2138471920 := by
      decide
    rw [hx]
    exact expForLevel_sample_le level


/-! ## Experience between the thresholds of the level -/

/-- When the loop ends, `newExp` lies below the threshold of the next level,
and at or above the threshold of the level if it did so when the loop began. -/
theorem skillLevelups_bracket (D : Defines) (x : Int) (skill : Nat)
    (hs : D.BASE_ATTR_END ≤ skill) :
    ∀ (fuel : Nat) (c c' : Character), skillLevelups D x skill fuel c = some c' →
      expForLevel D (getAttribute c skill) ≤ x →
      expForLevel D (getAttribute c' skill) ≤ x ∧ x < expForLevel D (getAttribute c' skill + 1) := by
  intro fuel
  induction fuel with
  | zero =>
    intro c c' h hb
    unfold skillLevelups at h
    split at h
    · exact absurd h (by simp)
    · rename_i hc
      rw [← Option.some.inj h]
      exact ⟨hb, not_le.mp hc⟩
  | succ f ih =>
    intro c c' h hb
    unfold skillLevelups at h
    split at h
    · rename_i hc
      apply ih _ _ h
      rw [levelup_pass_attributes D c skill hs skill hs, if_pos rfl]
      exact hc
    · rename_i hc
      rw [← Option.some.inj h]
      exact ⟨hb, not_le.mp hc⟩

/-- The loop ends within `k` passes when the threshold `k` levels above the
current one exceeds `newExp`; for skills laid out after the derived attributes. -/
theorem skillLevelups_terminates_of_ge (D : Defines) (x : Int) (skill : Nat)
    (hs : D.BASE_ATTR_END ≤ skill) :
    ∀ (fuel k : Nat) (c : Character), k ≤ fuel →
      x < expForLevel D (getAttribute c skill + (k : Int) + 1) →
      ∃ c', skillLevelups D x skill fuel c = some c' := by
  intro fuel
  induction fuel with
  | zero =>
    intro k c hk hx
    have hk0 : k = 0 := by omega
    subst hk0
    unfold skillLevelups
    rw [if_neg (by simp only [Nat.cast_zero, add_zero] at hx; omega)]
    exact ⟨c, rfl⟩
  | succ f ih =>
    intro k c hk hx
    unfold skillLevelups
    by_cases hcond : x ≥ expForLevel D (getAttribute c skill + 1)
    · rw [if_pos hcond]
      cases k with
      | zero =>
        simp only [Nat.cast_zero, add_zero] at hx
        omega
      | succ k1 =>
        apply ih k1 _ (by omega)
        rw [levelup_pass_attributes D c skill hs skill hs, if_pos rfl]
        have : getAttribute c skill + 1 + (k1 : Int) + 1
            = getAttribute c skill + ((k1 + 1 : Nat) : Int) + 1 := by
          push_cast; ring
        rw [this]
        exact hx
    · rw [if_neg hcond]
      exact ⟨c, rfl⟩

/-- What holds of C24: for a skill in `[CHAR_SKILL_BEGIN, CHAR_SKILL_END)` laid
out after the derived attributes, with stored experience `e >= 0` at or above
the threshold of the skill's level, and an amount `n >= 0` with
`e + n <= INT_MAX`, when the threshold of some level above exceeds `e + n` the
call returns with `expForLevel(L') <= e' < expForLevel(L' + 1)`; if moreover the
threshold of `L'` is not negative, then `0 <= getExpGot < getExpNeeded` and the
fractional level lies in `[L', L' + 1)`. -/
theorem receiveExperience_bracket (D : Defines) (c : Character) (skill : Nat) (n : Int)
    (k fuel : Nat)
    (hL : D.BASE_ATTR_END ≤ D.CHAR_SKILL_BEGIN)
    (hs : D.CHAR_SKILL_BEGIN ≤ skill ∧ skill < D.CHAR_SKILL_END)
    (he0 : 0 ≤ c.mExperience (skill - D.CHAR_SKILL_BEGIN))
    (hb : expForLevel D (getAttribute c skill) ≤ c.mExperience (skill - D.CHAR_SKILL_BEGIN))
    (hn : 0 ≤ n)
    (hmax : c.mExperience (skill - D.CHAR_SKILL_BEGIN) + n ≤ INT_MAX)
    (hk : c.mExperience (skill - D.CHAR_SKILL_BEGIN) + n
      < expForLevel D (getAttribute c skill + (k : Int) + 1))
    (hf : k ≤ fuel) :
    ∃ c', receiveExperience D fuel c skill n = some c' ∧
      expForLevel D (getAttribute c' skill) ≤ c'.mExperience (skill - D.CHAR_SKILL_BEGIN) ∧
      c'.mExperience (skill - D.CHAR_SKILL_BEGIN) < expForLevel D (getAttribute c' skill + 1) ∧
      (0 ≤ expForLevel D (getAttribute c' skill) →
        0 ≤ getExpGot D c' (skill - D.CHAR_SKILL_BEGIN) ∧
        getExpGot D c' (skill - D.CHAR_SKILL_BEGIN)
          < getExpNeeded D c' (skill - D.CHAR_SKILL_BEGIN) ∧
        getExpNeeded D c' (skill - D.CHAR_SKILL_BEGIN) ≠ 0 ∧
        (getAttribute c' skill : ℚ) ≤ (getAttribute c' skill : ℚ)
          + (getExpGot D c' (skill - D.CHAR_SKILL_BEGIN) : ℚ)
            / (getExpNeeded D c' (skill - D.CHAR_SKILL_BEGIN) : ℚ) ∧
        (getAttribute c' skill : ℚ)
          + (getExpGot D c' (skill - D.CHAR_SKILL_BEGIN) : ℚ)
            / (getExpNeeded D c' (skill - D.CHAR_SKILL_BEGIN) : ℚ)
          < (getAttribute c' skill : ℚ) + 1) := by
  have hge : D.BASE_ATTR_END ≤ skill := le_trans hL hs.1
  have h0 : 0 ≤ c.mExperience (skill - D.CHAR_SKILL_BEGIN) + n := by omega
  have hslot : skill - D.CHAR_SKILL_BEGIN + D.CHAR_SKILL_BEGIN = skill := Nat.sub_add_cancel hs.1
  unfold receiveExperience
  rw [if_pos hs]
  dsimp only
  rw [clamp_sum_of_range D _ _ h0 hmax, toExpElem_of_range D _ h0 hmax]
  obtain ⟨c3, hc3⟩ := skillLevelups_terminates_of_ge D
    (c.mExperience (skill - D.CHAR_SKILL_BEGIN) + n) skill hge fuel k
    { c with
      mExperience := Function.update c.mExperience (skill - D.CHAR_SKILL_BEGIN)
        (c.mExperience (skill - D.CHAR_SKILL_BEGIN) + n),
      mModifiedExperience := insert (skill - D.CHAR_SKILL_BEGIN) c.mModifiedExperience }
    hf hk
  have hexp := skillLevelups_mExperience _ _ _ _ _ _ hc3
  have hst : c3.mExperience (skill - D.CHAR_SKILL_BEGIN)
      = c.mExperience (skill - D.CHAR_SKILL_BEGIN) + n := by
    rw [hexp]
    simp
  obtain ⟨hlo, hhi⟩ := skillLevelups_bracket D _ skill hge fuel _ c3 hc3
    (show expForLevel D (getAttribute c skill) ≤ _ by omega)
  refine ⟨{ c3 with mRecalculateLevel := true }, ?_, ?_, ?_, ?_⟩
  · simp only [hc3, Option.map_some']
  · show expForLevel D (getAttribute c3 skill) ≤ c3.mExperience (skill - D.CHAR_SKILL_BEGIN)
    rw [hst]
    exact hlo
  · show c3.mExperience (skill - D.CHAR_SKILL_BEGIN) < expForLevel D (getAttribute c3 skill + 1)
    rw [hst]
    exact hhi
  · intro hx0
    have hx0' : 0 ≤ expForLevel D (getAttribute c3 skill) := hx0
    have hy := (expForLevel_range D (getAttribute c3 skill + 1)).2
    have hgot : getExpGot D { c3 with mRecalculateLevel := true } (skill - D.CHAR_SKILL_BEGIN)
        = c.mExperience (skill - D.CHAR_SKILL_BEGIN) + n
          - expForLevel D (getAttribute c3 skill) := by
      unfold getExpGot
      dsimp only
      rw [hslot]
      show wrapSigned 32 (c3.mExperience (skill - D.CHAR_SKILL_BEGIN)
        - expForLevel D (getAttribute c3 skill)) = _
      rw [hst]
      exact wrapSigned32_of_range _ (by unfold INT_MIN; omega) (by omega)
    have hneed : getExpNeeded D { c3 with mRecalculateLevel := true } (skill - D.CHAR_SKILL_BEGIN)
        = expForLevel D (getAttribute c3 skill + 1) - expForLevel D (getAttribute c3 skill) := by
      unfold getExpNeeded
      dsimp only
      rw [hslot]
      show wrapSigned 32 (expForLevel D (getAttribute c3 skill + 1)
        - expForLevel D (getAttribute c3 skill)) = _
      exact wrapSigned32_of_range _ (by unfold INT_MIN; omega) (by omega)
    rw [hgot, hneed]
    have g0 : 0 ≤ c.mExperience (skill - D.CHAR_SKILL_BEGIN) + n
        - expForLevel D (getAttribute c3 skill) := by omega
    have g1 : c.mExperience (skill - D.CHAR_SKILL_BEGIN) + n
        - expForLevel D (getAttribute c3 skill)
        < expForLevel D (getAttribute c3 skill + 1) - expForLevel D (getAttribute c3 skill) := by
      omega
    have q0 : (0 : ℚ) ≤ ((c.mExperience (skill - D.CHAR_SKILL_BEGIN) + n
        - expForLevel D (getAttribute c3 skill) : Int) : ℚ) := by exact_mod_cast g0
    have q1 : ((c.mExperience (skill - D.CHAR_SKILL_BEGIN) + n
        - expForLevel D (getAttribute c3 skill) : Int) : ℚ)
        < ((expForLevel D (getAttribute c3 skill + 1)
          - expForLevel D (getAttribute c3 skill) : Int) : ℚ) := by exact_mod_cast g1
    have qpos : (0 : ℚ) < ((expForLevel D (getAttribute c3 skill + 1)
          - expForLevel D (getAttribute c3 skill) : Int) : ℚ) := lt_of_le_of_lt q0 q1
    refine ⟨g0, g1, by omega, ?_, ?_⟩
    · exact le_add_of_nonneg_right (div_nonneg q0 (le_of_lt qpos))
    · exact add_lt_add_left ((div_lt_one qpos).mpr q1) _

/-- Witness of what holds of C24: 8 points stored and 20 received take the
first skill of the sample state from level 0 to level 1 (thresholds 10 and 80). -/
theorem receiveExperience_bracket_witness :
    ∃ c', receiveExperience sampleDefines 1 sampleVeteran 22 20 = some c' ∧
      expForLevel sampleDefines (getAttribute c' 22)
        ≤ c'.mExperience (22 - sampleDefines.CHAR_SKILL_BEGIN) ∧
      c'.mExperience (22 - sampleDefines.CHAR_SKILL_BEGIN)
        < expForLevel sampleDefines (getAttribute c' 22 + 1) :=
  match receiveExperience_bracket sampleDefines sampleVeteran 22 20 1 1
    (by decide) (by decide) (by decide) (by decide) (by decide) (by decide) (by decide)
    (by decide) with
  | ⟨c', h1, h2, h3, _⟩ => ⟨c', h1, h2, h3⟩

/-- C24 fails: with `INT_MAX - 1` stored for the first skill of the sample
state (level 0, threshold 0) and an amount of 1, the experience stored is
`INT_MAX`; the call never returns, and after any number of passes of the loop
the threshold of the next level is still not above the experience.  No run on
such an input returns, whatever the declarations. -/
theorem bracket_fails_at_saturation :
    expForLevel sampleDefines (getAttribute sampleAlmostSaturated 22)
      ≤ sampleAlmostSaturated.mExperience (22 - sampleDefines.CHAR_SKILL_BEGIN) ∧
    (∀ fuel, receiveExperience sampleDefines fuel sampleAlmostSaturated 22 1 = none) ∧
    (∀ m : Nat,
      (receiveExperiencePasses sampleDefines m sampleAlmostSaturated 22 1).mExperience
          (22 - sampleDefines.CHAR_SKILL_BEGIN) = INT_MAX ∧
      ¬ ((receiveExperiencePasses sampleDefines m sampleAlmostSaturated 22 1).mExperience
            (22 - sampleDefines.CHAR_SKILL_BEGIN)
          < expForLevel sampleDefines
            (getAttribute (receiveExperiencePasses sampleDefines m sampleAlmostSaturated 22 1) 22
              + 1))) ∧
    (∀ (D : Defines) (c : Character) (skill : Nat),
      D.CHAR_SKILL_BEGIN ≤ skill ∧ skill < D.CHAR_SKILL_END →
      c.mExperience (skill - D.CHAR_SKILL_BEGIN) = INT_MAX - 1 →
      ∀ fuel, receiveExperience D fuel c skill 1 = none) := by
  have hgen : ∀ (D : Defines) (c : Character) (skill : Nat),
      D.CHAR_SKILL_BEGIN ≤ skill ∧ skill < D.CHAR_SKILL_END →
      c.mExperience (skill - D.CHAR_SKILL_BEGIN) = INT_MAX - 1 →
      ∀ fuel, receiveExperience D fuel c skill 1 = none := by
    intro D c skill hs he
    apply receiveExperience_of_unbounded D c skill 1 hs
    intro level
    rw [he, clamp_sum_of_range D (INT_MAX - 1) 1 (by decide) (by decide)]
    exact (expForLevel_range D level).2
  refine ⟨by decide, hgen sampleDefines sampleAlmostSaturated 22 (by decide) rfl, ?_, hgen⟩
  intro m
  have hx : clampExperience (sumExperience sampleDefines
      (sampleAlmostSaturated.mExperience (22 - sampleDefines.CHAR_SKILL_BEGIN)) 1) = INT_MAX := by
    decide
  have hst : (receiveExperiencePasses sampleDefines m sampleAlmostSaturated 22 1).mExperience
      (22 - sampleDefines.CHAR_SKILL_BEGIN) = INT_MAX := by
    unfold receiveExperiencePasses
    rw [if_pos (by decide)]
    dsimp only
    rw [skillLevelupPasses_mExperience, hx]
    decide
  refine ⟨hst, ?_⟩
  rw [hst]
  exact not_lt.mpr (expForLevel_range sampleDefines _).2


/-! ## Levels in float arithmetic: rounding -/

theorem roundHalfEven_of_lt (m : ℚ) (n : Int) (h1 : (n : ℚ) - 1 / 2 < m)
    (h2 : m < (n : ℚ) + 1 / 2) : roundHalfEven m = n := by
  unfold roundHalfEven
  by_cases hn : (n : ℚ) ≤ m
  · have hf : ⌊m⌋ = n := by
      rw [Int.floor_eq_iff]
      constructor
      · exact hn
      · linarith
    rw [hf, if_pos (by linarith)]
  · have hf : ⌊m⌋ = n - 1 := by
      rw [Int.floor_eq_iff]
      push_cast
      constructor
      · linarith
      · linarith
    rw [hf]
    push_cast
    rw [if_neg (by linarith), if_pos (by linarith)]
    ring

theorem roundHalfEven_of_tie (m : ℚ) (n : Int) (h : m = (n : ℚ) + 1 / 2) :
    roundHalfEven m = if n % 2 = 0 then n else n + 1 := by
  have hf : ⌊m⌋ = n := by
    rw [Int.floor_eq_iff]
    constructor <;> linarith
  unfold roundHalfEven
  rw [hf, if_neg (by linarith), if_neg (by linarith)]

theorem floor_le_roundHalfEven (m : ℚ) : ⌊m⌋ ≤ roundHalfEven m := by
  unfold roundHalfEven
  split
  · exact le_refl _
  · split
    · omega
    · split
      · exact le_refl _
      · omega

theorem roundHalfEven_le (m : ℚ) (n : Int) (h : m ≤ (n : ℚ)) : roundHalfEven m ≤ n := by
  have hfl : ⌊m⌋ ≤ n := Int.floor_le_floor h |>.trans (le_of_eq (Int.floor_intCast n))
  have hstrict : (0 : ℚ) < m - (⌊m⌋ : ℚ) → ⌊m⌋ + 1 ≤ n := by
    intro hpos
    have h1 : (⌊m⌋ : ℚ) < (n : ℚ) := by linarith
    have h2 : ⌊m⌋ < n := by exact_mod_cast h1
    omega
  unfold roundHalfEven
  split
  · exact hfl
  · rename_i h1
    split
    · exact hstrict (by linarith)
    · split
      · exact hfl
      · exact hstrict (by linarith)

theorem binade_eq (q : ℚ) (e : Int) (h1 : (2 : ℚ) ^ e ≤ |q|) (h2 : |q| < (2 : ℚ) ^ (e + 1))
    (he : -126 ≤ e) : binade q = e := by
  have hpos : (0 : ℚ) < |q| := lt_of_lt_of_le (by positivity) h1
  have hlog : Int.log 2 |q| = e := by
    have a1 : e ≤ Int.log 2 |q| :=
      (Int.zpow_le_iff_le_log (by norm_num) hpos).mp (by exact_mod_cast h1)
    have a2 : Int.log 2 |q| < e + 1 :=
      (Int.lt_zpow_iff_log_lt (by norm_num) hpos).mp (by exact_mod_cast h2)
    omega
  unfold binade
  rw [hlog]
  exact max_eq_left he

/-- The binary32 number nearest to a positive `q` of the binade `e`, from the
integer nearest to `q` in units of the last place. -/
theorem roundBinary32_eq (q : ℚ) (e n : Int) (h1 : (2 : ℚ) ^ e ≤ q)
    (h2 : q < (2 : ℚ) ^ (e + 1)) (he : -126 ≤ e)
    (hn : roundHalfEven (q / (2 : ℚ) ^ (e - 23)) = n) :
    roundBinary32 q = (n : ℚ) * (2 : ℚ) ^ (e - 23) := by
  have hq : 0 ≤ q := le_trans (by positivity) h1
  unfold roundBinary32
  rw [binade_eq q e (by rw [abs_of_nonneg hq]; exact h1) (by rw [abs_of_nonneg hq]; exact h2) he,
    hn]

theorem roundBinary32_zero : roundBinary32 0 = 0 := by
  simp [roundBinary32, roundHalfEven]

/-- The binade of a value of magnitude at least 1 is the exponent of the power
of two at or below it. -/
theorem binade_of_one_le (q : ℚ) (h : 1 ≤ |q|) :
    0 ≤ binade q ∧ (2 : ℚ) ^ (binade q) ≤ |q| ∧ |q| < (2 : ℚ) ^ (binade q + 1) := by
  have hpos : (0 : ℚ) < |q| := lt_of_lt_of_le one_pos h
  have hlog : (0 : Int) ≤ Int.log 2 |q| :=
    (Int.zpow_le_iff_le_log (by norm_num) hpos).mp (by simpa using h)
  have hb : binade q = Int.log 2 |q| := by
    unfold binade
    exact max_eq_left (by omega)
  rw [hb]
  refine ⟨hlog, ?_, ?_⟩
  · have h0 := Int.zpow_log_le_self (by norm_num : 1 < 2) hpos
    exact_mod_cast h0
  · have h0 := Int.lt_zpow_succ_log_self (by norm_num : 1 < 2) |q|
    exact_mod_cast h0

theorem two_zpow_split (b : Int) : (8388608 : ℚ) * (2 : ℚ) ^ (b - 23) = (2 : ℚ) ^ b := by
  have h23 : (8388608 : ℚ) = (2 : ℚ) ^ (23 : Int) := by norm_num
  rw [h23, ← zpow_add₀ (by norm_num)]
  congr 1
  ring

/-- Rounding to binary32 does not cross a power of two. -/
theorem le_roundBinary32 (k : Nat) (q : ℚ) (h : (2 : ℚ) ^ k ≤ q) :
    (2 : ℚ) ^ k ≤ roundBinary32 q := by
  have h1 : (1 : ℚ) ≤ q := le_trans (one_le_pow₀ (by norm_num)) h
  have hq : 0 < q := lt_of_lt_of_le one_pos h1
  have habs : |q| = q := abs_of_pos hq
  obtain ⟨_, hlo, _⟩ := binade_of_one_le q (by rw [habs]; exact h1)
  rw [habs] at hlo
  have hkb : (k : Int) ≤ binade q := by
    have h0 : (k : Int) ≤ Int.log 2 q :=
      (Int.zpow_le_iff_le_log (by norm_num) hq).mp (by exact_mod_cast h)
    unfold binade
    rw [habs]
    exact le_trans h0 (le_max_left _ _)
  unfold roundBinary32
  generalize binade q = b at hlo hkb
  have hpos : (0 : ℚ) < (2 : ℚ) ^ (b - 23) := by positivity
  have hm : ((8388608 : Int) : ℚ) ≤ q / (2 : ℚ) ^ (b - 23) := by
    rw [le_div_iff₀ hpos]
    push_cast
    rw [two_zpow_split]
    exact hlo
  have hr : (8388608 : ℚ) ≤ (roundHalfEven (q / (2 : ℚ) ^ (b - 23)) : ℚ) := by
    exact_mod_cast le_trans (Int.le_floor.mpr hm) (floor_le_roundHalfEven _)
  calc (2 : ℚ) ^ k = (2 : ℚ) ^ (k : Int) := (zpow_natCast _ _).symm
    _ ≤ (2 : ℚ) ^ b := zpow_le_zpow_right₀ (by norm_num) hkb
    _ = (8388608 : ℚ) * (2 : ℚ) ^ (b - 23) := (two_zpow_split b).symm
    _ ≤ (roundHalfEven (q / (2 : ℚ) ^ (b - 23)) : ℚ) * (2 : ℚ) ^ (b - 23) :=
        mul_le_mul_of_nonneg_right hr (le_of_lt hpos)

/-- Rounding to binary32 keeps a value that is not negative so. -/
theorem roundBinary32_nonneg (q : ℚ) (h : 0 ≤ q) : 0 ≤ roundBinary32 q := by
  unfold roundBinary32
  have hpos : (0 : ℚ) < (2 : ℚ) ^ (binade q - 23) := by positivity
  have hm : (0 : ℚ) ≤ q / (2 : ℚ) ^ (binade q - 23) := div_nonneg h (le_of_lt hpos)
  have hr : (0 : Int) ≤ roundHalfEven (q / (2 : ℚ) ^ (binade q - 23)) :=
    le_trans (Int.floor_nonneg.mpr hm) (floor_le_roundHalfEven _)
  exact mul_nonneg (by exact_mod_cast hr) (le_of_lt hpos)

/-- Rounding to binary32 does not cross -1. -/
theorem roundBinary32_le_neg_one (q : ℚ) (h : q ≤ -1) : roundBinary32 q ≤ -1 := by
  have hq : q < 0 := by linarith
  have habs : |q| = -q := abs_of_neg hq
  obtain ⟨hb0, hlo, _⟩ := binade_of_one_le q (by rw [habs]; linarith)
  rw [habs] at hlo
  unfold roundBinary32
  generalize binade q = b at hb0 hlo
  have hpos : (0 : ℚ) < (2 : ℚ) ^ (b - 23) := by positivity
  have hm : q / (2 : ℚ) ^ (b - 23) ≤ ((-8388608 : Int) : ℚ) := by
    rw [div_le_iff₀ hpos]
    push_cast
    have := two_zpow_split b
    linarith
  have hr : (roundHalfEven (q / (2 : ℚ) ^ (b - 23)) : ℚ) ≤ (-8388608 : ℚ) := by
    exact_mod_cast roundHalfEven_le _ _ hm
  have h1 : (1 : ℚ) ≤ (2 : ℚ) ^ b := by
    have := zpow_le_zpow_right₀ (by norm_num : (1 : ℚ) ≤ 2) hb0
    simpa using this
  calc (roundHalfEven (q / (2 : ℚ) ^ (b - 23)) : ℚ) * (2 : ℚ) ^ (b - 23)
      ≤ (-8388608 : ℚ) * (2 : ℚ) ^ (b - 23) := mul_le_mul_of_nonneg_right hr (le_of_lt hpos)
    _ = -((8388608 : ℚ) * (2 : ℚ) ^ (b - 23)) := by ring
    _ = -(2 : ℚ) ^ b := by rw [two_zpow_split]
    _ ≤ -1 := by linarith

/-- The rounding of binary32 is faithful. -/
theorem binary32_faithful : binary32.Faithful :=
  ⟨roundBinary32_nonneg, le_roundBinary32, roundBinary32_le_neg_one⟩

/-- No rounding at all is faithful. -/
theorem exactArith_faithful : exactArith.Faithful :=
  ⟨fun _ h => h, fun _ _ h => h, fun _ h => h⟩

/-- A value whose quotient by the unit in the last place of its binade is an
integer is a binary32 number. -/
theorem roundBinary32_of_mantissa (q : ℚ) (N : Int)
    (hN : q / (2 : ℚ) ^ (binade q - 23) = (N : ℚ)) : roundBinary32 q = q := by
  unfold roundBinary32
  have hpos : (0 : ℚ) < (2 : ℚ) ^ (binade q - 23) := by positivity
  rw [hN, roundHalfEven_of_lt (N : ℚ) N (by linarith) (by linarith), ← hN]
  field_simp

/-- Every `int` of magnitude at most 2^24 = 16777216 is a binary32 number:
its conversion to `float` is exact. -/
theorem roundBinary32_intCast (m : Int) (h : |m| ≤ 16777216) :
    roundBinary32 (m : ℚ) = (m : ℚ) := by
  by_cases h0 : m = 0
  · rw [h0]
    simpa using roundBinary32_zero
  have h1 : (1 : ℚ) ≤ |(m : ℚ)| := by
    have : (1 : Int) ≤ |m| := Int.one_le_abs h0
    exact_mod_cast this
  obtain ⟨hb0, hlo, hhi⟩ := binade_of_one_le (m : ℚ) h1
  have hle : |(m : ℚ)| ≤ 16777216 := by exact_mod_cast h
  have hb24 : binade (m : ℚ) ≤ 24 := by
    by_contra hcon
    have h25 : (25 : Int) ≤ binade (m : ℚ) := by omega
    have : (2 : ℚ) ^ (25 : Int) ≤ (2 : ℚ) ^ (binade (m : ℚ)) :=
      zpow_le_zpow_right₀ (by norm_num) h25
    have h2 : (2 : ℚ) ^ (25 : Int) = 33554432 := by norm_num
    linarith
  by_cases h24 : binade (m : ℚ) = 24
  · rw [h24] at hlo
    have habs : |(m : ℚ)| = 16777216 := by
      have h2 : (2 : ℚ) ^ (24 : Int) = 16777216 := by norm_num
      linarith
    have habsI : |m| = 16777216 := by exact_mod_cast habs
    rcases abs_eq (by norm_num : (0 : Int) ≤ 16777216) |>.mp habsI with hm | hm
    · apply roundBinary32_of_mantissa _ 8388608
      rw [h24, hm]
      norm_num
    · apply roundBinary32_of_mantissa _ (-8388608)
      rw [h24, hm]
      norm_num
  · have hb23 : binade (m : ℚ) ≤ 23 := by omega
    obtain ⟨j, hj⟩ : ∃ j : Nat, (j : Int) = 23 - binade (m : ℚ) :=
      ⟨(23 - binade (m : ℚ)).toNat, by omega⟩
    apply roundBinary32_of_mantissa _ (m * 2 ^ j)
    have he : binade (m : ℚ) - 23 = -(j : Int) := by omega
    rw [he, zpow_neg, zpow_natCast]
    push_cast
    field_simp

/-! ## Levels in float arithmetic: the model -/

/-- Without rounding the loops of `recalculateLevel` compute `aggregateLevel`. -/
theorem aggregateWith_exactArith (D : Defines) (c : Character) :
    aggregateWith exactArith D c = aggregateLevel D c := rfl

/-- In binary32 the levels of magnitude at most 2^24 convert without rounding. -/
theorem binary32_ofInt_exact (m : Int) (h : |m| ≤ 16777216) : binary32.ofInt m = (m : ℚ) :=
  roundBinary32_intCast m h

/-- A faithful rounding converts an `int` other than zero to a `float` other
than zero. -/
theorem ofInt_ne_zero (ar : FloatArith) (har : ar.Faithful) (n : Int) (h : n ≠ 0) :
    ar.ofInt n ≠ 0 := by
  unfold FloatArith.ofInt
  rcases lt_or_gt_of_ne h with hneg | hpos
  · have h1 : (n : ℚ) ≤ -1 := by
      have : n ≤ -1 := by omega
      exact_mod_cast this
    have := har.2.2 _ h1
    linarith
  · have h1 : (2 : ℚ) ^ 0 ≤ (n : ℚ) := by
      have : (1 : Int) ≤ n := by omega
      rw [pow_zero]
      exact_mod_cast this
    have := har.2.1 0 _ h1
    rw [pow_zero] at this
    linarith

/-- A faithful rounding converts every large enough `int` to a `float` at or
above a given value. -/
theorem ofInt_unbounded (ar : FloatArith) (har : ar.Faithful) (x : ℚ) :
    ∃ n0 : Int, ∀ n : Int, n0 ≤ n → x ≤ ar.ofInt n := by
  obtain ⟨k, hk⟩ := pow_unbounded_of_one_lt x (by norm_num : (1 : ℚ) < 2)
  refine ⟨2 ^ k, fun n hn => le_trans (le_of_lt hk) ?_⟩
  have h : (2 : ℚ) ^ k ≤ (n : ℚ) := by exact_mod_cast hn
  exact har.2.1 k _ h

/-- One pass of the second loop with a factor that is not negative: the sum of
the weights is at least 1 from the first pass on. -/
theorem weightStepWith_factorSum (ar : FloatArith) (har : ar.Faithful) (f : ℚ) (hf : 0 ≤ f)
    (w : Weighting) (x : ℚ) (h0 : 0 ≤ w.factor) (h1 : 1 ≤ w.factorSum + w.factor) :
    0 ≤ (weightStepWith ar f w x).factor ∧ 1 ≤ (weightStepWith ar f w x).factorSum := by
  unfold weightStepWith FloatArith.add FloatArith.mul
  dsimp only
  refine ⟨har.1 _ (mul_nonneg h0 hf), ?_⟩
  have := har.2.1 0 (w.factorSum + w.factor) (by rw [pow_zero]; exact h1)
  rw [pow_zero] at this
  exact this

theorem foldl_weightStepWith_factorSum (ar : FloatArith) (har : ar.Faithful) (f : ℚ)
    (hf : 0 ≤ f) : ∀ (l : List ℚ) (w : Weighting), l ≠ [] → 0 ≤ w.factor →
      1 ≤ w.factorSum + w.factor →
      0 ≤ (l.foldl (weightStepWith ar f) w).factor ∧
        1 ≤ (l.foldl (weightStepWith ar f) w).factorSum := by
  intro l
  induction l with
  | nil => intro w h; exact absurd rfl h
  | cons x t ih =>
    intro w _ h0 h1
    rw [List.foldl_cons]
    obtain ⟨g0, g1⟩ := weightStepWith_factorSum ar har f hf w x h0 h1
    by_cases ht : t = []
    · rw [ht]
      exact ⟨g0, g1⟩
    · exact ih _ ht g0 (by linarith)

/-- With at least one skill and a precedence factor that is not negative, the
sum of the weights is at least 1 in every faithful arithmetic. -/
theorem weightingWith_factorSum (ar : FloatArith) (har : ar.Faithful) (D : Defines)
    (c : Character) (hskill : D.CHAR_SKILL_BEGIN < D.CHAR_SKILL_END)
    (hf : 0 ≤ D.LEVEL_SKILL_PRECEDENCE_FACTOR) : 1 ≤ (weightingWith ar D c).factorSum := by
  unfold weightingWith
  apply (foldl_weightStepWith_factorSum ar har _ hf _ _ ?_ (by norm_num) (by norm_num)).2
  intro h
  have hlen := congrArg List.length h
  rw [List.length_reverse, List.length_insertionSort] at hlen
  unfold skillLevelsWith at hlen
  rw [List.length_map, List.length_range'] at hlen
  simp only [List.length_nil] at hlen
  omega

/-- The level-up loop in float arithmetic ends: when the comparison fails at
the level `mLevel + N`, the loop performs `k ≤ N` level-ups, `k` the least
count at which the comparison fails, whatever fuel of at least `k` it has. -/
theorem levelupWhileWith_ends (ar : FloatArith) (D : Defines) (T : ℚ) :
    ∀ (N : Nat) (c : Character), ¬ ar.ofInt (c.mLevel + (N : Int)) < T →
      ∃ k : Nat, k ≤ N ∧ ¬ ar.ofInt (c.mLevel + (k : Int)) < T ∧
        (∀ j : Nat, j < k → ar.ofInt (c.mLevel + (j : Int)) < T) ∧
        ∀ fuel, k ≤ fuel → levelupWhileWith ar D T fuel c = some ((levelup D)^[k] c) := by
  intro N
  induction N with
  | zero =>
    intro c h
    refine ⟨0, le_refl _, h, fun j hj => absurd hj (Nat.not_lt_zero j), fun fuel _ => ?_⟩
    have h0 : ¬ ar.ofInt c.mLevel < T := by
      simpa using h
    cases fuel with
    | zero => rw [levelupWhileWith, if_neg h0]; rfl
    | succ f => rw [levelupWhileWith, if_neg h0]; rfl
  | succ M ih =>
    intro c h
    by_cases h0 : ar.ofInt c.mLevel < T
    · have hl : (levelup D c).mLevel = c.mLevel + 1 := by rw [levelup_eq]
      have h1 : ¬ ar.ofInt ((levelup D c).mLevel + (M : Int)) < T := by
        rw [hl]
        have e : c.mLevel + 1 + (M : Int) = c.mLevel + ((M + 1 : Nat) : Int) := by
          push_cast; ring
        rw [e]
        exact h
      obtain ⟨k, hk, hstop, hrun, hres⟩ := ih (levelup D c) h1
      refine ⟨k + 1, by omega, ?_, ?_, ?_⟩
      · have e : c.mLevel + ((k + 1 : Nat) : Int) = (levelup D c).mLevel + (k : Int) := by
          rw [hl]; push_cast; ring
        rw [e]
        exact hstop
      · intro j hj
        cases j with
        | zero => simpa using h0
        | succ i =>
          have e : c.mLevel + ((i + 1 : Nat) : Int) = (levelup D c).mLevel + (i : Int) := by
            rw [hl]; push_cast; ring
          rw [e]
          exact hrun i (by omega)
      · intro fuel hfuel
        cases fuel with
        | zero => omega
        | succ f =>
          rw [levelupWhileWith, if_pos h0, hres f (by omega), Function.iterate_succ_apply]
    · refine ⟨0, Nat.zero_le _, by simpa using h0, fun j hj => absurd hj (Nat.not_lt_zero j),
        fun fuel _ => ?_⟩
      cases fuel with
      | zero => rw [levelupWhileWith, if_neg h0]; rfl
      | succ f => rw [levelupWhileWith, if_neg h0]; rfl

/-- The level-up loop ends in every faithful arithmetic. -/
theorem levelupWhileWith_terminates (ar : FloatArith) (har : ar.Faithful) (D : Defines) (T : ℚ)
    (c : Character) :
    ∃ k : Nat, ¬ ar.ofInt (c.mLevel + (k : Int)) < T ∧
      (∀ j : Nat, j < k → ar.ofInt (c.mLevel + (j : Int)) < T) ∧
      ∀ fuel, k ≤ fuel → levelupWhileWith ar D T fuel c = some ((levelup D)^[k] c) := by
  obtain ⟨n0, hn0⟩ := ofInt_unbounded ar har T
  have h : ¬ ar.ofInt (c.mLevel + (((n0 - c.mLevel).toNat : Nat) : Int)) < T :=
    not_lt.mpr (hn0 _ (by omega))
  obtain ⟨k, _, h1, h2, h3⟩ := levelupWhileWith_ends ar D T _ c h
  exact ⟨k, h1, h2, h3⟩

/-- Where the levels from the level of the character to the ceiling of the
target convert to `float` without rounding, the loop performs exactly
`max(0, ceil(T) - mLevel)` level-ups. -/
theorem levelupWhileWith_exact (ar : FloatArith) (D : Defines) (T : ℚ) :
    ∀ (n : Nat) (c : Character), (⌈T⌉ - c.mLevel).toNat = n →
      (∀ m : Int, c.mLevel ≤ m → m ≤ max c.mLevel ⌈T⌉ → ar.ofInt m = (m : ℚ)) →
      ∀ fuel, n ≤ fuel → levelupWhileWith ar D T fuel c = some ((levelup D)^[n] c) := by
  intro n
  induction n with
  | zero =>
    intro c h hexact fuel _
    have h1 : ⌈T⌉ ≤ c.mLevel := by omega
    have h2 : ¬ ar.ofInt c.mLevel < T := by
      rw [hexact c.mLevel (le_refl _) (le_max_left _ _), ← Int.lt_ceil]
      omega
    cases fuel with
    | zero => rw [levelupWhileWith, if_neg h2]; rfl
    | succ f => rw [levelupWhileWith, if_neg h2]; rfl
  | succ k ih =>
    intro c h hexact fuel hfuel
    have h1 : c.mLevel < ⌈T⌉ := by omega
    have h2 : ar.ofInt c.mLevel < T := by
      rw [hexact c.mLevel (le_refl _) (le_max_left _ _)]
      exact Int.lt_ceil.mp h1
    have h3 : (levelup D c).mLevel = c.mLevel + 1 := by rw [levelup_eq]
    cases fuel with
    | zero => omega
    | succ f =>
      rw [levelupWhileWith, if_pos h2, Function.iterate_succ_apply]
      apply ih (levelup D c) (by rw [h3]; omega) _ f (by omega)
      intro m hm1 hm2
      rw [h3] at hm1 hm2
      apply hexact m (by omega)
      rw [max_eq_right (le_of_lt h1)]
      rw [max_eq_right (by omega)] at hm2
      exact hm2

/-- What lines 332-337 of `recalculateLevel` store. -/
theorem updateLevelProgress_eq (D : Defines) (T : ℚ) (c : Character) :
    updateLevelProgress D T c =
      { c with
        mLevelProgress := ⌊(T - (⌊T⌋ : ℚ)) * 100⌋,
        mUpdateLevelProgress := c.mUpdateLevelProgress ||
          decide (⌊(T - (⌊T⌋ : ℚ)) * 100⌋ ≠ c.mLevelProgress) } := by
  unfold updateLevelProgress
  dsimp only
  rw [(floatToInt_progress D _).1]
  split
  · rename_i h
    rw [decide_eq_true h, Bool.or_true]
  · rename_i h
    have h' : ⌊(T - (⌊T⌋ : ℚ)) * 100⌋ = c.mLevelProgress := not_not.mp h
    rw [decide_eq_false h, Bool.or_false, h']

/-- The exact reading of `recalculateLevel` is the level-up loop followed by
the update of the level-progress. -/
theorem recalculateLevel_eq_update (D : Defines) (c : Character) :
    recalculateLevel D c
      = updateLevelProgress D (aggregateLevel D c) (levelupWhile D (aggregateLevel D c) c) := rfl

/-- With at least one skill, a non-zero experience needed per skill and a
precedence factor that is not negative, no divisor of the call is zero in a
faithful arithmetic. -/
theorem recalculateLevelWith_eq (ar : FloatArith) (har : ar.Faithful) (D : Defines) (fuel : Nat)
    (c : Character) (hskill : D.CHAR_SKILL_BEGIN < D.CHAR_SKILL_END)
    (hneed : ∀ s, s < D.CHAR_SKILL_END - D.CHAR_SKILL_BEGIN → getExpNeeded D c s ≠ 0)
    (hf : 0 ≤ D.LEVEL_SKILL_PRECEDENCE_FACTOR) :
    recalculateLevelWith ar D fuel c
      = (levelupWhileWith ar D (aggregateWith ar D c) fuel c).map
          (updateLevelProgress D (aggregateWith ar D c)) := by
  unfold recalculateLevelWith
  rw [if_pos]
  refine ⟨fun s hs => ofInt_ne_zero ar har _ (hneed s hs), ?_⟩
  have := weightingWith_factorSum ar har D c hskill hf
  linarith

/-- The state after `k` level-ups and the update of the level-progress. -/
theorem updateLevelProgress_iterate (D : Defines) (T : ℚ) (k : Nat) (c : Character) :
    (updateLevelProgress D T ((levelup D)^[k] c)).mLevel = c.mLevel + (k : Int) ∧
    (updateLevelProgress D T ((levelup D)^[k] c)).mCharacterPoints
      = c.mCharacterPoints + D.CHARPOINTS_PER_LEVELUP * (k : Int) ∧
    (updateLevelProgress D T ((levelup D)^[k] c)).mLevelProgress = ⌊(T - (⌊T⌋ : ℚ)) * 100⌋ ∧
    (updateLevelProgress D T ((levelup D)^[k] c)).mUpdateLevelProgress
      = (c.mUpdateLevelProgress || decide (⌊(T - (⌊T⌋ : ℚ)) * 100⌋ ≠ c.mLevelProgress)) := by
  obtain ⟨h1, h2, _, _, h5, h6, _⟩ := levelup_iterate D k c
  rw [updateLevelProgress_eq, h5, h6]
  exact ⟨h1, h2, rfl, rfl⟩

/-! ## Levels in float arithmetic: evaluation in binary32 -/

/-- The fractional levels of `sampleBeginner` in binary32, every conversion and every
operation rounded. -/
theorem skillLevelsWith_sampleBeginner :
    skillLevelsWith binary32 oneSkillDefines sampleBeginner = List.replicate 1 (5033165 / 16777216) := by
  have r0 : roundBinary32 (3) = 3 := by
    rw [roundBinary32_eq (3) (1) (12582912) (by norm_num) (by norm_num) (by norm_num)
      (roundHalfEven_of_lt _ _ (by norm_num) (by norm_num))]
    norm_num
  have r1 : roundBinary32 (10) = 10 := by
    rw [roundBinary32_eq (10) (3) (10485760) (by norm_num) (by norm_num) (by norm_num)
      (roundHalfEven_of_lt _ _ (by norm_num) (by norm_num))]
    norm_num
  have r2 : roundBinary32 (3 / 10) = 5033165 / 16777216 := by
    rw [roundBinary32_eq (3 / 10) (-2) (10066330) (by norm_num) (by norm_num) (by norm_num)
      (roundHalfEven_of_lt _ _ (by norm_num) (by norm_num))]
    norm_num
  have r3 : roundBinary32 (5033165 / 16777216) = 5033165 / 16777216 := by
    rw [roundBinary32_eq (5033165 / 16777216) (-2) (10066330) (by norm_num) (by norm_num) (by norm_num)
      (roundHalfEven_of_lt _ _ (by norm_num) (by norm_num))]
    norm_num
  have hb : oneSkillDefines.CHAR_SKILL_BEGIN = 22 := rfl
  have he : oneSkillDefines.CHAR_SKILL_END = 23 := rfl
  have hattr : ∀ a, 22 ≤ a → a < 23 → getAttribute sampleBeginner a = 0 := by
    intro a _ _
    rfl
  have hgot : ∀ s, s < 1 → getExpGot oneSkillDefines sampleBeginner s = 3 := by
    intro s hs
    unfold getExpGot
    dsimp only
    rw [hb, hattr (s + 22) (by omega) (by omega)]
    show wrapSigned 32 (3 - expForLevel oneSkillDefines 0) = 3
    decide
  have hneed : ∀ s, s < 1 → getExpNeeded oneSkillDefines sampleBeginner s = 10 := by
    intro s hs
    unfold getExpNeeded
    dsimp only
    rw [hb, hattr (s + 22) (by omega) (by omega)]
    decide
  rw [List.eq_replicate_iff]
  unfold skillLevelsWith
  rw [hb, he]
  refine ⟨by simp, fun b hmem => ?_⟩
  rw [List.mem_map] at hmem
  obtain ⟨a, ha1, rfl⟩ := hmem
  rw [List.mem_range'_1] at ha1
  rw [hattr a ha1.1 (by omega), hgot (a - 22) (by omega), hneed (a - 22) (by omega)]
  simp only [FloatArith.add, FloatArith.div, FloatArith.ofInt, binary32]
  norm_num [roundBinary32_zero, r0, r1, r2, r3]

/-- The target that `recalculateLevel` computes for `sampleBeginner` in binary32:
5452595/4194304, about 1.29999995. -/
theorem aggregateWith_sampleBeginner :
    aggregateWith binary32 oneSkillDefines sampleBeginner = 5452595 / 4194304 := by
  have r0 : roundBinary32 (3) = 3 := by
    rw [roundBinary32_eq (3) (1) (12582912) (by norm_num) (by norm_num) (by norm_num)
      (roundHalfEven_of_lt _ _ (by norm_num) (by norm_num))]
    norm_num
  have r1 : roundBinary32 (10) = 10 := by
    rw [roundBinary32_eq (10) (3) (10485760) (by norm_num) (by norm_num) (by norm_num)
      (roundHalfEven_of_lt _ _ (by norm_num) (by norm_num))]
    norm_num
  have r2 : roundBinary32 (3 / 10) = 5033165 / 16777216 := by
    rw [roundBinary32_eq (3 / 10) (-2) (10066330) (by norm_num) (by norm_num) (by norm_num)
      (roundHalfEven_of_lt _ _ (by norm_num) (by norm_num))]
    norm_num
  have r3 : roundBinary32 (5033165 / 16777216) = 5033165 / 16777216 := by
    rw [roundBinary32_eq (5033165 / 16777216) (-2) (10066330) (by norm_num) (by norm_num) (by norm_num)
      (roundHalfEven_of_lt _ _ (by norm_num) (by norm_num))]
    norm_num
  have r4 : roundBinary32 (1) = 1 := by
    rw [roundBinary32_eq (1) (0) (8388608) (by norm_num) (by norm_num) (by norm_num)
      (roundHalfEven_of_lt _ _ (by norm_num) (by norm_num))]
    norm_num
  have r5 : roundBinary32 (3 / 4) = 3 / 4 := by
    rw [roundBinary32_eq (3 / 4) (-1) (12582912) (by norm_num) (by norm_num) (by norm_num)
      (roundHalfEven_of_lt _ _ (by norm_num) (by norm_num))]
    norm_num
  have r6 : roundBinary32 (21810381 / 16777216) = 5452595 / 4194304 := by
    rw [roundBinary32_eq (21810381 / 16777216) (0) (10905190) (by norm_num) (by norm_num) (by norm_num)
      (by rw [roundHalfEven_of_tie _ (10905190) (by norm_num)]; decide)]
    norm_num
  have hf : oneSkillDefines.LEVEL_SKILL_PRECEDENCE_FACTOR = 3 / 4 := rfl
  unfold aggregateWith weightingWith
  rw [skillLevelsWith_sampleBeginner, hf]
  simp only [List.replicate, List.insertionSort, List.orderedInsert, le_refl, if_true,
    List.reverse_cons, List.reverse_nil, List.nil_append, List.cons_append, List.foldl,
    weightStepWith, FloatArith.add, FloatArith.mul, FloatArith.div, binary32]
  norm_num [roundBinary32_zero, r0, r1, r2, r3, r4, r5, r6]

/-- The fractional levels of `sampleNovice` in binary32, every conversion and every
operation rounded. -/
theorem skillLevelsWith_sampleNovice :
    skillLevelsWith binary32 oneSkillDefines sampleNovice = List.replicate 1 (1 / 2) := by
  have r0 : roundBinary32 (5) = 5 := by
    rw [roundBinary32_eq (5) (2) (10485760) (by norm_num) (by norm_num) (by norm_num)
      (roundHalfEven_of_lt _ _ (by norm_num) (by norm_num))]
    norm_num
  have r1 : roundBinary32 (10) = 10 := by
    rw [roundBinary32_eq (10) (3) (10485760) (by norm_num) (by norm_num) (by norm_num)
      (roundHalfEven_of_lt _ _ (by norm_num) (by norm_num))]
    norm_num
  have r2 : roundBinary32 (1 / 2) = 1 / 2 := by
    rw [roundBinary32_eq (1 / 2) (-1) (8388608) (by norm_num) (by norm_num) (by norm_num)
      (roundHalfEven_of_lt _ _ (by norm_num) (by norm_num))]
    norm_num
  have hb : oneSkillDefines.CHAR_SKILL_BEGIN = 22 := rfl
  have he : oneSkillDefines.CHAR_SKILL_END = 23 := rfl
  have hattr : ∀ a, 22 ≤ a → a < 23 → getAttribute sampleNovice a = 0 := by
    intro a _ _
    rfl
  have hgot : ∀ s, s < 1 → getExpGot oneSkillDefines sampleNovice s = 5 := by
    intro s hs
    unfold getExpGot
    dsimp only
    rw [hb, hattr (s + 22) (by omega) (by omega)]
    show wrapSigned 32 (5 - expForLevel oneSkillDefines 0) = 5
    decide
  have hneed : ∀ s, s < 1 → getExpNeeded oneSkillDefines sampleNovice s = 10 := by
    intro s hs
    unfold getExpNeeded
    dsimp only
    rw [hb, hattr (s + 22) (by omega) (by omega)]
    decide
  rw [List.eq_replicate_iff]
  unfold skillLevelsWith
  rw [hb, he]
  refine ⟨by simp, fun b hmem => ?_⟩
  rw [List.mem_map] at hmem
  obtain ⟨a, ha1, rfl⟩ := hmem
  rw [List.mem_range'_1] at ha1
  rw [hattr a ha1.1 (by omega), hgot (a - 22) (by omega), hneed (a - 22) (by omega)]
  simp only [FloatArith.add, FloatArith.div, FloatArith.ofInt, binary32]
  norm_num [roundBinary32_zero, r0, r1, r2]

/-- The target that `recalculateLevel` computes for `sampleNovice` in binary32:
3/2, without any rounding. -/
theorem aggregateWith_sampleNovice :
    aggregateWith binary32 oneSkillDefines sampleNovice = 3 / 2 := by
  have r0 : roundBinary32 (5) = 5 := by
    rw [roundBinary32_eq (5) (2) (10485760) (by norm_num) (by norm_num) (by norm_num)
      (roundHalfEven_of_lt _ _ (by norm_num) (by norm_num))]
    norm_num
  have r1 : roundBinary32 (10) = 10 := by
    rw [roundBinary32_eq (10) (3) (10485760) (by norm_num) (by norm_num) (by norm_num)
      (roundHalfEven_of_lt _ _ (by norm_num) (by norm_num))]
    norm_num
  have r2 : roundBinary32 (1 / 2) = 1 / 2 := by
    rw [roundBinary32_eq (1 / 2) (-1) (8388608) (by norm_num) (by norm_num) (by norm_num)
      (roundHalfEven_of_lt _ _ (by norm_num) (by norm_num))]
    norm_num
  have r3 : roundBinary32 (1) = 1 := by
    rw [roundBinary32_eq (1) (0) (8388608) (by norm_num) (by norm_num) (by norm_num)
      (roundHalfEven_of_lt _ _ (by norm_num) (by norm_num))]
    norm_num
  have r4 : roundBinary32 (3 / 4) = 3 / 4 := by
    rw [roundBinary32_eq (3 / 4) (-1) (12582912) (by norm_num) (by norm_num) (by norm_num)
      (roundHalfEven_of_lt _ _ (by norm_num) (by norm_num))]
    norm_num
  have r5 : roundBinary32 (3 / 2) = 3 / 2 := by
    rw [roundBinary32_eq (3 / 2) (0) (12582912) (by norm_num) (by norm_num) (by norm_num)
      (roundHalfEven_of_lt _ _ (by norm_num) (by norm_num))]
    norm_num
  have hf : oneSkillDefines.LEVEL_SKILL_PRECEDENCE_FACTOR = 3 / 4 := rfl
  unfold aggregateWith weightingWith
  rw [skillLevelsWith_sampleNovice, hf]
  simp only [List.replicate, List.insertionSort, List.orderedInsert, le_refl, if_true,
    List.reverse_cons, List.reverse_nil, List.nil_append, List.cons_append, List.foldl,
    weightStepWith, FloatArith.add, FloatArith.mul, FloatArith.div, binary32]
  norm_num [roundBinary32_zero, r0, r1, r2, r3, r4, r5]

/-- The fractional levels of `sampleEleven` in binary32, every conversion and every
operation rounded. -/
theorem skillLevelsWith_sampleEleven :
    skillLevelsWith binary32 sampleDefines sampleEleven = List.replicate 12 (11) := by
  have r0 : roundBinary32 (11) = 11 := by
    rw [roundBinary32_eq (11) (3) (11534336) (by norm_num) (by norm_num) (by norm_num)
      (roundHalfEven_of_lt _ _ (by norm_num) (by norm_num))]
    norm_num
  have r1 : roundBinary32 (3970) = 3970 := by
    rw [roundBinary32_eq (3970) (11) (16261120) (by norm_num) (by norm_num) (by norm_num)
      (roundHalfEven_of_lt _ _ (by norm_num) (by norm_num))]
    norm_num
  have hb : sampleDefines.CHAR_SKILL_BEGIN = 22 := rfl
  have he : sampleDefines.CHAR_SKILL_END = 34 := rfl
  have hattr : ∀ a, 22 ≤ a → a < 34 → getAttribute sampleEleven a = 11 := by
    intro a h1 _
    show (if 22 ≤ a then Attribute.mk 11 0 else Attribute.mk 0 0).base = 11
    rw [if_pos h1]
  have hgot : ∀ s, s < 12 → getExpGot sampleDefines sampleEleven s = 0 := by
    intro s hs
    unfold getExpGot
    dsimp only
    rw [hb, hattr (s + 22) (by omega) (by omega)]
    show wrapSigned 32 (13310 - expForLevel sampleDefines 11) = 0
    decide
  have hneed : ∀ s, s < 12 → getExpNeeded sampleDefines sampleEleven s = 3970 := by
    intro s hs
    unfold getExpNeeded
    dsimp only
    rw [hb, hattr (s + 22) (by omega) (by omega)]
    decide
  rw [List.eq_replicate_iff]
  unfold skillLevelsWith
  rw [hb, he]
  refine ⟨by simp, fun b hmem => ?_⟩
  rw [List.mem_map] at hmem
  obtain ⟨a, ha1, rfl⟩ := hmem
  rw [List.mem_range'_1] at ha1
  rw [hattr a ha1.1 (by omega), hgot (a - 22) (by omega), hneed (a - 22) (by omega)]
  simp only [FloatArith.add, FloatArith.div, FloatArith.ofInt, binary32]
  norm_num [roundBinary32_zero, r0, r1]

/-- The target that `recalculateLevel` computes for `sampleEleven` in binary32:
12582913/1048576, about 12.000001. -/
theorem aggregateWith_sampleEleven :
    aggregateWith binary32 sampleDefines sampleEleven = 12582913 / 1048576 := by
  have r0 : roundBinary32 (11) = 11 := by
    rw [roundBinary32_eq (11) (3) (11534336) (by norm_num) (by norm_num) (by norm_num)
      (roundHalfEven_of_lt _ _ (by norm_num) (by norm_num))]
    norm_num
  have r1 : roundBinary32 (3970) = 3970 := by
    rw [roundBinary32_eq (3970) (11) (16261120) (by norm_num) (by norm_num) (by norm_num)
      (roundHalfEven_of_lt _ _ (by norm_num) (by norm_num))]
    norm_num
  have r2 : roundBinary32 (1) = 1 := by
    rw [roundBinary32_eq (1) (0) (8388608) (by norm_num) (by norm_num) (by norm_num)
      (roundHalfEven_of_lt _ _ (by norm_num) (by norm_num))]
    norm_num
  have r3 : roundBinary32 (3 / 4) = 3 / 4 := by
    rw [roundBinary32_eq (3 / 4) (-1) (12582912) (by norm_num) (by norm_num) (by norm_num)
      (roundHalfEven_of_lt _ _ (by norm_num) (by norm_num))]
    norm_num
  have r4 : roundBinary32 (33 / 4) = 33 / 4 := by
    rw [roundBinary32_eq (33 / 4) (3) (8650752) (by norm_num) (by norm_num) (by norm_num)
      (roundHalfEven_of_lt _ _ (by norm_num) (by norm_num))]
    norm_num
  have r5 : roundBinary32 (77 / 4) = 77 / 4 := by
    rw [roundBinary32_eq (77 / 4) (4) (10092544) (by norm_num) (by norm_num) (by norm_num)
      (roundHalfEven_of_lt _ _ (by norm_num) (by norm_num))]
    norm_num
  have r6 : roundBinary32 (7 / 4) = 7 / 4 := by
    rw [roundBinary32_eq (7 / 4) (0) (14680064) (by norm_num) (by norm_num) (by norm_num)
      (roundHalfEven_of_lt _ _ (by norm_num) (by norm_num))]
    norm_num
  have r7 : roundBinary32 (9 / 16) = 9 / 16 := by
    rw [roundBinary32_eq (9 / 16) (-1) (9437184) (by norm_num) (by norm_num) (by norm_num)
      (roundHalfEven_of_lt _ _ (by norm_num) (by norm_num))]
    norm_num
  have r8 : roundBinary32 (99 / 16) = 99 / 16 := by
    rw [roundBinary32_eq (99 / 16) (2) (12976128) (by norm_num) (by norm_num) (by norm_num)
      (roundHalfEven_of_lt _ _ (by norm_num) (by norm_num))]
    norm_num
  have r9 : roundBinary32 (407 / 16) = 407 / 16 := by
    rw [roundBinary32_eq (407 / 16) (4) (13336576) (by norm_num) (by norm_num) (by norm_num)
      (roundHalfEven_of_lt _ _ (by norm_num) (by norm_num))]
    norm_num
  have r10 : roundBinary32 (37 / 16) = 37 / 16 := by
    rw [roundBinary32_eq (37 / 16) (1) (9699328) (by norm_num) (by norm_num) (by norm_num)
      (roundHalfEven_of_lt _ _ (by norm_num) (by norm_num))]
    norm_num
  have r11 : roundBinary32 (27 / 64) = 27 / 64 := by
    rw [roundBinary32_eq (27 / 64) (-2) (14155776) (by norm_num) (by norm_num) (by norm_num)
      (roundHalfEven_of_lt _ _ (by norm_num) (by norm_num))]
    norm_num
  have r12 : roundBinary32 (297 / 64) = 297 / 64 := by
    rw [roundBinary32_eq (297 / 64) (2) (9732096) (by norm_num) (by norm_num) (by norm_num)
      (roundHalfEven_of_lt _ _ (by norm_num) (by norm_num))]
    norm_num
  have r13 : roundBinary32 (1925 / 64) = 1925 / 64 := by
    rw [roundBinary32_eq (1925 / 64) (4) (15769600) (by norm_num) (by norm_num) (by norm_num)
      (roundHalfEven_of_lt _ _ (by norm_num) (by norm_num))]
    norm_num
  have r14 : roundBinary32 (175 / 64) = 175 / 64 := by
    rw [roundBinary32_eq (175 / 64) (1) (11468800) (by norm_num) (by norm_num) (by norm_num)
      (roundHalfEven_of_lt _ _ (by norm_num) (by norm_num))]
    norm_num
  have r15 : roundBinary32 (81 / 256) = 81 / 256 := by
    rw [roundBinary32_eq (81 / 256) (-2) (10616832) (by norm_num) (by norm_num) (by norm_num)
      (roundHalfEven_of_lt _ _ (by norm_num) (by norm_num))]
    norm_num
  have r16 : roundBinary32 (891 / 256) = 891 / 256 := by
    rw [roundBinary32_eq (891 / 256) (1) (14598144) (by norm_num) (by norm_num) (by norm_num)
      (roundHalfEven_of_lt _ _ (by norm_num) (by norm_num))]
    norm_num
  have r17 : roundBinary32 (8591 / 256) = 8591 / 256 := by
    rw [roundBinary32_eq (8591 / 256) (5) (8797184) (by norm_num) (by norm_num) (by norm_num)
      (roundHalfEven_of_lt _ _ (by norm_num) (by norm_num))]
    norm_num
  have r18 : roundBinary32 (781 / 256) = 781 / 256 := by
    rw [roundBinary32_eq (781 / 256) (1) (12795904) (by norm_num) (by norm_num) (by norm_num)
      (roundHalfEven_of_lt _ _ (by norm_num) (by norm_num))]
    norm_num
  have r19 : roundBinary32 (243 / 1024) = 243 / 1024 := by
    rw [roundBinary32_eq (243 / 1024) (-3) (15925248) (by norm_num) (by norm_num) (by norm_num)
      (roundHalfEven_of_lt _ _ (by norm_num) (by norm_num))]
    norm_num
  have r20 : roundBinary32 (2673 / 1024) = 2673 / 1024 := by
    rw [roundBinary32_eq (2673 / 1024) (1) (10948608) (by norm_num) (by norm_num) (by norm_num)
      (roundHalfEven_of_lt _ _ (by norm_num) (by norm_num))]
    norm_num
  have r21 : roundBinary32 (37037 / 1024) = 37037 / 1024 := by
    rw [roundBinary32_eq (37037 / 1024) (5) (9481472) (by norm_num) (by norm_num) (by norm_num)
      (roundHalfEven_of_lt _ _ (by norm_num) (by norm_num))]
    norm_num
  have r22 : roundBinary32 (3367 / 1024) = 3367 / 1024 := by
    rw [roundBinary32_eq (3367 / 1024) (1) (13791232) (by norm_num) (by norm_num) (by norm_num)
      (roundHalfEven_of_lt _ _ (by norm_num) (by norm_num))]
    norm_num
  have r23 : roundBinary32 (729 / 4096) = 729 / 4096 := by
    rw [roundBinary32_eq (729 / 4096) (-3) (11943936) (by norm_num) (by norm_num) (by norm_num)
      (roundHalfEven_of_lt _ _ (by norm_num) (by norm_num))]
    norm_num
  have r24 : roundBinary32 (8019 / 4096) = 8019 / 4096 := by
    rw [roundBinary32_eq (8019 / 4096) (0) (16422912) (by norm_num) (by norm_num) (by norm_num)
      (roundHalfEven_of_lt _ _ (by norm_num) (by norm_num))]
    norm_num
  have r25 : roundBinary32 (156167 / 4096) = 156167 / 4096 := by
    rw [roundBinary32_eq (156167 / 4096) (5) (9994688) (by norm_num) (by norm_num) (by norm_num)
      (roundHalfEven_of_lt _ _ (by norm_num) (by norm_num))]
    norm_num
  have r26 : roundBinary32 (14197 / 4096) = 14197 / 4096 := by
    rw [roundBinary32_eq (14197 / 4096) (1) (14537728) (by norm_num) (by norm_num) (by norm_num)
      (roundHalfEven_of_lt _ _ (by norm_num) (by norm_num))]
    norm_num
  have r27 : roundBinary32 (2187 / 16384) = 2187 / 16384 := by
    rw [roundBinary32_eq (2187 / 16384) (-3) (8957952) (by norm_num) (by norm_num) (by norm_num)
      (roundHalfEven_of_lt _ _ (by norm_num) (by norm_num))]
    norm_num
  have r28 : roundBinary32 (24057 / 16384) = 24057 / 16384 := by
    rw [roundBinary32_eq (24057 / 16384) (0) (12317184) (by norm_num) (by norm_num) (by norm_num)
      (roundHalfEven_of_lt _ _ (by norm_num) (by norm_num))]
    norm_num
  have r29 : roundBinary32 (648725 / 16384) = 648725 / 16384 := by
    rw [roundBinary32_eq (648725 / 16384) (5) (10379600) (by norm_num) (by norm_num) (by norm_num)
      (roundHalfEven_of_lt _ _ (by norm_num) (by norm_num))]
    norm_num
  have r30 : roundBinary32 (58975 / 16384) = 58975 / 16384 := by
    rw [roundBinary32_eq (58975 / 16384) (1) (15097600) (by norm_num) (by norm_num) (by norm_num)
      (roundHalfEven_of_lt _ _ (by norm_num) (by norm_num))]
    norm_num
  have r31 : roundBinary32 (6561 / 65536) = 6561 / 65536 := by
    rw [roundBinary32_eq (6561 / 65536) (-4) (13436928) (by norm_num) (by norm_num) (by norm_num)
      (roundHalfEven_of_lt _ _ (by norm_num) (by norm_num))]
    norm_num
  have r32 : roundBinary32 (72171 / 65536) = 72171 / 65536 := by
    rw [roundBinary32_eq (72171 / 65536) (0) (9237888) (by norm_num) (by norm_num) (by norm_num)
      (roundHalfEven_of_lt _ _ (by norm_num) (by norm_num))]
    norm_num
  have r33 : roundBinary32 (2667071 / 65536) = 2667071 / 65536 := by
    rw [roundBinary32_eq (2667071 / 65536) (5) (10668284) (by norm_num) (by norm_num) (by norm_num)
      (roundHalfEven_of_lt _ _ (by norm_num) (by norm_num))]
    norm_num
  have r34 : roundBinary32 (242461 / 65536) = 242461 / 65536 := by
    rw [roundBinary32_eq (242461 / 65536) (1) (15517504) (by norm_num) (by norm_num) (by norm_num)
      (roundHalfEven_of_lt _ _ (by norm_num) (by norm_num))]
    norm_num
  have r35 : roundBinary32 (19683 / 262144) = 19683 / 262144 := by
    rw [roundBinary32_eq (19683 / 262144) (-4) (10077696) (by norm_num) (by norm_num) (by norm_num)
      (roundHalfEven_of_lt _ _ (by norm_num) (by norm_num))]
    norm_num
  have r36 : roundBinary32 (216513 / 262144) = 216513 / 262144 := by
    rw [roundBinary32_eq (216513 / 262144) (-1) (13856832) (by norm_num) (by norm_num) (by norm_num)
      (roundHalfEven_of_lt _ _ (by norm_num) (by norm_num))]
    norm_num
  have r37 : roundBinary32 (10884797 / 262144) = 10884797 / 262144 := by
    rw [roundBinary32_eq (10884797 / 262144) (5) (10884797) (by norm_num) (by norm_num) (by norm_num)
      (roundHalfEven_of_lt _ _ (by norm_num) (by norm_num))]
    norm_num
  have r38 : roundBinary32 (989527 / 262144) = 989527 / 262144 := by
    rw [roundBinary32_eq (989527 / 262144) (1) (15832432) (by norm_num) (by norm_num) (by norm_num)
      (roundHalfEven_of_lt _ _ (by norm_num) (by norm_num))]
    norm_num
  have r39 : roundBinary32 (59049 / 1048576) = 59049 / 1048576 := by
    rw [roundBinary32_eq (59049 / 1048576) (-5) (15116544) (by norm_num) (by norm_num) (by norm_num)
      (roundHalfEven_of_lt _ _ (by norm_num) (by norm_num))]
    norm_num
  have r40 : roundBinary32 (649539 / 1048576) = 649539 / 1048576 := by
    rw [roundBinary32_eq (649539 / 1048576) (-1) (10392624) (by norm_num) (by norm_num) (by norm_num)
      (roundHalfEven_of_lt _ _ (by norm_num) (by norm_num))]
    norm_num
  have r41 : roundBinary32 (44188727 / 1048576) = 5523591 / 131072 := by
    rw [roundBinary32_eq (44188727 / 1048576) (5) (11047182) (by norm_num) (by norm_num) (by norm_num)
      (roundHalfEven_of_lt _ _ (by norm_num) (by norm_num))]
    norm_num
  have r42 : roundBinary32 (4017157 / 1048576) = 4017157 / 1048576 := by
    rw [roundBinary32_eq (4017157 / 1048576) (1) (16068628) (by norm_num) (by norm_num) (by norm_num)
      (roundHalfEven_of_lt _ _ (by norm_num) (by norm_num))]
    norm_num
  have r43 : roundBinary32 (177147 / 4194304) = 177147 / 4194304 := by
    rw [roundBinary32_eq (177147 / 4194304) (-5) (11337408) (by norm_num) (by norm_num) (by norm_num)
      (roundHalfEven_of_lt _ _ (by norm_num) (by norm_num))]
    norm_num
  have r44 : roundBinary32 (1948617 / 4194304) = 1948617 / 4194304 := by
    rw [roundBinary32_eq (1948617 / 4194304) (-2) (15588936) (by norm_num) (by norm_num) (by norm_num)
      (roundHalfEven_of_lt _ _ (by norm_num) (by norm_num))]
    norm_num
  have r45 : roundBinary32 (178703529 / 4194304) = 11168971 / 262144 := by
    rw [roundBinary32_eq (178703529 / 4194304) (5) (11168971) (by norm_num) (by norm_num) (by norm_num)
      (roundHalfEven_of_lt _ _ (by norm_num) (by norm_num))]
    norm_num
  have r46 : roundBinary32 (16245775 / 4194304) = 16245775 / 4194304 := by
    rw [roundBinary32_eq (16245775 / 4194304) (1) (16245775) (by norm_num) (by norm_num) (by norm_num)
      (roundHalfEven_of_lt _ _ (by norm_num) (by norm_num))]
    norm_num
  have r47 : roundBinary32 (531441 / 16777216) = 531441 / 16777216 := by
    rw [roundBinary32_eq (531441 / 16777216) (-5) (8503056) (by norm_num) (by norm_num) (by norm_num)
      (roundHalfEven_of_lt _ _ (by norm_num) (by norm_num))]
    norm_num
  have r48 : roundBinary32 (178703536 / 16245775) = 11534337 / 1048576 := by
    rw [roundBinary32_eq (178703536 / 16245775) (3) (11534337) (by norm_num) (by norm_num) (by norm_num)
      (roundHalfEven_of_lt _ _ (by norm_num) (by norm_num))]
    norm_num
  have r49 : roundBinary32 (12582913 / 1048576) = 12582913 / 1048576 := by
    rw [roundBinary32_eq (12582913 / 1048576) (3) (12582913) (by norm_num) (by norm_num) (by norm_num)
      (roundHalfEven_of_lt _ _ (by norm_num) (by norm_num))]
    norm_num
  have hf : sampleDefines.LEVEL_SKILL_PRECEDENCE_FACTOR = 3 / 4 := rfl
  unfold aggregateWith weightingWith
  rw [skillLevelsWith_sampleEleven, hf]
  simp only [List.replicate, List.insertionSort, List.orderedInsert, le_refl, if_true,
    List.reverse_cons, List.reverse_nil, List.nil_append, List.cons_append, List.foldl,
    weightStepWith, FloatArith.add, FloatArith.mul, FloatArith.div, binary32]
  norm_num [roundBinary32_zero, r0, r1, r2, r3, r4, r5, r6, r7, r8, r9, r10, r11, r12, r13, r14, r15, r16, r17, r18, r19, r20, r21, r22, r23, r24, r25, r26, r27, r28, r29, r30, r31, r32, r33, r34, r35, r36, r37, r38, r39, r40, r41, r42, r43, r44, r45, r46, r47, r48, r49]

/-- The fractional levels of `sampleNineteen` in binary32, every conversion and every
operation rounded. -/
theorem skillLevelsWith_sampleNineteen :
    skillLevelsWith binary32 sampleDefines sampleNineteen = List.replicate 12 (19) := by
  have r0 : roundBinary32 (19) = 19 := by
    rw [roundBinary32_eq (19) (4) (9961472) (by norm_num) (by norm_num) (by norm_num)
      (roundHalfEven_of_lt _ _ (by norm_num) (by norm_num))]
    norm_num
  have r1 : roundBinary32 (11410) = 11410 := by
    rw [roundBinary32_eq (11410) (13) (11683840) (by norm_num) (by norm_num) (by norm_num)
      (roundHalfEven_of_lt _ _ (by norm_num) (by norm_num))]
    norm_num
  have hb : sampleDefines.CHAR_SKILL_BEGIN = 22 := rfl
  have he : sampleDefines.CHAR_SKILL_END = 34 := rfl
  have hattr : ∀ a, 22 ≤ a → a < 34 → getAttribute sampleNineteen a = 19 := by
    intro a h1 _
    show (if 22 ≤ a then Attribute.mk 19 0 else Attribute.mk 0 0).base = 19
    rw [if_pos h1]
  have hgot : ∀ s, s < 12 → getExpGot sampleDefines sampleNineteen s = 0 := by
    intro s hs
    unfold getExpGot
    dsimp only
    rw [hb, hattr (s + 22) (by omega) (by omega)]
    show wrapSigned 32 (68590 - expForLevel sampleDefines 19) = 0
    decide
  have hneed : ∀ s, s < 12 → getExpNeeded sampleDefines sampleNineteen s = 11410 := by
    intro s hs
    unfold getExpNeeded
    dsimp only
    rw [hb, hattr (s + 22) (by omega) (by omega)]
    decide
  rw [List.eq_replicate_iff]
  unfold skillLevelsWith
  rw [hb, he]
  refine ⟨by simp, fun b hmem => ?_⟩
  rw [List.mem_map] at hmem
  obtain ⟨a, ha1, rfl⟩ := hmem
  rw [List.mem_range'_1] at ha1
  rw [hattr a ha1.1 (by omega), hgot (a - 22) (by omega), hneed (a - 22) (by omega)]
  simp only [FloatArith.add, FloatArith.div, FloatArith.ofInt, binary32]
  norm_num [roundBinary32_zero, r0, r1]

/-- The target that `recalculateLevel` computes for `sampleNineteen` in binary32:
10485759/524288, about 19.9999981. -/
theorem aggregateWith_sampleNineteen :
    aggregateWith binary32 sampleDefines sampleNineteen = 10485759 / 524288 := by
  have r0 : roundBinary32 (19) = 19 := by
    rw [roundBinary32_eq (19) (4) (9961472) (by norm_num) (by norm_num) (by norm_num)
      (roundHalfEven_of_lt _ _ (by norm_num) (by norm_num))]
    norm_num
  have r1 : roundBinary32 (11410) = 11410 := by
    rw [roundBinary32_eq (11410) (13) (11683840) (by norm_num) (by norm_num) (by norm_num)
      (roundHalfEven_of_lt _ _ (by norm_num) (by norm_num))]
    norm_num
  have r2 : roundBinary32 (1) = 1 := by
    rw [roundBinary32_eq (1) (0) (8388608) (by norm_num) (by norm_num) (by norm_num)
      (roundHalfEven_of_lt _ _ (by norm_num) (by norm_num))]
    norm_num
  have r3 : roundBinary32 (3 / 4) = 3 / 4 := by
    rw [roundBinary32_eq (3 / 4) (-1) (12582912) (by norm_num) (by norm_num) (by norm_num)
      (roundHalfEven_of_lt _ _ (by norm_num) (by norm_num))]
    norm_num
  have r4 : roundBinary32 (57 / 4) = 57 / 4 := by
    rw [roundBinary32_eq (57 / 4) (3) (14942208) (by norm_num) (by norm_num) (by norm_num)
      (roundHalfEven_of_lt _ _ (by norm_num) (by norm_num))]
    norm_num
  have r5 : roundBinary32 (133 / 4) = 133 / 4 := by
    rw [roundBinary32_eq (133 / 4) (5) (8716288) (by norm_num) (by norm_num) (by norm_num)
      (roundHalfEven_of_lt _ _ (by norm_num) (by norm_num))]
    norm_num
  have r6 : roundBinary32 (7 / 4) = 7 / 4 := by
    rw [roundBinary32_eq (7 / 4) (0) (14680064) (by norm_num) (by norm_num) (by norm_num)
      (roundHalfEven_of_lt _ _ (by norm_num) (by norm_num))]
    norm_num
  have r7 : roundBinary32 (9 / 16) = 9 / 16 := by
    rw [roundBinary32_eq (9 / 16) (-1) (9437184) (by norm_num) (by norm_num) (by norm_num)
      (roundHalfEven_of_lt _ _ (by norm_num) (by norm_num))]
    norm_num
  have r8 : roundBinary32 (171 / 16) = 171 / 16 := by
    rw [roundBinary32_eq (171 / 16) (3) (11206656) (by norm_num) (by norm_num) (by norm_num)
      (roundHalfEven_of_lt _ _ (by norm_num) (by norm_num))]
    norm_num
  have r9 : roundBinary32 (703 / 16) = 703 / 16 := by
    rw [roundBinary32_eq (703 / 16) (5) (11517952) (by norm_num) (by norm_num) (by norm_num)
      (roundHalfEven_of_lt _ _ (by norm_num) (by norm_num))]
    norm_num
  have r10 : roundBinary32 (37 / 16) = 37 / 16 := by
    rw [roundBinary32_eq (37 / 16) (1) (9699328) (by norm_num) (by norm_num) (by norm_num)
      (roundHalfEven_of_lt _ _ (by norm_num) (by norm_num))]
    norm_num
  have r11 : roundBinary32 (27 / 64) = 27 / 64 := by
    rw [roundBinary32_eq (27 / 64) (-2) (14155776) (by norm_num) (by norm_num) (by norm_num)
      (roundHalfEven_of_lt _ _ (by norm_num) (by norm_num))]
    norm_num
  have r12 : roundBinary32 (513 / 64) = 513 / 64 := by
    rw [roundBinary32_eq (513 / 64) (3) (8404992) (by norm_num) (by norm_num) (by norm_num)
      (roundHalfEven_of_lt _ _ (by norm_num) (by norm_num))]
    norm_num
  have r13 : roundBinary32 (3325 / 64) = 3325 / 64 := by
    rw [roundBinary32_eq (3325 / 64) (5) (13619200) (by norm_num) (by norm_num) (by norm_num)
      (roundHalfEven_of_lt _ _ (by norm_num) (by norm_num))]
    norm_num
  have r14 : roundBinary32 (175 / 64) = 175 / 64 := by
    rw [roundBinary32_eq (175 / 64) (1) (11468800) (by norm_num) (by norm_num) (by norm_num)
      (roundHalfEven_of_lt _ _ (by norm_num) (by norm_num))]
    norm_num
  have r15 : roundBinary32 (81 / 256) = 81 / 256 := by
    rw [roundBinary32_eq (81 / 256) (-2) (10616832) (by norm_num) (by norm_num) (by norm_num)
      (roundHalfEven_of_lt _ _ (by norm_num) (by norm_num))]
    norm_num
  have r16 : roundBinary32 (1539 / 256) = 1539 / 256 := by
    rw [roundBinary32_eq (1539 / 256) (2) (12607488) (by norm_num) (by norm_num) (by norm_num)
      (roundHalfEven_of_lt _ _ (by norm_num) (by norm_num))]
    norm_num
  have r17 : roundBinary32 (14839 / 256) = 14839 / 256 := by
    rw [roundBinary32_eq (14839 / 256) (5) (15195136) (by norm_num) (by norm_num) (by norm_num)
      (roundHalfEven_of_lt _ _ (by norm_num) (by norm_num))]
    norm_num
  have r18 : roundBinary32 (781 / 256) = 781 / 256 := by
    rw [roundBinary32_eq (781 / 256) (1) (12795904) (by norm_num) (by norm_num) (by norm_num)
      (roundHalfEven_of_lt _ _ (by norm_num) (by norm_num))]
    norm_num
  have r19 : roundBinary32 (243 / 1024) = 243 / 1024 := by
    rw [roundBinary32_eq (243 / 1024) (-3) (15925248) (by norm_num) (by norm_num) (by norm_num)
      (roundHalfEven_of_lt _ _ (by norm_num) (by norm_num))]
    norm_num
  have r20 : roundBinary32 (4617 / 1024) = 4617 / 1024 := by
    rw [roundBinary32_eq (4617 / 1024) (2) (9455616) (by norm_num) (by norm_num) (by norm_num)
      (roundHalfEven_of_lt _ _ (by norm_num) (by norm_num))]
    norm_num
  have r21 : roundBinary32 (63973 / 1024) = 63973 / 1024 := by
    rw [roundBinary32_eq (63973 / 1024) (5) (16377088) (by norm_num) (by norm_num) (by norm_num)
      (roundHalfEven_of_lt _ _ (by norm_num) (by norm_num))]
    norm_num
  have r22 : roundBinary32 (3367 / 1024) = 3367 / 1024 := by
    rw [roundBinary32_eq (3367 / 1024) (1) (13791232) (by norm_num) (by norm_num) (by norm_num)
      (roundHalfEven_of_lt _ _ (by norm_num) (by norm_num))]
    norm_num
  have r23 : roundBinary32 (729 / 4096) = 729 / 4096 := by
    rw [roundBinary32_eq (729 / 4096) (-3) (11943936) (by norm_num) (by norm_num) (by norm_num)
      (roundHalfEven_of_lt _ _ (by norm_num) (by norm_num))]
    norm_num
  have r24 : roundBinary32 (13851 / 4096) = 13851 / 4096 := by
    rw [roundBinary32_eq (13851 / 4096) (1) (14183424) (by norm_num) (by norm_num) (by norm_num)
      (roundHalfEven_of_lt _ _ (by norm_num) (by norm_num))]
    norm_num
  have r25 : roundBinary32 (269743 / 4096) = 269743 / 4096 := by
    rw [roundBinary32_eq (269743 / 4096) (6) (8631776) (by norm_num) (by norm_num) (by norm_num)
      (roundHalfEven_of_lt _ _ (by norm_num) (by norm_num))]
    norm_num
  have r26 : roundBinary32 (14197 / 4096) = 14197 / 4096 := by
    rw [roundBinary32_eq (14197 / 4096) (1) (14537728) (by norm_num) (by norm_num) (by norm_num)
      (roundHalfEven_of_lt _ _ (by norm_num) (by norm_num))]
    norm_num
  have r27 : roundBinary32 (2187 / 16384) = 2187 / 16384 := by
    rw [roundBinary32_eq (2187 / 16384) (-3) (8957952) (by norm_num) (by norm_num) (by norm_num)
      (roundHalfEven_of_lt _ _ (by norm_num) (by norm_num))]
    norm_num
  have r28 : roundBinary32 (41553 / 16384) = 41553 / 16384 := by
    rw [roundBinary32_eq (41553 / 16384) (1) (10637568) (by norm_num) (by norm_num) (by norm_num)
      (roundHalfEven_of_lt _ _ (by norm_num) (by norm_num))]
    norm_num
  have r29 : roundBinary32 (1120525 / 16384) = 1120525 / 16384 := by
    rw [roundBinary32_eq (1120525 / 16384) (6) (8964200) (by norm_num) (by norm_num) (by norm_num)
      (roundHalfEven_of_lt _ _ (by norm_num) (by norm_num))]
    norm_num
  have r30 : roundBinary32 (58975 / 16384) = 58975 / 16384 := by
    rw [roundBinary32_eq (58975 / 16384) (1) (15097600) (by norm_num) (by norm_num) (by norm_num)
      (roundHalfEven_of_lt _ _ (by norm_num) (by norm_num))]
    norm_num
  have r31 : roundBinary32 (6561 / 65536) = 6561 / 65536 := by
    rw [roundBinary32_eq (6561 / 65536) (-4) (13436928) (by norm_num) (by norm_num) (by norm_num)
      (roundHalfEven_of_lt _ _ (by norm_num) (by norm_num))]
    norm_num
  have r32 : roundBinary32 (124659 / 65536) = 124659 / 65536 := by
    rw [roundBinary32_eq (124659 / 65536) (0) (15956352) (by norm_num) (by norm_num) (by norm_num)
      (roundHalfEven_of_lt _ _ (by norm_num) (by norm_num))]
    norm_num
  have r33 : roundBinary32 (4606759 / 65536) = 4606759 / 65536 := by
    rw [roundBinary32_eq (4606759 / 65536) (6) (9213518) (by norm_num) (by norm_num) (by norm_num)
      (roundHalfEven_of_lt _ _ (by norm_num) (by norm_num))]
    norm_num
  have r34 : roundBinary32 (242461 / 65536) = 242461 / 65536 := by
    rw [roundBinary32_eq (242461 / 65536) (1) (15517504) (by norm_num) (by norm_num) (by norm_num)
      (roundHalfEven_of_lt _ _ (by norm_num) (by norm_num))]
    norm_num
  have r35 : roundBinary32 (19683 / 262144) = 19683 / 262144 := by
    rw [roundBinary32_eq (19683 / 262144) (-4) (10077696) (by norm_num) (by norm_num) (by norm_num)
      (roundHalfEven_of_lt _ _ (by norm_num) (by norm_num))]
    norm_num
  have r36 : roundBinary32 (373977 / 262144) = 373977 / 262144 := by
    rw [roundBinary32_eq (373977 / 262144) (0) (11967264) (by norm_num) (by norm_num) (by norm_num)
      (roundHalfEven_of_lt _ _ (by norm_num) (by norm_num))]
    norm_num
  have r37 : roundBinary32 (18801013 / 262144) = 4700253 / 65536 := by
    rw [roundBinary32_eq (18801013 / 262144) (6) (9400506) (by norm_num) (by norm_num) (by norm_num)
      (by rw [roundHalfEven_of_tie _ (9400506) (by norm_num)]; decide)]
    norm_num
  have r38 : roundBinary32 (989527 / 262144) = 989527 / 262144 := by
    rw [roundBinary32_eq (989527 / 262144) (1) (15832432) (by norm_num) (by norm_num) (by norm_num)
      (roundHalfEven_of_lt _ _ (by norm_num) (by norm_num))]
    norm_num
  have r39 : roundBinary32 (59049 / 1048576) = 59049 / 1048576 := by
    rw [roundBinary32_eq (59049 / 1048576) (-5) (15116544) (by norm_num) (by norm_num) (by norm_num)
      (roundHalfEven_of_lt _ _ (by norm_num) (by norm_num))]
    norm_num
  have r40 : roundBinary32 (1121931 / 1048576) = 1121931 / 1048576 := by
    rw [roundBinary32_eq (1121931 / 1048576) (0) (8975448) (by norm_num) (by norm_num) (by norm_num)
      (roundHalfEven_of_lt _ _ (by norm_num) (by norm_num))]
    norm_num
  have r41 : roundBinary32 (76325979 / 1048576) = 9540747 / 131072 := by
    rw [roundBinary32_eq (76325979 / 1048576) (6) (9540747) (by norm_num) (by norm_num) (by norm_num)
      (roundHalfEven_of_lt _ _ (by norm_num) (by norm_num))]
    norm_num
  have r42 : roundBinary32 (4017157 / 1048576) = 4017157 / 1048576 := by
    rw [roundBinary32_eq (4017157 / 1048576) (1) (16068628) (by norm_num) (by norm_num) (by norm_num)
      (roundHalfEven_of_lt _ _ (by norm_num) (by norm_num))]
    norm_num
  have r43 : roundBinary32 (177147 / 4194304) = 177147 / 4194304 := by
    rw [roundBinary32_eq (177147 / 4194304) (-5) (11337408) (by norm_num) (by norm_num) (by norm_num)
      (roundHalfEven_of_lt _ _ (by norm_num) (by norm_num))]
    norm_num
  have r44 : roundBinary32 (3365793 / 4194304) = 3365793 / 4194304 := by
    rw [roundBinary32_eq (3365793 / 4194304) (-1) (13463172) (by norm_num) (by norm_num) (by norm_num)
      (roundHalfEven_of_lt _ _ (by norm_num) (by norm_num))]
    norm_num
  have r45 : roundBinary32 (308669697 / 4194304) = 1205741 / 16384 := by
    rw [roundBinary32_eq (308669697 / 4194304) (6) (9645928) (by norm_num) (by norm_num) (by norm_num)
      (roundHalfEven_of_lt _ _ (by norm_num) (by norm_num))]
    norm_num
  have r46 : roundBinary32 (16245775 / 4194304) = 16245775 / 4194304 := by
    rw [roundBinary32_eq (16245775 / 4194304) (1) (16245775) (by norm_num) (by norm_num) (by norm_num)
      (roundHalfEven_of_lt _ _ (by norm_num) (by norm_num))]
    norm_num
  have r47 : roundBinary32 (531441 / 16777216) = 531441 / 16777216 := by
    rw [roundBinary32_eq (531441 / 16777216) (-5) (8503056) (by norm_num) (by norm_num) (by norm_num)
      (roundHalfEven_of_lt _ _ (by norm_num) (by norm_num))]
    norm_num
  have r48 : roundBinary32 (308669696 / 16245775) = 9961471 / 524288 := by
    rw [roundBinary32_eq (308669696 / 16245775) (4) (9961471) (by norm_num) (by norm_num) (by norm_num)
      (roundHalfEven_of_lt _ _ (by norm_num) (by norm_num))]
    norm_num
  have r49 : roundBinary32 (10485759 / 524288) = 10485759 / 524288 := by
    rw [roundBinary32_eq (10485759 / 524288) (4) (10485759) (by norm_num) (by norm_num) (by norm_num)
      (roundHalfEven_of_lt _ _ (by norm_num) (by norm_num))]
    norm_num
  have hf : sampleDefines.LEVEL_SKILL_PRECEDENCE_FACTOR = 3 / 4 := rfl
  unfold aggregateWith weightingWith
  rw [skillLevelsWith_sampleNineteen, hf]
  simp only [List.replicate, List.insertionSort, List.orderedInsert, le_refl, if_true,
    List.reverse_cons, List.reverse_nil, List.nil_append, List.cons_append, List.foldl,
    weightStepWith, FloatArith.add, FloatArith.mul, FloatArith.div, binary32]
  norm_num [roundBinary32_zero, r0, r1, r2, r3, r4, r5, r6, r7, r8, r9, r10, r11, r12, r13, r14, r15, r16, r17, r18, r19, r20, r21, r22, r23, r24, r25, r26, r27, r28, r29, r30, r31, r32, r33, r34, r35, r36, r37, r38, r39, r40, r41, r42, r43, r44, r45, r46, r47, r48, r49]

theorem ceil_sampleBeginner : ⌈(5452595 : ℚ) / 4194304⌉ = 2 := by
  rw [Int.ceil_eq_iff]
  norm_num

theorem progress_sampleBeginner :
    ⌊((5452595 : ℚ) / 4194304 - (⌊(5452595 : ℚ) / 4194304⌋ : ℚ)) * 100⌋ = 29 := by
  have h : ⌊(5452595 : ℚ) / 4194304⌋ = 1 := by
    rw [Int.floor_eq_iff]
    norm_num
  rw [h, Int.floor_eq_iff]
  norm_num

theorem ceil_sampleNovice : ⌈(3 : ℚ) / 2⌉ = 2 := by
  rw [Int.ceil_eq_iff]
  norm_num

theorem ceil_sampleEleven : ⌈(12582913 : ℚ) / 1048576⌉ = 13 := by
  rw [Int.ceil_eq_iff]
  norm_num

theorem ceil_sampleNineteen : ⌈(10485759 : ℚ) / 524288⌉ = 20 := by
  rw [Int.ceil_eq_iff]
  norm_num

theorem progress_sampleNineteen :
    ⌊((10485759 : ℚ) / 524288 - (⌊(10485759 : ℚ) / 524288⌋ : ℚ)) * 100⌋ = 99 := by
  have h : ⌊(10485759 : ℚ) / 524288⌋ = 19 := by
    rw [Int.floor_eq_iff]
    norm_num
  rw [h, Int.floor_eq_iff]
  norm_num

/-- The twelve fractional levels of `sampleEleven` without rounding. -/
theorem skillLevels_sampleEleven :
    skillLevels sampleDefines sampleEleven = List.replicate 12 11 := by
  have hb : sampleDefines.CHAR_SKILL_BEGIN = 22 := rfl
  have he : sampleDefines.CHAR_SKILL_END = 34 := rfl
  have hattr : ∀ a, 22 ≤ a → getAttribute sampleEleven a = 11 := by
    intro a h1
    show (if 22 ≤ a then Attribute.mk 11 0 else Attribute.mk 0 0).base = 11
    rw [if_pos h1]
  have hgot : ∀ s, getExpGot sampleDefines sampleEleven s = 0 := by
    intro s
    unfold getExpGot
    dsimp only
    rw [hb, hattr (s + 22) (by omega)]
    show wrapSigned 32 (13310 - expForLevel sampleDefines 11) = 0
    decide
  have hneed : ∀ s, getExpNeeded sampleDefines sampleEleven s = 3970 := by
    intro s
    unfold getExpNeeded
    dsimp only
    rw [hb, hattr (s + 22) (by omega)]
    decide
  rw [List.eq_replicate_iff]
  unfold skillLevels
  rw [hb, he]
  refine ⟨by simp, fun b hmem => ?_⟩
  rw [List.mem_map] at hmem
  obtain ⟨a, ha1, rfl⟩ := hmem
  rw [List.mem_range'_1] at ha1
  rw [hattr a ha1.1, hgot, hneed]
  norm_num

/-- The weighted average of twelve fractional levels 11 is 11. -/
theorem precedenceAverage_sampleEleven : precedenceAverage sampleDefines sampleEleven = 11 := by
  have hf : sampleDefines.LEVEL_SKILL_PRECEDENCE_FACTOR = 3 / 4 := rfl
  unfold precedenceAverage
  rw [skillLevels_sampleEleven, hf]
  simp only [List.replicate, List.insertionSort, List.orderedInsert, ge_iff_le, le_refl, if_true,
    precedenceWeightedSum, precedenceWeightSum]
  norm_num

/-- The call in a faithful arithmetic in which the levels from the level of the
character to the ceiling of the target convert without rounding. -/
theorem recalculateLevelWith_exact (ar : FloatArith) (har : ar.Faithful) (D : Defines)
    (fuel : Nat) (c : Character) (hskill : D.CHAR_SKILL_BEGIN < D.CHAR_SKILL_END)
    (hneed : ∀ s, s < D.CHAR_SKILL_END - D.CHAR_SKILL_BEGIN → getExpNeeded D c s ≠ 0)
    (hf : 0 ≤ D.LEVEL_SKILL_PRECEDENCE_FACTOR)
    (hexact : ∀ m : Int, c.mLevel ≤ m → m ≤ max c.mLevel ⌈aggregateWith ar D c⌉ →
      ar.ofInt m = (m : ℚ))
    (hfuel : (⌈aggregateWith ar D c⌉ - c.mLevel).toNat ≤ fuel) :
    recalculateLevelWith ar D fuel c
      = some (updateLevelProgress D (aggregateWith ar D c)
          ((levelup D)^[(⌈aggregateWith ar D c⌉ - c.mLevel).toNat] c)) := by
  rw [recalculateLevelWith_eq ar har D fuel c hskill hneed hf,
    levelupWhileWith_exact ar D _ _ c rfl hexact fuel hfuel]
  rfl

/-- The level after the call, under the conditions of `recalculateLevelWith_exact`. -/
theorem updateLevelProgress_mLevel (D : Defines) (T : ℚ) (c : Character) :
    (updateLevelProgress D T ((levelup D)^[(⌈T⌉ - c.mLevel).toNat] c)).mLevel
      = max c.mLevel ⌈T⌉ := by
  rw [(updateLevelProgress_iterate D T _ c).1]
  rcases le_total c.mLevel ⌈T⌉ with h | h
  · rw [max_eq_right h]
    omega
  · rw [max_eq_left h]
    omega

/-- In binary32 the novice, one skill at fractional level 0.5, ends at level 2. -/
theorem recalculateLevelWith_sampleNovice (fuel : Nat) (hfuel : 1 ≤ fuel) :
    ∃ c', recalculateLevelWith binary32 oneSkillDefines fuel sampleNovice = some c' ∧
      c'.mLevel = 2 := by
  have hc : ⌈aggregateWith binary32 oneSkillDefines sampleNovice⌉ = 2 := by
    rw [aggregateWith_sampleNovice, ceil_sampleNovice]
  have hl : sampleNovice.mLevel = 1 := rfl
  refine ⟨_, recalculateLevelWith_exact binary32 binary32_faithful oneSkillDefines fuel
    sampleNovice (by decide) (by decide) (by norm_num [oneSkillDefines, sampleDefines])
    (fun m h1 h2 => binary32_ofInt_exact m ?_) ?_, ?_⟩
  · rw [hc, hl] at h2
    rw [hl] at h1
    rw [abs_le]
    have h3 : max (1 : Int) 2 = 2 := by decide
    rw [h3] at h2
    omega
  · rw [hc, hl]
    exact hfuel
  · rw [updateLevelProgress_mLevel, hc, hl]
    decide

/-- In binary32 twelve skills at fractional level 11 give the target
12582913/1048576, just above 12: the character ends at level 13 with 12 times
the grant of character points. -/
theorem recalculateLevelWith_sampleEleven (fuel : Nat) (hfuel : 12 ≤ fuel) :
    ∃ c', recalculateLevelWith binary32 sampleDefines fuel sampleEleven = some c' ∧
      c'.mLevel = 13 ∧ c'.mCharacterPoints = 60 := by
  have hc : ⌈aggregateWith binary32 sampleDefines sampleEleven⌉ = 13 := by
    rw [aggregateWith_sampleEleven, ceil_sampleEleven]
  have hl : sampleEleven.mLevel = 1 := rfl
  refine ⟨_, recalculateLevelWith_exact binary32 binary32_faithful sampleDefines fuel
    sampleEleven (by decide) (by decide) (by norm_num [sampleDefines])
    (fun m h1 h2 => binary32_ofInt_exact m ?_) ?_, ?_, ?_⟩
  · rw [hc, hl] at h2
    rw [hl] at h1
    rw [abs_le]
    have h3 : max (1 : Int) 13 = 13 := by decide
    rw [h3] at h2
    omega
  · rw [hc, hl]
    exact hfuel
  · rw [updateLevelProgress_mLevel, hc, hl]
    decide
  · rw [(updateLevelProgress_iterate sampleDefines _ _ sampleEleven).2.1, hc, hl]
    decide

/-- A divisor that is zero takes the call out of the finite arithmetic: with a
skill that needs no experience the model gives no result. -/
theorem recalculateLevelWith_zero_need (ar : FloatArith) (D : Defines) (fuel : Nat)
    (c : Character) (h0 : ar.round 0 = 0) (s : Nat)
    (hs : s < D.CHAR_SKILL_END - D.CHAR_SKILL_BEGIN) (hz : getExpNeeded D c s = 0) :
    recalculateLevelWith ar D fuel c = none := by
  unfold recalculateLevelWith
  rw [if_neg]
  intro h
  apply h.1 s hs
  rw [hz]
  unfold FloatArith.ofInt
  simpa using h0

/-- At the skill level 599 the thresholds of this level and the next are both
out of the range of `int` on the cubic curve of factor 10: the skill needs no
experience, the experience got is `INT_MIN`, and the quotient of the call is
not finite. -/
theorem recalculateLevelWith_sampleChampion (fuel : Nat) :
    getExpNeeded oneSkillDefines sampleChampion 0 = 0 ∧
    getExpGot oneSkillDefines sampleChampion 0 = INT_MIN ∧
    recalculateLevelWith binary32 oneSkillDefines fuel sampleChampion = none := by
  have hz : getExpNeeded oneSkillDefines sampleChampion 0 = 0 := by decide
  exact ⟨hz, by decide,
    recalculateLevelWith_zero_need binary32 oneSkillDefines fuel sampleChampion
      roundBinary32_zero 0 (by decide) hz⟩

/-! ## Levels in float arithmetic: theorems -/

/-- C12, as stated, fails: a character of level 1 with a single skill of
fractional level 0.5 has A = 0.5 and floor(A) + 1 = 1, its level does not
exceed that, and `recalculateLevel()` leaves it at level 2, in binary32 as
without rounding: the loop runs while the level is below the target 1.5.  And a
character of level 1 with twelve skills of fractional level 11 has A = 11 and
floor(A) + 1 = 12; in binary32 the target is 12582913/1048576, just above 12,
and the call leaves the character at level 13. -/
theorem recalculateLevel_level_counterexample :
    precedenceAverage oneSkillDefines sampleNovice = 1 / 2 ∧
    sampleNovice.mLevel ≤ ⌊precedenceAverage oneSkillDefines sampleNovice⌋ + 1 ∧
    ⌊precedenceAverage oneSkillDefines sampleNovice⌋ + 1 = 1 ∧
    aggregateWith binary32 oneSkillDefines sampleNovice = 3 / 2 ∧
    (∀ fuel, 1 ≤ fuel →
      ∃ c', recalculateLevelWith binary32 oneSkillDefines fuel sampleNovice = some c' ∧
        c'.mLevel = 2) ∧
    (recalculateLevel oneSkillDefines sampleNovice).mLevel = 2 ∧
    precedenceAverage sampleDefines sampleEleven = 11 ∧
    sampleEleven.mLevel ≤ ⌊precedenceAverage sampleDefines sampleEleven⌋ + 1 ∧
    ⌊precedenceAverage sampleDefines sampleEleven⌋ + 1 = 12 ∧
    aggregateWith binary32 sampleDefines sampleEleven = 12582913 / 1048576 ∧
    (∀ fuel, 12 ≤ fuel →
      ∃ c', recalculateLevelWith binary32 sampleDefines fuel sampleEleven = some c' ∧
        c'.mLevel = 13) := by
  have hA := precedenceAverage_sampleNovice
  have hB := precedenceAverage_sampleEleven
  have hfloorA : ⌊(1 : ℚ) / 2⌋ = 0 := by
    rw [Int.floor_eq_iff]
    norm_num
  have hfloorB : ⌊(11 : ℚ)⌋ = 11 := by
    rw [Int.floor_eq_iff]
    norm_num
  have hceil : ⌈(1 : ℚ) / 2 + 1⌉ = 2 := by
    rw [Int.ceil_eq_iff]
    norm_num
  have hl : sampleNovice.mLevel = 1 := rfl
  have hm : sampleEleven.mLevel = 1 := rfl
  refine ⟨hA, ?_, ?_, aggregateWith_sampleNovice, recalculateLevelWith_sampleNovice, ?_, hB, ?_,
    ?_, aggregateWith_sampleEleven, ?_⟩
  · rw [hA, hfloorA, hl]
    decide
  · rw [hA, hfloorA]
    rfl
  · rw [(recalculateLevel_fields oneSkillDefines sampleNovice).1, aggregateLevel_eq_average, hA,
      hceil, hl]
    decide
  · rw [hB, hfloorB, hm]
    decide
  · rw [hB, hfloorB]
    rfl
  · intro fuel hfuel
    obtain ⟨c', h1, h2, _⟩ := recalculateLevelWith_sampleEleven fuel hfuel
    exact ⟨c', h1, h2⟩

/-- C12 (amended): let A be the precedence-weighted average of the skills'
fractional levels taken in descending order (weights 1, f, f^2, ..., with
0 < f < 1), for a character with at least one skill and a non-zero experience
needed per skill, and let T be the value that `recalculateLevel()` computes for
A + 1 in its `float` arithmetic.  Where the levels from the level L0 before the
call to ceil(T) convert to `float` without rounding, the call returns and the
level after it is max(L0, ceil(T)): ceil(T), the least integer that is not
below T, for every state whose level before the call does not exceed it.
Without rounding T is A + 1 and ceil(T) is ceil(A) + 1, that is floor(A) + 1
when A is an integer and floor(A) + 2 otherwise. -/
theorem recalculateLevel_level (ar : FloatArith) (D : Defines) (c : Character)
    (har : ar.Faithful)
    (hskill : D.CHAR_SKILL_BEGIN < D.CHAR_SKILL_END)
    (hneed : ∀ s, s < D.CHAR_SKILL_END - D.CHAR_SKILL_BEGIN → getExpNeeded D c s ≠ 0)
    (hf : 0 < D.LEVEL_SKILL_PRECEDENCE_FACTOR ∧ D.LEVEL_SKILL_PRECEDENCE_FACTOR < 1)
    (hexact : ∀ m : Int, c.mLevel ≤ m → m ≤ max c.mLevel ⌈aggregateWith ar D c⌉ →
      ar.ofInt m = (m : ℚ)) :
    (∃ (k : Nat) (c' : Character),
      (∀ fuel, k ≤ fuel → recalculateLevelWith ar D fuel c = some c') ∧
      c'.mLevel = max c.mLevel ⌈aggregateWith ar D c⌉ ∧
      (c.mLevel ≤ ⌈aggregateWith ar D c⌉ → c'.mLevel = ⌈aggregateWith ar D c⌉)) ∧
    aggregateWith exactArith D c = precedenceAverage D c + 1 ∧
    ⌈aggregateWith exactArith D c⌉ = ⌈precedenceAverage D c⌉ + 1 ∧
    ⌈precedenceAverage D c⌉ + 1
      = (if (⌊precedenceAverage D c⌋ : ℚ) = precedenceAverage D c
          then ⌊precedenceAverage D c⌋ + 1 else ⌊precedenceAverage D c⌋ + 2) := by
  have hT : aggregateWith exactArith D c = precedenceAverage D c + 1 :=
    aggregateLevel_eq_average D c
  have hlev := updateLevelProgress_mLevel D (aggregateWith ar D c) c
  refine ⟨⟨(⌈aggregateWith ar D c⌉ - c.mLevel).toNat, _, fun fuel hfuel =>
    recalculateLevelWith_exact ar har D fuel c hskill hneed (le_of_lt hf.1) hexact hfuel,
    hlev, fun h => ?_⟩, hT, ?_, ?_⟩
  · rw [hlev, max_eq_right h]
  · rw [hT, Int.ceil_add_one]
  · split
    · rename_i h
      have hc : ⌈precedenceAverage D c⌉ = ⌊precedenceAverage D c⌋ := by
        conv_lhs => rw [← h]
        exact Int.ceil_intCast _
      rw [hc]
    · rename_i h
      have h1 : (⌊precedenceAverage D c⌋ : ℚ) < precedenceAverage D c :=
        lt_of_le_of_ne (Int.floor_le _) h
      have h2 : ⌊precedenceAverage D c⌋ < ⌈precedenceAverage D c⌉ := Int.lt_ceil.mpr h1
      have h3 : ⌈precedenceAverage D c⌉ ≤ ⌊precedenceAverage D c⌋ + 1 :=
        Int.ceil_le_floor_add_one _
      omega

/-- Witness of C12 (amended): in binary32 the novice, whose target is 1.5, ends
at level ceil(1.5) = 2. -/
theorem recalculateLevel_level_witness :
    ∃ (k : Nat) (c' : Character),
      (∀ fuel, k ≤ fuel →
        recalculateLevelWith binary32 oneSkillDefines fuel sampleNovice = some c') ∧
      c'.mLevel = 2 := by
  have hc : ⌈aggregateWith binary32 oneSkillDefines sampleNovice⌉ = 2 := by
    rw [aggregateWith_sampleNovice, ceil_sampleNovice]
  have hl : sampleNovice.mLevel = 1 := rfl
  have hmax : max (1 : Int) 2 = 2 := by decide
  obtain ⟨⟨k, c', h1, h2, _⟩, _⟩ := recalculateLevel_level binary32 oneSkillDefines sampleNovice
    binary32_faithful (by decide) (by decide)
    (by constructor <;> norm_num [oneSkillDefines, sampleDefines])
    (fun m h1 h2 => binary32_ofInt_exact m (by
      rw [hc, hl, hmax] at h2
      rw [hl] at h1
      rw [abs_le]
      omega))
  refine ⟨k, c', h1, ?_⟩
  rw [h2, hc, hl]
  decide

/-- C15: for a character with at least one skill and a non-zero experience
needed per skill (and a precedence factor that is not negative), in every
faithful `float` arithmetic `recalculateLevel()` returns, and after it the
level-progress is floor((T - floor(T)) * 100) for the target `T` that this call
computes (the weighted average plus 1 when nothing rounds); it lies in 0..99,
and the progress flag is set after the call exactly when it was set before or
this value differs from the previous level-progress. -/
theorem recalculateLevel_progress (ar : FloatArith) (D : Defines) (c : Character)
    (har : ar.Faithful)
    (hskill : D.CHAR_SKILL_BEGIN < D.CHAR_SKILL_END)
    (hneed : ∀ s, s < D.CHAR_SKILL_END - D.CHAR_SKILL_BEGIN → getExpNeeded D c s ≠ 0)
    (hf : 0 ≤ D.LEVEL_SKILL_PRECEDENCE_FACTOR) :
    ∃ (k : Nat) (c' : Character),
      (∀ fuel, k ≤ fuel → recalculateLevelWith ar D fuel c = some c') ∧
      c'.mLevelProgress = ⌊(aggregateWith ar D c - (⌊aggregateWith ar D c⌋ : ℚ)) * 100⌋ ∧
      0 ≤ c'.mLevelProgress ∧ c'.mLevelProgress ≤ 99 ∧
      c'.mUpdateLevelProgress = (c.mUpdateLevelProgress ||
        decide (⌊(aggregateWith ar D c - (⌊aggregateWith ar D c⌋ : ℚ)) * 100⌋
          ≠ c.mLevelProgress)) ∧
      aggregateWith exactArith D c = precedenceAverage D c + 1 := by
  obtain ⟨k, _, _, hres⟩ := levelupWhileWith_terminates ar har D (aggregateWith ar D c) c
  obtain ⟨_, _, h3, h4⟩ := updateLevelProgress_iterate D (aggregateWith ar D c) k c
  obtain ⟨_, h0, h99⟩ := floatToInt_progress D (aggregateWith ar D c)
  refine ⟨k, updateLevelProgress D (aggregateWith ar D c) ((levelup D)^[k] c), ?_, h3, ?_, ?_, h4,
    aggregateLevel_eq_average D c⟩
  · intro fuel hfuel
    rw [recalculateLevelWith_eq ar har D fuel c hskill hneed hf, hres fuel hfuel]
    rfl
  · rw [h3]
    exact h0
  · rw [h3]
    exact h99

/-- Witness of C15: in binary32 a character of level 1 with one skill at
3 points of the 10 needed gets the target 5452595/4194304, just below 1.3, and
the level-progress 29; twelve skills at fractional level 19 give the target
10485759/524288, just below 20, and the level-progress 99.  The flag is raised
in both cases. -/
theorem recalculateLevel_progress_witness :
    (∃ (k : Nat) (c' : Character),
      (∀ fuel, k ≤ fuel →
        recalculateLevelWith binary32 oneSkillDefines fuel sampleBeginner = some c') ∧
      c'.mLevelProgress = 29 ∧ c'.mUpdateLevelProgress = true) ∧
    (∃ (k : Nat) (c' : Character),
      (∀ fuel, k ≤ fuel →
        recalculateLevelWith binary32 sampleDefines fuel sampleNineteen = some c') ∧
      c'.mLevelProgress = 99 ∧ c'.mUpdateLevelProgress = true) := by
  constructor
  · obtain ⟨k, c', h1, h2, _, _, h5, _⟩ := recalculateLevel_progress binary32 oneSkillDefines
      sampleBeginner binary32_faithful (by decide) (by decide)
      (by norm_num [oneSkillDefines, sampleDefines])
    rw [aggregateWith_sampleBeginner, progress_sampleBeginner] at h2 h5
    exact ⟨k, c', h1, h2, by rw [h5]; rfl⟩
  · obtain ⟨k, c', h1, h2, _, _, h5, _⟩ := recalculateLevel_progress binary32 sampleDefines
      sampleNineteen binary32_faithful (by decide) (by decide) (by norm_num [sampleDefines])
    rw [aggregateWith_sampleNineteen, progress_sampleNineteen] at h2 h5
    exact ⟨k, c', h1, h2, by rw [h5]; rfl⟩

end Manaserv
